import Mathlib

/-!
Verification of the data-loading / normalization / filtering core of the
`cacadordeofertas` promotions catalog.  The JavaScript sources
(`js/csv-parser.js`, `js/filters.js`, `js/product-renderer.js`, the main
application script and its SQLite row mapping) are shallowly embedded:
JavaScript numbers become exact rationals extended with `NaN` and the two
infinities, strings stay strings, fallible operations return `Option`.
-/

/-!
The field operations of `ℚ` are `@[irreducible]` in Batteries, so concrete
evaluation (`rfl`/`decide`) cannot go through them.  All arithmetic in the
embedding therefore uses the following `mkRat`-based helpers, which do
evaluate; bridge lemmas below identify them with `+`, `-`, `*`, `/`.
-/

/-- Exact rational addition through `mkRat`. -/
def qAdd (a b : ℚ) : ℚ := mkRat (a.num * b.den + b.num * a.den) (a.den * b.den)

/-- Exact rational subtraction through `mkRat`. -/
def qSub (a b : ℚ) : ℚ := mkRat (a.num * b.den - b.num * a.den) (a.den * b.den)

/-- Exact rational multiplication through `mkRat`. -/
def qMul (a b : ℚ) : ℚ := mkRat (a.num * b.num) (a.den * b.den)

/-- Exact rational negation through `mkRat`. -/
def qNeg (a : ℚ) : ℚ := mkRat (-a.num) a.den

/-- Exact rational inverse through `mkRat` (`0⁻¹ = 0`). -/
def qInv (a : ℚ) : ℚ :=
  mkRat (if 0 ≤ a.num then (a.den : ℤ) else -(a.den : ℤ)) a.num.natAbs

/-- Exact rational division through `mkRat` (division by zero gives `0`;
the JavaScript embedding guards those cases separately). -/
def qDiv (a b : ℚ) : ℚ := qMul a (qInv b)

theorem qAdd_eq (a b : ℚ) : qAdd a b = a + b := by
  rw [qAdd, Rat.mkRat_eq_div]
  have ha : ((a.den : ℚ)) ≠ 0 := Nat.cast_ne_zero.mpr a.den_nz
  have hb : ((b.den : ℚ)) ≠ 0 := Nat.cast_ne_zero.mpr b.den_nz
  conv_rhs => rw [← Rat.num_div_den a, ← Rat.num_div_den b]
  push_cast
  field_simp
  try ring

theorem qSub_eq (a b : ℚ) : qSub a b = a - b := by
  rw [qSub, Rat.mkRat_eq_div]
  have ha : ((a.den : ℚ)) ≠ 0 := Nat.cast_ne_zero.mpr a.den_nz
  have hb : ((b.den : ℚ)) ≠ 0 := Nat.cast_ne_zero.mpr b.den_nz
  conv_rhs => rw [← Rat.num_div_den a, ← Rat.num_div_den b]
  push_cast
  field_simp
  try ring

theorem qMul_eq (a b : ℚ) : qMul a b = a * b := by
  rw [qMul, Rat.mkRat_eq_div]
  have ha : ((a.den : ℚ)) ≠ 0 := Nat.cast_ne_zero.mpr a.den_nz
  have hb : ((b.den : ℚ)) ≠ 0 := Nat.cast_ne_zero.mpr b.den_nz
  conv_rhs => rw [← Rat.num_div_den a, ← Rat.num_div_den b]
  push_cast
  field_simp
  try ring

theorem qNeg_eq (a : ℚ) : qNeg a = -a := by
  rw [qNeg, Rat.mkRat_eq_div]
  have ha : ((a.den : ℚ)) ≠ 0 := Nat.cast_ne_zero.mpr a.den_nz
  conv_rhs => rw [← Rat.num_div_den a]
  push_cast
  field_simp

theorem qInv_eq (a : ℚ) : qInv a = a⁻¹ := by
  rcases eq_or_ne a.num 0 with h | h
  · have ha : a = 0 := Rat.num_eq_zero.mp h
    rw [qInv, h]
    simp [ha]
  · have hden : ((a.den : ℚ)) ≠ 0 := Nat.cast_ne_zero.mpr a.den_nz
    have hnum : ((a.num : ℚ)) ≠ 0 := Int.cast_ne_zero.mpr h
    have key : a * ((a.den : ℚ) / (a.num : ℚ)) = 1 := by
      nth_rewrite 1 [← Rat.num_div_den a]
      field_simp
    refine (inv_eq_of_mul_eq_one_right ?_).symm
    rw [qInv, Rat.mkRat_eq_div]
    rcases le_or_lt 0 a.num with hs | hs
    · rw [if_pos hs]
      have habs : ((a.num.natAbs : ℚ)) = ((a.num : ℚ)) := by
        rw [Int.cast_natAbs, abs_of_nonneg hs]
      rw [habs]
      push_cast
      exact key
    · rw [if_neg (not_le.mpr hs)]
      have habs : ((a.num.natAbs : ℚ)) = -((a.num : ℚ)) := by
        rw [Int.cast_natAbs, abs_of_neg hs, Int.cast_neg]
      rw [habs]
      push_cast
      rw [div_neg, neg_div, neg_neg]
      exact key

theorem qDiv_eq (a b : ℚ) : qDiv a b = a / b := by
  rw [qDiv, qMul_eq, qInv_eq, div_eq_mul_inv]

/-- JavaScript numbers, embedded as exact rationals extended with the IEEE
special values `NaN` and the two infinities (`inf true` is `+∞`).  Finite
values are kept exact; the binary rounding of doubles is not modelled. -/
inductive JNum where
  | nan : JNum
  | inf : Bool → JNum
  | fin : ℚ → JNum
deriving DecidableEq, Repr

/-- `NaN` test. -/
def JNum.isNaN : JNum → Bool
  | .nan => true
  | _ => false

/-- JavaScript `<` on numbers: any comparison with `NaN` is false. -/
def JNum.lt : JNum → JNum → Bool
  | .nan, _ => false
  | _, .nan => false
  | .inf s, .inf t => !s && t
  | .inf s, .fin _ => !s
  | .fin _, .inf t => t
  | .fin a, .fin b => a < b

/-- JavaScript `<=` on numbers: any comparison with `NaN` is false. -/
def JNum.le : JNum → JNum → Bool
  | .nan, _ => false
  | _, .nan => false
  | .inf s, .inf t => !s || t
  | .inf s, .fin _ => !s
  | .fin _, .inf t => t
  | .fin a, .fin b => a ≤ b

/-- JavaScript subtraction on numbers (`∞ - ∞ = NaN`, etc.). -/
def JNum.sub : JNum → JNum → JNum
  | .nan, _ => .nan
  | _, .nan => .nan
  | .inf s, .inf t => if s = t then .nan else .inf s
  | .inf s, .fin _ => .inf s
  | .fin _, .inf t => .inf (!t)
  | .fin a, .fin b => .fin (qSub a b)

/-- JavaScript multiplication on numbers (`∞ * 0 = NaN`, signed infinities). -/
def JNum.mul : JNum → JNum → JNum
  | .nan, _ => .nan
  | _, .nan => .nan
  | .inf s, .inf t => .inf (s == t)
  | .inf s, .fin b => if b = 0 then .nan else .inf (s == decide (0 < b))
  | .fin a, .inf t => if a = 0 then .nan else .inf (t == decide (0 < a))
  | .fin a, .fin b => .fin (qMul a b)

/-- JavaScript division on numbers (`∞ / ∞ = NaN`, `x / 0 = ±∞` for `x ≠ 0`,
`0 / 0 = NaN`; the sign of a floating-point negative zero is not modelled). -/
def JNum.div : JNum → JNum → JNum
  | .nan, _ => .nan
  | _, .nan => .nan
  | .inf _, .inf _ => .nan
  | .inf s, .fin b => .inf (s == decide (0 ≤ b))
  | .fin _, .inf _ => .fin 0
  | .fin a, .fin b =>
      if b = 0 then (if a = 0 then .nan else .inf (decide (0 < a)))
      else .fin (qDiv a b)

/-- `Math.round`: round half towards `+∞`; fixes `NaN` and the infinities. -/
def JNum.round : JNum → JNum
  | .nan => .nan
  | .inf s => .inf s
  | .fin q => .fin ((⌊qAdd q (mkRat 1 2)⌋ : ℤ) : ℚ)

/-- JavaScript whitespace characters recognised when trimming numeric input
(space, tab, line feed, carriage return, vertical tab, form feed). -/
def isWsChar (c : Char) : Bool :=
  c = ' ' || c = '\t' || c = '\n' || c = '\r' || c = Char.ofNat 11 || c = Char.ofNat 12

/-- Model of JavaScript `String.prototype.trim` (drop leading and trailing
whitespace), computed on the character list so that it evaluates. -/
def jsTrim (s : String) : String :=
  String.mk (((s.toList.dropWhile isWsChar).reverse.dropWhile isWsChar).reverse)

/-- Split a character list at every occurrence of `sep` (the separator is
dropped; `n+1` fields for `n` separators). -/
def splitOnCharAux (sep : Char) : List Char → List (List Char)
  | [] => [[]]
  | c :: cs =>
      if c = sep then [] :: splitOnCharAux sep cs
      else
        match splitOnCharAux sep cs with
        | f :: fs => (c :: f) :: fs
        | [] => [[c]]

/-- Model of JavaScript `String.prototype.split` with a single-character
separator. -/
def splitOnChar (sep : Char) (s : String) : List String :=
  (splitOnCharAux sep s.toList).map String.mk

/-- ASCII decimal digit test. -/
def isDigitChar (c : Char) : Bool := '0' ≤ c && c ≤ '9'

/-- Value of an ASCII decimal digit. -/
def digitVal (c : Char) : ℕ := c.toNat - '0'.toNat

/-- Numeric value of a big-endian list of decimal digits. -/
def digitsToNat (ds : List Char) : ℕ := ds.foldl (fun a c => 10 * a + digitVal c) 0

/-- Split a maximal run of decimal digits off the front of a character list. -/
def takeDigits : List Char → List Char × List Char
  | [] => ([], [])
  | c :: cs =>
      if isDigitChar c then
        let p := takeDigits cs
        (c :: p.1, p.2)
      else ([], c :: cs)

/-- Exact value of a decimal literal with integer digits `I`, fraction digits
`F` and decimal exponent `e`. -/
def decValue (I F : List Char) (e : ℤ) : ℚ :=
  let base := qAdd (mkRat (digitsToNat I : ℤ) 1) (mkRat (digitsToNat F : ℤ) (10 ^ F.length))
  if 0 ≤ e then qMul base (mkRat ((10 : ℤ) ^ e.toNat) 1)
  else qDiv base (mkRat ((10 : ℤ) ^ (-e).toNat) 1)

/-- Parse `digits [. digits]` off the front of a character list; `none` when
no digit at all is present (matching ECMAScript `StrUnsignedDecimalLiteral`
without its exponent part). -/
def takeDecimal (cs : List Char) : Option ((List Char × List Char) × List Char) :=
  let p := takeDigits cs
  match p.2 with
  | '.' :: r2 =>
      let f := takeDigits r2
      if p.1 = [] && f.1 = [] then none else some ((p.1, f.1), f.2)
  | _ => if p.1 = [] then none else some ((p.1, []), p.2)

/-- Parse an optional exponent part `e[+-]digits` off the front of a character
list, returning the (signed) exponent and the unconsumed remainder; the `e`
is only consumed when at least one digit follows. -/
def takeExp : List Char → ℤ × List Char
  | [] => (0, [])
  | c :: rest =>
      if c = 'e' || c = 'E' then
        match rest with
        | s :: rest2 =>
            if s = '+' || s = '-' then
              let p := takeDigits rest2
              if p.1 = [] then (0, c :: rest)
              else ((if s = '-' then -(digitsToNat p.1 : ℤ) else (digitsToNat p.1 : ℤ)), p.2)
            else
              let p := takeDigits rest
              if p.1 = [] then (0, c :: rest) else ((digitsToNat p.1 : ℤ), p.2)
        | [] => (0, [c])
      else (0, c :: rest)

/-- Split an optional leading sign; returns `(isNegative, rest)`. -/
def takeSign : List Char → Bool × List Char
  | '-' :: r => (true, r)
  | '+' :: r => (false, r)
  | r => (false, r)

/-- The global JavaScript `parseFloat`: skip leading whitespace, then parse
the longest prefix that is a `StrDecimalLiteral` (optional sign, `Infinity`,
or decimal digits with optional fraction and exponent); `NaN` when no prefix
parses. -/
def jsParseFloat (s : String) : JNum :=
  let cs := s.toList.dropWhile isWsChar
  let sp := takeSign cs
  if sp.2.take 8 = "Infinity".toList then JNum.inf (!sp.1)
  else
    match takeDecimal sp.2 with
    | none => .nan
    | some ((I, F), r) =>
        let e := (takeExp r).1
        let v := decValue I F e
        .fin (if sp.1 then qNeg v else v)

/-- ASCII hexadecimal digit test. -/
def isHexDigitChar (c : Char) : Bool :=
  isDigitChar c || ('a' ≤ c && c ≤ 'f') || ('A' ≤ c && c ≤ 'F')

/-- Value of an ASCII hexadecimal digit. -/
def hexVal (c : Char) : ℕ :=
  if isDigitChar c then digitVal c
  else if 'a' ≤ c then c.toNat - 'a'.toNat + 10
  else c.toNat - 'A'.toNat + 10

/-- Split a maximal run of hexadecimal digits off the front of a list. -/
def takeHexDigits : List Char → List Char × List Char
  | [] => ([], [])
  | c :: cs =>
      if isHexDigitChar c then
        let p := takeHexDigits cs
        (c :: p.1, p.2)
      else ([], c :: cs)

/-- Numeric value of a big-endian list of hexadecimal digits. -/
def hexDigitsToNat (ds : List Char) : ℕ := ds.foldl (fun a c => 16 * a + hexVal c) 0

/-- The global JavaScript `parseInt` with no radix argument: skip leading
whitespace, optional sign, then either a `0x`/`0X` hexadecimal literal or a
run of decimal digits; `NaN` when no digit is found. -/
def jsParseInt (s : String) : JNum :=
  let cs := s.toList.dropWhile isWsChar
  let sp := takeSign cs
  match sp.2 with
  | '0' :: x :: rest =>
      if x = 'x' || x = 'X' then
        let p := takeHexDigits rest
        if p.1 = [] then .nan
        else .fin (mkRat (if sp.1 then -(hexDigitsToNat p.1 : ℤ) else (hexDigitsToNat p.1 : ℤ)) 1)
      else
        let p := takeDigits ('0' :: x :: rest)
        .fin (mkRat (if sp.1 then -(digitsToNat p.1 : ℤ) else (digitsToNat p.1 : ℤ)) 1)
  | _ =>
      let p := takeDigits sp.2
      if p.1 = [] then .nan
      else .fin (mkRat (if sp.1 then -(digitsToNat p.1 : ℤ) else (digitsToNat p.1 : ℤ)) 1)

/-- Full-string decimal branch of the JavaScript `Number` conversion:
optional sign, then `Infinity` or a decimal literal with optional exponent,
with nothing left over. -/
def decFullValue (cs : List Char) : JNum :=
  let sp := takeSign cs
  if sp.2 = "Infinity".toList then .inf (!sp.1)
  else
    match takeDecimal sp.2 with
    | none => .nan
    | some ((I, F), r) =>
        let p := takeExp r
        if p.2 = [] then
          let v := decValue I F p.1
          .fin (if sp.1 then qNeg v else v)
        else .nan

/-- Binary digit test. -/
def isBinDigitChar (c : Char) : Bool := c = '0' || c = '1'

/-- Octal digit test. -/
def isOctDigitChar (c : Char) : Bool := '0' ≤ c && c ≤ '7'

/-- The JavaScript `Number` conversion applied to a string: trim whitespace,
empty means `0`, otherwise the whole string must be a numeric literal
(decimal with optional sign and exponent, `Infinity`, or an unsigned
`0x`/`0o`/`0b` literal); anything else is `NaN`. -/
def jsStringToNumber (s : String) : JNum :=
  let cs := ((s.toList.dropWhile isWsChar).reverse.dropWhile isWsChar).reverse
  match cs with
  | [] => .fin 0
  | '0' :: x :: rest =>
      if x = 'x' || x = 'X' then
        if rest ≠ [] && rest.all isHexDigitChar then .fin (hexDigitsToNat rest : ℚ) else .nan
      else if x = 'o' || x = 'O' then
        if rest ≠ [] && rest.all isOctDigitChar then
          .fin (rest.foldl (fun a c => 8 * a + digitVal c) 0 : ℚ)
        else .nan
      else if x = 'b' || x = 'B' then
        if rest ≠ [] && rest.all isBinDigitChar then
          .fin (rest.foldl (fun a c => 2 * a + digitVal c) 0 : ℚ)
        else .nan
      else decFullValue cs
  | _ => decFullValue cs

/-- Fuel-driven worker for `countFactor` (structural recursion on the fuel,
so that it evaluates inside the kernel). -/
def countFactorAux : ℕ → ℕ → ℕ → ℕ
  | 0, _, _ => 0
  | fuel + 1, p, n =>
      if 2 ≤ p ∧ 1 ≤ n ∧ n % p = 0 then countFactorAux fuel p (n / p) + 1 else 0

/-- Number of times the prime `p` divides `n` (`0` on degenerate inputs). -/
def countFactor (p n : ℕ) : ℕ := countFactorAux n p n

/-- The ASCII character of a decimal digit. -/
def digitChar (d : ℕ) : Char := Char.ofNat ('0'.toNat + d)

/-- Fuel-driven worker for `natDecDigits` (structural recursion on the fuel,
so that it evaluates inside the kernel). -/
def natDecDigitsAux : ℕ → ℕ → List Char
  | 0, _ => []
  | fuel + 1, n =>
      if n < 10 then [digitChar n] else natDecDigitsAux fuel (n / 10) ++ [digitChar (n % 10)]

/-- Big-endian decimal digits of a natural number. -/
def natDecDigits (n : ℕ) : List Char := natDecDigitsAux (n + 1) n

/-- Decimal string of a natural number. -/
def natDecString (n : ℕ) : String := String.mk (natDecDigits n)

/-- Left-pad a digit list with zeros to length `k`. -/
def padLeftZeros (k : ℕ) (ds : List Char) : List Char :=
  List.replicate (k - ds.length) '0' ++ ds

/-- Decimal rendering of a rational whose reduced denominator divides some
power of ten -- the exact values JavaScript prints in plain positional
notation.  Models the `Number`-to-string conversion for such values
(exponential notation for extreme magnitudes is not modelled). -/
def numToString (q : ℚ) : String :=
  let k := max (countFactor 2 q.den) (countFactor 5 q.den)
  let m : ℕ := q.num.natAbs * (10 ^ k / q.den)
  let ip := m / 10 ^ k
  let fp := m % 10 ^ k
  (if q.num < 0 then "-" else "") ++ natDecString ip ++
    (if k = 0 then "" else "." ++ String.mk (padLeftZeros k (natDecDigits fp)))

/-- JavaScript `Number`-to-string conversion on the extended number type. -/
def jnumToString : JNum → String
  | .nan => "NaN"
  | .inf true => "Infinity"
  | .inf false => "-Infinity"
  | .fin q => numToString q

/-- Model of JavaScript `toLowerCase` (ASCII case folding). -/
def jsToLower (s : String) : String := String.mk (s.toList.map Char.toLower)

/-- Model of JavaScript `String.prototype.includes`: substring test. -/
def jsIncludes (s pat : String) : Bool := decide (pat.toList <:+: s.toList)

theorem sanity_check1 : jsParseFloat " 12.5abc" = .fin (mkRat 25 2) := by rfl
theorem sanity_check2 : jsParseFloat "" = .nan := by rfl
theorem sanity_check3 : jsParseFloat "-Infinity" = .inf false := by rfl
theorem sanity_check4 : jsParseInt "42.9" = .fin 42 := by rfl
theorem sanity_check5 : jsStringToNumber "abc" = .nan := by rfl
theorem sanity_check6 : jsStringToNumber "  12e1 " = .fin 120 := by rfl
theorem sanity_check7 : jsStringToNumber "" = .fin 0 := by rfl
theorem sanity_check8 : numToString (mkRat (-199) 10) = "-19.9" := by rfl
theorem sanity_check9 : numToString 0 = "0" := by rfl
theorem sanity_check10 : jsIncludes "abcd" "bc" = true := by decide

/-- JavaScript `Date` values as they occur in the product pipeline: the
absence of a date (`null`), an invalid date (`NaN` time value), or an
instant as integral milliseconds since the Unix epoch. -/
inductive JDate where
  | null : JDate
  | invalid : JDate
  | time : ℤ → JDate
deriving DecidableEq, Repr

/-- Civil date (year, month, day) of a day count relative to 1970-01-01,
proleptic Gregorian (Hinnant's `civil_from_days`; `/` and `%` on `ℤ` are
Euclidean, hence floor-like for the positive divisors used here). -/
def civilFromDays (z0 : ℤ) : ℤ × ℤ × ℤ :=
  let z := z0 + 719468
  let era := z / 146097
  let doe := z - era * 146097
  let yoe := (doe - doe / 1460 + doe / 36524 - doe / 146096) / 365
  let y := yoe + era * 400
  let doy := doe - (365 * yoe + yoe / 4 - yoe / 100)
  let mp := (5 * doy + 2) / 153
  let d := doy - (153 * mp + 2) / 5 + 1
  let m := if mp < 10 then mp + 3 else mp - 9
  (y + (if m ≤ 2 then 1 else 0), m, d)

/-- Day count relative to 1970-01-01 of a civil (year, month, day),
proleptic Gregorian (Hinnant's `days_from_civil`). -/
def daysFromCivil (y0 m d : ℤ) : ℤ :=
  let y := if m ≤ 2 then y0 - 1 else y0
  let era := y / 400
  let yoe := y - era * 400
  let mp := if 2 < m then m - 3 else m + 9
  let doy := (153 * mp + 2) / 5 + d - 1
  let doe := yoe * 365 + yoe / 4 - yoe / 100 + doy
  era * 146097 + doe - 719468

/-- Zero-padded decimal rendering of a natural number to width `k`. -/
def padNat (k n : ℕ) : String := String.mk (padLeftZeros k (natDecDigits n))

/-- `Date.prototype.toISOString` on an integral millisecond time value:
`YYYY-MM-DDTHH:MM:SS.sssZ`, with the expanded `±YYYYYY` form outside
years 0–9999. -/
def isoStringOfMs (t : ℤ) : String :=
  let days := t / 86400000
  let msDay := (t % 86400000).toNat
  let c := civilFromDays days
  let yearStr :=
    if 0 ≤ c.1 ∧ c.1 ≤ 9999 then padNat 4 c.1.toNat
    else (if c.1 < 0 then "-" else "+") ++ padNat 6 c.1.natAbs
  yearStr ++ "-" ++ padNat 2 c.2.1.toNat ++ "-" ++ padNat 2 c.2.2.toNat ++ "T" ++
    padNat 2 (msDay / 3600000) ++ ":" ++ padNat 2 (msDay % 3600000 / 60000) ++ ":" ++
    padNat 2 (msDay % 60000 / 1000) ++ "." ++ padNat 3 (msDay % 1000) ++ "Z"

/-- Take exactly `k` decimal digits off the front of a character list. -/
def takeFixedDigits (k : ℕ) (cs : List Char) : Option (ℕ × List Char) :=
  let d := cs.take k
  if d.length = k ∧ d.all isDigitChar then some (digitsToNat d, cs.drop k) else none

/-- Consume one expected character. -/
def expectChar (c : Char) : List Char → Option (List Char)
  | x :: xs => if x = c then some xs else none
  | [] => none

/-- Millisecond value of the time-of-day tail of an ISO string (after the
day): empty (midnight UTC), or `THH:MM[:SS[.sss]]Z`. -/
def parseIsoTimeTail : List Char → Option ℕ
  | [] => some 0
  | 'T' :: r0 =>
      match takeFixedDigits 2 r0 with
      | none => none
      | some (hh, r1) =>
          match expectChar ':' r1 with
          | none => none
          | some r2 =>
              match takeFixedDigits 2 r2 with
              | none => none
              | some (mi, r3) =>
                  let secPart : Option (ℕ × ℕ × List Char) :=
                    match r3 with
                    | ':' :: r4 =>
                        match takeFixedDigits 2 r4 with
                        | none => none
                        | some (ss, r5) =>
                            match r5 with
                            | '.' :: r6 =>
                                match takeFixedDigits 3 r6 with
                                | none => none
                                | some (ms, r7) => some (ss, ms, r7)
                            | _ => some (ss, 0, r5)
                    | _ => some (0, 0, r3)
                  match secPart with
                  | none => none
                  | some (ss, ms, r8) =>
                      if r8 = ['Z'] ∧ hh ≤ 23 ∧ mi ≤ 59 ∧ ss ≤ 59 then
                        some (hh * 3600000 + mi * 60000 + ss * 1000 + ms)
                      else none
  | _ => none

/-- Model of ECMAScript `Date` string parsing restricted to the ISO 8601
UTC forms that occur in this application (`YYYY-MM-DD`, optionally followed
by `THH:MM[:SS[.sss]]Z`); local-time forms and the engine-specific legacy
formats are outside the model and yield an invalid date. -/
def jsDateOfString (s : String) : JDate :=
  match takeFixedDigits 4 s.toList with
  | none => .invalid
  | some (y, r1) =>
      match expectChar '-' r1 with
      | none => .invalid
      | some r2 =>
          match takeFixedDigits 2 r2 with
          | none => .invalid
          | some (m, r3) =>
              match expectChar '-' r3 with
              | none => .invalid
              | some r4 =>
                  match takeFixedDigits 2 r4 with
                  | none => .invalid
                  | some (d, r5) =>
                      if 1 ≤ m ∧ m ≤ 12 ∧ 1 ≤ d ∧ d ≤ 31 then
                        match parseIsoTimeTail r5 with
                        | none => .invalid
                        | some ms =>
                            .time (daysFromCivil (y : ℤ) (m : ℤ) (d : ℤ) * 86400000 + (ms : ℤ))
                      else .invalid

/-- `new Date(x)` for a numeric `x`: truncate towards zero, invalid when the
magnitude exceeds `8.64e15` (ECMAScript `TimeClip`). -/
def jsDateOfNumber (q : ℚ) : JDate :=
  if q.num.natAbs ≤ 8640000000000000 * q.den then .time (Int.tdiv q.num q.den)
  else .invalid

/-- Numeric value used by the `newest` sort comparator: models
`(x ? new Date(x) : new Date(0)).getTime()`, where `x` is the stored
date-or-null (an invalid `Date` object is truthy and yields `NaN`). -/
def jsDateNumber : JDate → JNum
  | .null => .fin 0
  | .invalid => .nan
  | .time t => .fin (t : ℚ)

theorem sanity_check11 : jsDateOfString "2025-01-20T22:00:00Z" = .time 1737410400000 := by rfl
theorem sanity_check12 : jsDateOfString "1970-01-01" = .time 0 := by rfl
theorem sanity_check13 : jsDateOfString "hello" = .invalid := by rfl
theorem sanity_check14 : isoStringOfMs 1737410400000 = "2025-01-20T22:00:00.000Z" := by rfl
theorem sanity_check15 : isoStringOfMs (-1) = "1969-12-31T23:59:59.999Z" := by rfl

/-- The canonical normalized product entity (field names as in the source). -/
structure Product where
  id : String
  titulo : String
  descricao : String
  preco_original : JNum
  preco_promocional : JNum
  desconto_percentual : JNum
  link_afiliado : String
  imagens_base64 : List String
  categoria_principal : String
  nichos : List String
  plataforma : String
  avaliacao : JNum
  vendas : JNum
  data_inicio_promocao : JDate
  data_fim_promocao : JDate
  data_publicacao : JDate
  status : String
deriving DecidableEq, Repr

/-- A raw CSV row object: the value of each known header, with `""` standing
for both an empty field and an absent property (the two are indistinguishable
to the truthiness tests and numeric parses the normalizer applies). -/
structure RawProduct where
  id : String := ""
  titulo : String := ""
  descricao : String := ""
  preco_original : String := ""
  preco_promocional : String := ""
  desconto_percentual : String := ""
  link_afiliado : String := ""
  imagens_base64 : String := ""
  categoria_principal : String := ""
  nichos : String := ""
  plataforma : String := ""
  avaliacao : String := ""
  vendas : String := ""
  data_inicio_promocao : String := ""
  data_fim_promocao : String := ""
  data_publicacao : String := ""
  status : String := ""
deriving DecidableEq, Repr

/-- JavaScript `s || d` for string values: the default replaces the falsy
empty string. -/
def jsOrDefault (s d : String) : String := if s = "" then d else s

/-- JavaScript number truthiness, negated: `!x` is true for `0` and `NaN`. -/
def jnumFalsy : JNum → Bool
  | .nan => true
  | .inf _ => false
  | .fin q => q = 0

namespace Utils

/-- The base64 alphabet. -/
def base64Alphabet : List Char :=
  "ABCDEFGHIJKLMNOPQRSTUVWXYZabcdefghijklmnopqrstuvwxyz0123456789+/".toList

/-- The base64 digit of a 6-bit value. -/
def b64Char (n : ℕ) : Char := base64Alphabet.getD n 'A'

/-- Base64-encode a byte list, three bytes to four digits, `=`-padded. -/
def btoaChunks : List ℕ → List Char
  | [] => []
  | [a] => [b64Char (a / 4), b64Char (a % 4 * 16), '=', '=']
  | [a, b] => [b64Char (a / 4), b64Char (a % 4 * 16 + b / 16), b64Char (b % 16 * 4), '=']
  | a :: b :: c :: rest =>
      b64Char (a / 4) :: b64Char (a % 4 * 16 + b / 16) ::
        b64Char (b % 16 * 4 + c / 64) :: b64Char (c % 64) :: btoaChunks rest

/-- The browser `btoa` on a Latin-1 string. -/
def btoa (s : String) : String := String.mk (btoaChunks (s.toList.map Char.toNat))

/-- `Utils.getPlaceholderImage`: an inline SVG placeholder as a base64 data
URI (the template text reproduces the source literal byte for byte). -/
def getPlaceholderImage (width : ℕ := 300) (height : ℕ := 200) : String :=
  "data:image/svg+xml;base64," ++ btoa ("\n        <svg width=\"" ++ natDecString width ++
    "\" height=\"" ++ natDecString height ++
    "\" xmlns=\"http://www.w3.org/2000/svg\">\n            <rect width=\"100%\" height=\"100%\" fill=\"#ddd\"/>\n            <text x=\"50%\" y=\"50%\" font-family=\"Arial\" font-size=\"14\" fill=\"#999\" text-anchor=\"middle\" dy=\".3em\">\n                Imagem não disponível\n            </text>\n        </svg>\n    ")

end Utils

namespace CSVParser

/-- `CSVParser.parseFloat`: the global `parseFloat` with a `0` fallback for
`NaN`. -/
def parseFloat (value : String) : JNum :=
  match jsParseFloat value with
  | .nan => .fin 0
  | v => v

/-- `CSVParser.parseInt`: the global `parseInt` with a `0` fallback for
`NaN`. -/
def parseInt (value : String) : JNum :=
  match jsParseInt value with
  | .nan => .fin 0
  | v => v

/-- `CSVParser.parseDate`: empty string gives `null`, otherwise parse; an
invalid date is replaced by `null`. -/
def parseDate (dateString : String) : JDate :=
  if dateString = "" then .null
  else
    match jsDateOfString dateString with
    | .invalid => .null
    | d => d

/-- `CSVParser.parseStringArray`: split on commas, trim, drop empties. -/
def parseStringArray (str : String) : List String :=
  if str = "" then []
  else ((splitOnChar ',' str).map jsTrim).filter (fun item => item.length != 0)

/-- `CSVParser.parseImageArray`: split on pipes, trim, drop empties. -/
def parseImageArray (str : String) : List String :=
  if str = "" then []
  else ((splitOnChar '|' str).map jsTrim).filter (fun img => img.length != 0)

/-- Character loop of `CSVParser.parseCSVLine`: `inQuotes` state, the field
accumulated so far, and the remaining characters. -/
def parseCSVLineAux : Bool → List Char → List Char → List String
  | _, current, [] => [jsTrim (String.mk current)]
  | true, current, '"' :: '"' :: rest2 => parseCSVLineAux true (current ++ ['"']) rest2
  | true, current, '"' :: rest => parseCSVLineAux false current rest
  | false, current, '"' :: rest => parseCSVLineAux true current rest
  | true, current, ',' :: rest => parseCSVLineAux true (current ++ [',']) rest
  | false, current, ',' :: rest => jsTrim (String.mk current) :: parseCSVLineAux false [] rest
  | inQuotes, current, c :: rest => parseCSVLineAux inQuotes (current ++ [c]) rest

/-- `CSVParser.parseCSVLine`: split one CSV line into trimmed field values,
handling double-quoted fields and `""` escapes. -/
def parseCSVLine (line : String) : List String := parseCSVLineAux false [] line.toList

/-- `CSVParser.processProductData`: normalize one raw row into a `Product`,
or `none` when a required field is missing or the promotional price is not
positive. -/
def processProductData (rawProduct : RawProduct) : Option Product :=
  if rawProduct.id = "" || rawProduct.titulo = "" || rawProduct.link_afiliado = "" then none
  else
    let preco_original := parseFloat rawProduct.preco_original
    let preco_promocional := parseFloat rawProduct.preco_promocional
    let desconto0 := parseInt rawProduct.desconto_percentual
    let desconto :=
      if jnumFalsy desconto0 && JNum.lt (.fin 0) preco_original then
        JNum.round (JNum.mul (JNum.div (JNum.sub preco_original preco_promocional)
          preco_original) (.fin 100))
      else desconto0
    let product : Product := {
      id := rawProduct.id
      titulo := jsOrDefault rawProduct.titulo ""
      descricao := jsOrDefault rawProduct.descricao ""
      preco_original := preco_original
      preco_promocional := preco_promocional
      desconto_percentual := desconto
      link_afiliado := jsOrDefault rawProduct.link_afiliado ""
      imagens_base64 := parseImageArray rawProduct.imagens_base64
      categoria_principal := jsOrDefault rawProduct.categoria_principal "Outros"
      nichos := parseStringArray rawProduct.nichos
      plataforma := jsOrDefault rawProduct.plataforma "Desconhecida"
      avaliacao := parseFloat rawProduct.avaliacao
      vendas := parseInt rawProduct.vendas
      data_inicio_promocao := parseDate rawProduct.data_inicio_promocao
      data_fim_promocao := parseDate rawProduct.data_fim_promocao
      data_publicacao := parseDate rawProduct.data_publicacao
      status := jsOrDefault rawProduct.status "published" }
    if JNum.le preco_promocional (.fin 0) then none else some product

/-- One header/value assignment `product[header] = values[index]` restricted
to the known headers (values under other headers are never read). -/
def setRawField (r : RawProduct) (h v : String) : RawProduct :=
  if h = "id" then { r with id := v }
  else if h = "titulo" then { r with titulo := v }
  else if h = "descricao" then { r with descricao := v }
  else if h = "preco_original" then { r with preco_original := v }
  else if h = "preco_promocional" then { r with preco_promocional := v }
  else if h = "desconto_percentual" then { r with desconto_percentual := v }
  else if h = "link_afiliado" then { r with link_afiliado := v }
  else if h = "imagens_base64" then { r with imagens_base64 := v }
  else if h = "categoria_principal" then { r with categoria_principal := v }
  else if h = "nichos" then { r with nichos := v }
  else if h = "plataforma" then { r with plataforma := v }
  else if h = "avaliacao" then { r with avaliacao := v }
  else if h = "vendas" then { r with vendas := v }
  else if h = "data_inicio_promocao" then { r with data_inicio_promocao := v }
  else if h = "data_fim_promocao" then { r with data_fim_promocao := v }
  else if h = "data_publicacao" then { r with data_publicacao := v }
  else if h = "status" then { r with status := v }
  else r

/-- Build the raw row object by assigning each header its value in order. -/
def buildRaw (headers values : List String) : RawProduct :=
  (List.zip headers values).foldl (fun r p => setRawField r p.1 p.2) {}

/-- The data-row loop of `CSVParser.parseCSV`: skip blank lines and rows
whose column count differs from the header, normalize the rest, keep the
successes. -/
def parseCSVRows (headers : List String) : List String → List Product
  | [] => []
  | l :: ls =>
      let line := jsTrim l
      if line = "" then parseCSVRows headers ls
      else
        let values := parseCSVLine line
        if values.length ≠ headers.length then parseCSVRows headers ls
        else
          match processProductData (buildRaw headers values) with
          | some p => p :: parseCSVRows headers ls
          | none => parseCSVRows headers ls

/-- `CSVParser.getSampleData`: the six built-in demonstration products. -/
def getSampleData : List Product :=
  [ { id := "sample1"
      titulo := "Fone de Ouvido Bluetooth 5.0 com Cancelamento de Ruído"
      descricao := "Fone de ouvido sem fio com bateria de 20 horas, resistente à água IPX7 e microfone embutido para chamadas."
      preco_original := .fin (mkRat 19990 100)
      preco_promocional := .fin (mkRat 9990 100)
      desconto_percentual := .fin 50
      link_afiliado := "https://shopee.com.br/produto/exemplo1"
      imagens_base64 := [Utils.getPlaceholderImage 300 300]
      categoria_principal := "Eletrônicos"
      nichos := ["ofertas relampago", "novidades"]
      plataforma := "Shopee"
      avaliacao := .fin (mkRat 48 10)
      vendas := .fin 1500
      data_inicio_promocao := jsDateOfString "2025-01-20T22:00:00Z"
      data_fim_promocao := jsDateOfString "2025-01-21T06:00:00Z"
      data_publicacao := jsDateOfString "2025-01-21T10:00:00Z"
      status := "published" },
    { id := "sample2"
      titulo := "Smartwatch Fitness com Monitor Cardíaco"
      descricao := "Relógio inteligente com monitoramento de saúde 24/7, GPS integrado e resistência à água."
      preco_original := .fin (mkRat 29990 100)
      preco_promocional := .fin (mkRat 14990 100)
      desconto_percentual := .fin 50
      link_afiliado := "https://amazon.com.br/produto/exemplo2"
      imagens_base64 := [Utils.getPlaceholderImage 300 300]
      categoria_principal := "Eletrônicos"
      nichos := ["mais vendidos"]
      plataforma := "Amazon"
      avaliacao := .fin (mkRat 45 10)
      vendas := .fin 800
      data_inicio_promocao := jsDateOfString "2025-01-20T22:00:00Z"
      data_fim_promocao := jsDateOfString "2025-01-22T06:00:00Z"
      data_publicacao := jsDateOfString "2025-01-21T10:00:00Z"
      status := "published" },
    { id := "sample3"
      titulo := "Carregador Portátil 20000mAh Fast Charge"
      descricao := "Power bank de alta capacidade com carregamento rápido e múltiplas portas USB."
      preco_original := .fin (mkRat 8990 100)
      preco_promocional := .fin (mkRat 4490 100)
      desconto_percentual := .fin 50
      link_afiliado := "https://aliexpress.com/produto/exemplo3"
      imagens_base64 := [Utils.getPlaceholderImage 300 300]
      categoria_principal := "Eletrônicos"
      nichos := ["ofertas relampago"]
      plataforma := "AliExpress"
      avaliacao := .fin (mkRat 43 10)
      vendas := .fin 2200
      data_inicio_promocao := jsDateOfString "2025-01-20T22:00:00Z"
      data_fim_promocao := jsDateOfString "2025-01-21T06:00:00Z"
      data_publicacao := jsDateOfString "2025-01-21T10:00:00Z"
      status := "published" },
    { id := "sample4"
      titulo := "Camiseta Básica 100% Algodão"
      descricao := "Camiseta confortável e versátil, disponível em várias cores e tamanhos."
      preco_original := .fin (mkRat 3990 100)
      preco_promocional := .fin (mkRat 1990 100)
      desconto_percentual := .fin 50
      link_afiliado := "https://magazineluiza.com.br/produto/exemplo4"
      imagens_base64 := [Utils.getPlaceholderImage 300 300]
      categoria_principal := "Moda"
      nichos := ["novidades"]
      plataforma := "Magazine Luiza"
      avaliacao := .fin (mkRat 42 10)
      vendas := .fin 500
      data_inicio_promocao := jsDateOfString "2025-01-20T22:00:00Z"
      data_fim_promocao := jsDateOfString "2025-01-23T06:00:00Z"
      data_publicacao := jsDateOfString "2025-01-21T10:00:00Z"
      status := "published" },
    { id := "sample5"
      titulo := "Luminária LED Inteligente RGB"
      descricao := "Luminária com controle por aplicativo, milhões de cores e sincronização com música."
      preco_original := .fin (mkRat 12990 100)
      preco_promocional := .fin (mkRat 6490 100)
      desconto_percentual := .fin 50
      link_afiliado := "https://temu.com/produto/exemplo5"
      imagens_base64 := [Utils.getPlaceholderImage 300 300]
      categoria_principal := "Casa e Decoração"
      nichos := ["mais vendidos", "novidades"]
      plataforma := "TEMU"
      avaliacao := .fin (mkRat 46 10)
      vendas := .fin 1200
      data_inicio_promocao := jsDateOfString "2025-01-20T22:00:00Z"
      data_fim_promocao := jsDateOfString "2025-01-24T06:00:00Z"
      data_publicacao := jsDateOfString "2025-01-21T10:00:00Z"
      status := "published" },
    { id := "sample6"
      titulo := "Mouse Gamer RGB 12000 DPI"
      descricao := "Mouse para jogos com sensor óptico de alta precisão, 7 botões programáveis e iluminação RGB."
      preco_original := .fin (mkRat 15990 100)
      preco_promocional := .fin (mkRat 7990 100)
      desconto_percentual := .fin 50
      link_afiliado := "https://shopee.com.br/produto/exemplo6"
      imagens_base64 := [Utils.getPlaceholderImage 300 300]
      categoria_principal := "Eletrônicos"
      nichos := ["ofertas relampago", "mais vendidos"]
      plataforma := "Shopee"
      avaliacao := .fin (mkRat 47 10)
      vendas := .fin 950
      data_inicio_promocao := jsDateOfString "2025-01-20T22:00:00Z"
      data_fim_promocao := jsDateOfString "2025-01-21T06:00:00Z"
      data_publicacao := jsDateOfString "2025-01-21T10:00:00Z"
      status := "published" } ]

/-- `CSVParser.parseCSV`: split into lines; fewer than two lines falls back
to the sample data, otherwise the first line is the header and the rest are
data rows. -/
def parseCSV (csvText : String) : List Product :=
  match splitOnChar '\n' csvText with
  | [] => getSampleData
  | [_] => getSampleData
  | headerLine :: rest => parseCSVRows (parseCSVLine headerLine) rest

/-- Outcome of the `fetch` of the published-sheet URL, as seen by
`loadProducts`: a network failure (rejected promise), or a response with its
`ok` flag and body text. -/
inductive FetchResult where
  | networkError : FetchResult
  | response (ok : Bool) (text : String) : FetchResult
deriving DecidableEq

/-- `CSVParser.loadProducts`: parse the fetched CSV; a network error or a
non-ok status (the `throw` inside the `try`) is caught and replaced by the
sample data. -/
def loadProducts : FetchResult → List Product
  | .networkError => getSampleData
  | .response false _ => getSampleData
  | .response true text => parseCSV text

end CSVParser

theorem sanity_check16 : CSVParser.parseCSVLine "a, \"b,\"\"c\"  ,d" = ["a", "b,\"c", "d"] := by rfl
theorem sanity_check17 : (CSVParser.processProductData { id := "1", titulo := "t", link_afiliado := "l", preco_promocional := "5" }).isSome = true := by rfl
theorem sanity_check18 : CSVParser.processProductData { id := "1", titulo := "t", link_afiliado := "l", preco_promocional := "0" } = none := by rfl

/-- JSON values (object fields in insertion order, as JavaScript keeps them). -/
inductive Json where
  | null : Json
  | bool (b : Bool) : Json
  | num (q : ℚ) : Json
  | str (s : String) : Json
  | arr (items : List Json) : Json
  | obj (fields : List (String × Json)) : Json
deriving Repr

/-- The opening brace character. -/
def lbraceChar : Char := Char.ofNat 123

/-- The closing brace character. -/
def rbraceChar : Char := Char.ofNat 125

/-- Lowercase hexadecimal digit character. -/
def hexDigitChar (n : ℕ) : Char :=
  if n < 10 then digitChar n else Char.ofNat ('a'.toNat + (n - 10))

/-- `JSON.stringify` escaping of one character inside a string literal. -/
def escapeJChar (c : Char) : List Char :=
  if c = '"' then ['\\', '"']
  else if c = '\\' then ['\\', '\\']
  else if c = Char.ofNat 8 then ['\\', 'b']
  else if c = Char.ofNat 12 then ['\\', 'f']
  else if c = '\n' then ['\\', 'n']
  else if c = '\r' then ['\\', 'r']
  else if c = '\t' then ['\\', 't']
  else if c.toNat < 32 then ['\\', 'u', '0', '0', hexDigitChar (c.toNat / 16), hexDigitChar (c.toNat % 16)]
  else [c]

/-- A JSON string literal: quoted and escaped. -/
def quoteJString (s : String) : String :=
  String.mk ('"' :: (s.toList.map escapeJChar).flatten ++ ['"'])

/-- Serialize the items of a nonempty array, separated by `sep`. -/
def joinStringifyItems (f : Json → String) (sep : String) : Json → List Json → String
  | x, [] => f x
  | x, y :: ys => f x ++ sep ++ joinStringifyItems f sep y ys

/-- Serialize the fields of a nonempty object, separated by `sep`. -/
def joinStringifyFields (f : Json → String) (sep : String) :
    (String × Json) → List (String × Json) → String
  | p, [] => quoteJString p.1 ++ ": " ++ f p.2
  | p, q :: qs => quoteJString p.1 ++ ": " ++ f p.2 ++ sep ++ joinStringifyFields f sep q qs

/-- `JSON.stringify(·, null, 2)` at indentation `ind`, with recursion fuel
(structural on the fuel so that it evaluates; any fuel exceeding the value's
nesting depth gives the serialization). -/
def jsonStringifyF : Nat → String → Json → String
  | 0, _, _ => ""
  | fuel + 1, ind, v =>
      match v with
      | .null => "null"
      | .bool true => "true"
      | .bool false => "false"
      | .num q => numToString q
      | .str s => quoteJString s
      | .arr [] => "[]"
      | .arr (x :: xs) =>
          let ind2 := ind ++ "  "
          "[\n" ++ ind2 ++ joinStringifyItems (jsonStringifyF fuel ind2) (",\n" ++ ind2) x xs ++
            "\n" ++ ind ++ "]"
      | .obj [] => "\x7b\x7d"
      | .obj (p :: ps) =>
          let ind2 := ind ++ "  "
          "\x7b\n" ++ ind2 ++ joinStringifyFields (jsonStringifyF fuel ind2) (",\n" ++ ind2) p ps ++
            "\n" ++ ind ++ "\x7d"

/-- `JSON.stringify(v, null, 2)`.  The fuel `8` strictly exceeds the nesting
depth of every value this application serializes (an array of product
objects whose fields are scalars or arrays of strings has depth 3). -/
def jsonStringify (v : Json) : String := jsonStringifyF 8 "" v

/-- JSON whitespace. -/
def isJsonWs (c : Char) : Bool := c = ' ' || c = '\t' || c = '\n' || c = '\r'

/-- Skip JSON whitespace. -/
def skipJWs (cs : List Char) : List Char := cs.dropWhile isJsonWs

/-- Parse the body of a JSON string literal (after the opening quote), up to
and including the closing quote; handles the JSON escapes.  Lone-surrogate
`\u` escapes are outside the model (Lean characters are scalar values). -/
def pStringBody : List Char → Option (List Char × List Char)
  | [] => none
  | '"' :: rest => some ([], rest)
  | '\\' :: 'u' :: a :: b :: c :: d :: rest =>
      if [a, b, c, d].all isHexDigitChar then
        (pStringBody rest).map (fun p => (Char.ofNat (hexDigitsToNat [a, b, c, d]) :: p.1, p.2))
      else none
  | '\\' :: e :: rest =>
      if e = '"' then (pStringBody rest).map (fun p => ('"' :: p.1, p.2))
      else if e = '\\' then (pStringBody rest).map (fun p => ('\\' :: p.1, p.2))
      else if e = '/' then (pStringBody rest).map (fun p => ('/' :: p.1, p.2))
      else if e = 'b' then (pStringBody rest).map (fun p => (Char.ofNat 8 :: p.1, p.2))
      else if e = 'f' then (pStringBody rest).map (fun p => (Char.ofNat 12 :: p.1, p.2))
      else if e = 'n' then (pStringBody rest).map (fun p => ('\n' :: p.1, p.2))
      else if e = 'r' then (pStringBody rest).map (fun p => ('\r' :: p.1, p.2))
      else if e = 't' then (pStringBody rest).map (fun p => ('\t' :: p.1, p.2))
      else none
  | c :: rest =>
      if c.toNat < 32 then none
      else (pStringBody rest).map (fun p => (c :: p.1, p.2))

/-- Parse the fraction part of a JSON number (possibly absent). -/
def pFrac : List Char → Option (List Char × List Char)
  | '.' :: r =>
      let p := takeDigits r
      if p.1 = [] then none else some (p.1, p.2)
  | cs => some ([], cs)

/-- Parse the exponent part of a JSON number (possibly absent). -/
def pExp : List Char → Option (ℤ × List Char)
  | [] => some (0, [])
  | c :: r =>
      if c = 'e' || c = 'E' then
        match r with
        | '+' :: r2 =>
            let p := takeDigits r2
            if p.1 = [] then none else some ((digitsToNat p.1 : ℤ), p.2)
        | '-' :: r2 =>
            let p := takeDigits r2
            if p.1 = [] then none else some (-(digitsToNat p.1 : ℤ), p.2)
        | r2 =>
            let p := takeDigits r2
            if p.1 = [] then none else some ((digitsToNat p.1 : ℤ), p.2)
      else some (0, c :: r)

/-- Parse an unsigned JSON number (strict grammar: no leading zeros, fraction
and exponent each requiring at least one digit). -/
def pNumberPos (cs : List Char) : Option (ℚ × List Char) :=
  let ip := takeDigits cs
  if ip.1 = [] then none
  else if ip.1.head? = some '0' ∧ ip.1.length ≠ 1 then none
  else
    match pFrac ip.2 with
    | none => none
    | some (F, r2) =>
        match pExp r2 with
        | none => none
        | some (e, r3) => some (decValue ip.1 F e, r3)

/-- Parse a JSON number (strict grammar: optional leading `-`, no leading
zeros, fraction and exponent each requiring at least one digit). -/
def pNumber (cs : List Char) : Option (ℚ × List Char) :=
  match cs with
  | '-' :: r => (pNumberPos r).map (fun p => (qNeg p.1, p.2))
  | r => pNumberPos r

/-- Item loop of a JSON array parse (after the opening bracket, at least one
item): parse a value with `pv`, then `,` continues and `]` ends. -/
def pItemsAux (pv : List Char → Option (Json × List Char)) :
    Nat → List Char → Option (List Json × List Char)
  | 0, _ => none
  | steps + 1, cs =>
      match pv cs with
      | none => none
      | some (v, r) =>
          match skipJWs r with
          | ',' :: r2 =>
              match pItemsAux pv steps r2 with
              | some (vs, r3) => some (v :: vs, r3)
              | none => none
          | ']' :: r2 => some ([v], r2)
          | _ => none

/-- Field loop of a JSON object parse (after the opening brace, at least one
field). -/
def pFieldsAux (pv : List Char → Option (Json × List Char)) :
    Nat → List Char → Option (List (String × Json) × List Char)
  | 0, _ => none
  | steps + 1, cs =>
      match skipJWs cs with
      | '"' :: r =>
          match pStringBody r with
          | none => none
          | some (k, r2) =>
              match skipJWs r2 with
              | ':' :: r3 =>
                  match pv r3 with
                  | none => none
                  | some (v, r4) =>
                      match skipJWs r4 with
                      | [] => none
                      | c :: r5 =>
                          if c = ',' then
                            match pFieldsAux pv steps r5 with
                            | some (fs, r6) => some ((String.mk k, v) :: fs, r6)
                            | none => none
                          else if c = rbraceChar then some ([(String.mk k, v)], r5)
                          else none
              | _ => none
      | _ => none

/-- Parse one JSON value (recursion fuel structural, so that it evaluates);
returns the value and the unconsumed remainder. -/
def pVal : Nat → List Char → Option (Json × List Char)
  | 0, _ => none
  | fuel + 1, cs =>
      match skipJWs cs with
      | 'n' :: 'u' :: 'l' :: 'l' :: r => some (.null, r)
      | 't' :: 'r' :: 'u' :: 'e' :: r => some (.bool true, r)
      | 'f' :: 'a' :: 'l' :: 's' :: 'e' :: r => some (.bool false, r)
      | '"' :: r => (pStringBody r).map (fun p => (.str (String.mk p.1), p.2))
      | '[' :: r =>
          match skipJWs r with
          | ']' :: r2 => some (.arr [], r2)
          | _ =>
              match pItemsAux (pVal fuel) (fuel + 1) r with
              | some (vs, r2) => some (.arr vs, r2)
              | none => none
      | cs2 =>
          if cs2.head? = some lbraceChar then
            match skipJWs (cs2.tail) with
            | c :: r2 =>
                if c = rbraceChar then some (.obj [], r2)
                else
                  match pFieldsAux (pVal fuel) (fuel + 1) cs2.tail with
                  | some (fs, r3) => some (.obj fs, r3)
                  | none => none
            | [] => none
          else (pNumber cs2).map (fun p => (.num p.1, p.2))

/-- `JSON.parse`: parse a complete JSON text (trailing whitespace allowed,
anything else rejected); `none` models the thrown `SyntaxError`. -/
def jsonParse (s : String) : Option Json :=
  match pVal (s.length + 1) s.toList with
  | some (v, rest) => if skipJWs rest = [] then some v else none
  | none => none

theorem sanity_check19 : jsonStringify (.arr [.num (mkRat 15 10), .str "a\"b"]) = "[\n  1.5,\n  \"a\\\"b\"\n]" := by rfl
theorem sanity_check20 : jsonParse "[\n  1.5,\n  \"a\\\"b\"\n]" = some (.arr [.num (mkRat 15 10), .str "a\"b"]) := by rfl
theorem sanity_check21 : jsonParse " \x7b\"k\": [1, true, null]\x7d " = some (.obj [("k", .arr [.num 1, .bool true, .null])]) := by rfl
theorem sanity_check22 : jsonParse "01" = none := by rfl

/-- A value in a SQLite result cell as surfaced by `sql.js`: `NULL`, a
(finite) number, or a string. -/
inductive JsValue where
  | vnull : JsValue
  | vnum (q : ℚ) : JsValue
  | vstr (s : String) : JsValue
deriving DecidableEq, Repr

/-- JavaScript `String(v)` on a cell value. -/
def jsToString : JsValue → String
  | .vnull => "null"
  | .vnum q => numToString q
  | .vstr s => s

/-- Join `String(·)` renderings with commas (the array case of JavaScript
`String`), with structural fuel. -/
def joinStrWith (f : Json → String) : List Json → String
  | [] => ""
  | [x] => f x
  | x :: xs => f x ++ "," ++ joinStrWith f xs

/-- JavaScript `String(v)` on a parsed JSON value (fuel covers any nesting
depth the application meets). -/
def jsonValToStringF : Nat → Json → String
  | 0, _ => ""
  | fuel + 1, v =>
      match v with
      | .null => "null"
      | .bool true => "true"
      | .bool false => "false"
      | .num q => numToString q
      | .str s => s
      | .arr xs => joinStrWith (jsonValToStringF fuel) xs
      | .obj _ => "[object Object]"

/-- One row of the SQLite query result, keyed by the expected columns:
`none` is a column absent from the selected set, `some .vnull` a SQL `NULL`.
Text-typed columns are modelled as string-or-null; the numeric and date
columns carry arbitrary cell values. -/
structure DbRow where
  id : Option JsValue := none
  titulo : Option (Option String) := none
  descricao : Option (Option String) := none
  preco_original : Option JsValue := none
  preco_promocional : Option JsValue := none
  desconto_percentual : Option JsValue := none
  link_afiliado : Option (Option String) := none
  imagens_base64 : Option (Option String) := none
  categoria_principal : Option (Option String) := none
  nichos : Option (Option String) := none
  plataforma : Option (Option String) := none
  avaliacao : Option JsValue := none
  vendas : Option JsValue := none
  data_inicio_promocao : Option JsValue := none
  data_fim_promocao : Option JsValue := none
  data_publicacao : Option JsValue := none
  status : Option (Option String) := none
deriving DecidableEq, Repr

/-- `(k in obj && obj[k] !== null) ? Number(obj[k]) : 0` — the numeric-field
normalization of the SQLite row mapping (no `NaN` guard). -/
def dbNumber : Option JsValue → JNum
  | none => .fin 0
  | some .vnull => .fin 0
  | some (.vnum q) => .fin q
  | some (.vstr s) => jsStringToNumber s

/-- `obj[k] || d` on a string-or-null column. -/
def dbString : Option (Option String) → String → String
  | some (some s), d => if s = "" then d else s
  | _, d => d

/-- `('id' in obj) ? String(obj.id) : ''`. -/
def dbId : Option JsValue → String
  | none => ""
  | some v => jsToString v

/-- The separator fallback for the images column: split on `|`, else on `,`,
else a single item. -/
def dbSplitFallback (s : String) : List String :=
  if jsIncludes s "|" then splitOnChar '|' s
  else if jsIncludes s "," then splitOnChar ',' s
  else [s]

/-- The images normalization of the SQLite row mapping: a JSON array
literal, else pipe- or comma-delimited text, else a single value; items are
stringified, trimmed and the empties dropped.  A `JSON.parse` failure takes
the `catch` path, which splits the original (untrimmed) value. -/
def dbImages : Option (Option String) → List String
  | some (some s) =>
      if s = "" then []
      else
        let trimmed := jsTrim s
        let tl := trimmed.toList
        let imagesArr : List String :=
          if (tl.head? = some '[' ∧ tl.getLast? = some ']') ∨ tl.take 2 = [lbraceChar, '"'] then
            match jsonParse trimmed with
            | some (.arr xs) => xs.map (jsonValToStringF 8)
            | some _ => []
            | none => dbSplitFallback s
          else dbSplitFallback trimmed
        (imagesArr.map jsTrim).filter (fun x => x ≠ "")
  | _ => []

/-- The niches normalization of the SQLite row mapping: comma-split, trimmed,
empties dropped. -/
def dbNichos : Option (Option String) → List String
  | some (some s) =>
      if s = "" then []
      else ((splitOnChar ',' s).map jsTrim).filter (fun x => x ≠ "")
  | _ => []

/-- The date normalization of the SQLite row mapping:
`(k in obj) ? (obj[k] ? new Date(obj[k]) : null) : null`. -/
def dbDate : Option JsValue → JDate
  | none => .null
  | some .vnull => .null
  | some (.vnum q) => if q = 0 then .null else jsDateOfNumber q
  | some (.vstr s) => if s = "" then .null else jsDateOfString s

namespace PromotionsApp

/-- The row-to-product mapping inside `PromotionsApp.loadProducts` (SQLite
backend).  Field-level defaulting only; no row is ever rejected.  The
`obj.imagens` compatibility copy of `imagens_base64` has no separate slot in
the canonical entity. -/
def normalizeDbRow (row : DbRow) : Product :=
  { id := dbId row.id
    titulo := dbString row.titulo ""
    descricao := dbString row.descricao ""
    preco_original := dbNumber row.preco_original
    preco_promocional := dbNumber row.preco_promocional
    desconto_percentual := dbNumber row.desconto_percentual
    link_afiliado := dbString row.link_afiliado ""
    imagens_base64 := dbImages row.imagens_base64
    categoria_principal := dbString row.categoria_principal "Outros"
    nichos := dbNichos row.nichos
    plataforma := dbString row.plataforma ""
    avaliacao := dbNumber row.avaliacao
    vendas := dbNumber row.vendas
    data_inicio_promocao := dbDate row.data_inicio_promocao
    data_fim_promocao := dbDate row.data_fim_promocao
    data_publicacao := dbDate row.data_publicacao
    status := dbString row.status "" }

end PromotionsApp

/-- Stable insertion of `x` into a sorted list: `x` goes before the first
element `y` with `le x y`. -/
def jsInsert (le : α → α → Bool) (x : α) : List α → List α
  | [] => [x]
  | y :: ys => if le x y then x :: y :: ys else y :: jsInsert le x ys

/-- A stable sort.  ECMAScript specifies `Array.prototype.sort` only through
its result — a stable permutation, sorted with respect to the comparator
whenever the comparator is consistent — so any stable sorting algorithm is a
faithful model. -/
def jsSortBy (le : α → α → Bool) : List α → List α
  | [] => []
  | x :: xs => jsInsert le x (jsSortBy le xs)

/-- The ordering induced by a JavaScript sort comparator: `x` may precede
`y` unless the comparator is positive (a `NaN` comparator value counts as
`0` per `SortCompare`). -/
def jsCompLe (c : α → α → JNum) (x y : α) : Bool := !(JNum.lt (.fin 0) (c x y))

/-- The filter state of `FiltersManager`. -/
structure Filters where
  search : String := ""
  platform : String := ""
  category : String := ""
  sort : String := "discount"
deriving DecidableEq, Repr

/-- The mutable state of a `FiltersManager` instance (the DOM controls and
URL synchronisation are outside the model). -/
structure FiltersState where
  allProducts : List Product
  filteredProducts : List Product
  currentFilters : Filters
  currentPage : Nat
  itemsPerPage : Nat

namespace FiltersManager

/-- `FiltersManager.sortProducts`: sort a copy of the list by the selected
criterion (an unknown key returns the copy unchanged). -/
def sortProducts (products : List Product) (sortBy : String) : List Product :=
  let sorted := products
  if sortBy = "discount" then
    jsSortBy (jsCompLe fun a b => JNum.sub b.desconto_percentual a.desconto_percentual) sorted
  else if sortBy = "price-low" then
    jsSortBy (jsCompLe fun a b => JNum.sub a.preco_promocional b.preco_promocional) sorted
  else if sortBy = "price-high" then
    jsSortBy (jsCompLe fun a b => JNum.sub b.preco_promocional a.preco_promocional) sorted
  else if sortBy = "newest" then
    jsSortBy (jsCompLe fun a b =>
      JNum.sub (jsDateNumber b.data_publicacao) (jsDateNumber a.data_publicacao)) sorted
  else if sortBy = "rating" then
    jsSortBy (jsCompLe fun a b => JNum.sub b.avaliacao a.avaliacao) sorted
  else if sortBy = "sales" then
    jsSortBy (jsCompLe fun a b => JNum.sub b.vendas a.vendas) sorted
  else sorted

/-- The search predicate of `applyFilters`: the lowered search term occurs
in the lowered title, description, category or platform. -/
def matchesSearch (searchTerm : String) (product : Product) : Bool :=
  jsIncludes (jsToLower product.titulo) searchTerm ||
  jsIncludes (jsToLower product.descricao) searchTerm ||
  jsIncludes (jsToLower product.categoria_principal) searchTerm ||
  jsIncludes (jsToLower product.plataforma) searchTerm

/-- `FiltersManager.applyFilters`: filter a copy of `allProducts` by search,
platform and category, sort it, and store it as `filteredProducts` (the
re-rendering and the stats display are outside the model). -/
def applyFilters (s : FiltersState) : FiltersState :=
  let filtered := s.allProducts
  let filtered :=
    if s.currentFilters.search ≠ "" then
      filtered.filter (matchesSearch (jsToLower s.currentFilters.search))
    else filtered
  let filtered :=
    if s.currentFilters.platform ≠ "" then
      filtered.filter (fun p => decide (p.plataforma = s.currentFilters.platform))
    else filtered
  let filtered :=
    if s.currentFilters.category ≠ "" then
      filtered.filter (fun p => decide (p.categoria_principal = s.currentFilters.category))
    else filtered
  let filtered := sortProducts filtered s.currentFilters.sort
  { s with filteredProducts := filtered }

/-- The serialization of one product by `JSON.stringify`: own enumerable
fields in insertion order; `NaN`/infinite numbers and invalid dates
serialize to `null`, valid dates to their ISO string. -/
def productToJson (p : Product) : Json :=
  .obj [("id", .str p.id), ("titulo", .str p.titulo), ("descricao", .str p.descricao),
    ("preco_original", match p.preco_original with | .fin q => .num q | _ => .null),
    ("preco_promocional", match p.preco_promocional with | .fin q => .num q | _ => .null),
    ("desconto_percentual", match p.desconto_percentual with | .fin q => .num q | _ => .null),
    ("link_afiliado", .str p.link_afiliado),
    ("imagens_base64", .arr (p.imagens_base64.map .str)),
    ("categoria_principal", .str p.categoria_principal),
    ("nichos", .arr (p.nichos.map .str)),
    ("plataforma", .str p.plataforma),
    ("avaliacao", match p.avaliacao with | .fin q => .num q | _ => .null),
    ("vendas", match p.vendas with | .fin q => .num q | _ => .null),
    ("data_inicio_promocao", match p.data_inicio_promocao with
      | .time t => .str (isoStringOfMs t) | _ => .null),
    ("data_fim_promocao", match p.data_fim_promocao with
      | .time t => .str (isoStringOfMs t) | _ => .null),
    ("data_publicacao", match p.data_publicacao with
      | .time t => .str (isoStringOfMs t) | _ => .null),
    ("status", .str p.status)]

/-- `FiltersManager.exportFilteredProducts`: CSV re-serialization for
`"csv"`, otherwise `JSON.stringify(filteredProducts, null, 2)`. -/
def exportFilteredProducts (filteredProducts : List Product) (format : String := "json") : String :=
  if format = "csv" then
    let headers : List String := ["Título", "Descrição", "Preço Original", "Preço Promocional",
      "Desconto", "Plataforma", "Categoria", "Link"]
    let rows := filteredProducts.map (fun product =>
      [product.titulo, product.descricao, jnumToString product.preco_original,
        jnumToString product.preco_promocional, jnumToString product.desconto_percentual ++ "%",
        product.plataforma, product.categoria_principal, product.link_afiliado])
    String.intercalate "\n" ((headers :: rows).map (fun row =>
      String.intercalate "," (row.map (fun cell => "\"" ++ cell ++ "\""))))
  else jsonStringify (Json.arr (filteredProducts.map productToJson))

end FiltersManager

namespace ProductRenderer

/-- `ProductRenderer.renderProductsWithPagination`: the page window
`slice((page-1)*itemsPerPage, page*itemsPerPage)` and the has-more flag
(`false` when the window is empty, otherwise `endIndex < products.length`).
The DOM work — replace on page 1, append on later pages, the empty state —
is outside the model. -/
def renderProductsWithPagination (products : List α) (page : Nat := 1)
    (itemsPerPage : Nat := 12) : List α × Bool :=
  let startIndex := (page - 1) * itemsPerPage
  let endIndex := startIndex + itemsPerPage
  let paginatedProducts := (products.drop startIndex).take itemsPerPage
  if paginatedProducts.isEmpty then (paginatedProducts, false)
  else (paginatedProducts, decide (endIndex < products.length))

end ProductRenderer

theorem sanity_check23 : (PromotionsApp.normalizeDbRow { preco_original := some (.vstr "abc") }).preco_original = JNum.nan := by rfl
theorem sanity_check24 : (PromotionsApp.normalizeDbRow { desconto_percentual := none, preco_original := some (.vnum 100), preco_promocional := some (.vnum 50) }).desconto_percentual = .fin 0 := by rfl
theorem sanity_check25 : dbImages (some (some "[\"a\", \"b\"]")) = ["a", "b"] := by rfl
theorem sanity_check26 : dbImages (some (some "x|y")) = ["x", "y"] := by rfl
theorem sanity_check27 : (ProductRenderer.renderProductsWithPagination (List.range 25) 3 12) = ([24], false) := by rfl
theorem sanity_check28 : FiltersManager.sortProducts [] "price-low" = [] := by rfl

theorem jsInsert_perm (le : α → α → Bool) (x : α) (l : List α) :
    (jsInsert le x l).Perm (x :: l) := by
  induction l with
  | nil => simp [jsInsert]
  | cons y ys ih =>
      rw [jsInsert]
      by_cases h : le x y = true
      · rw [if_pos h]
      · rw [if_neg h]
        exact ((ih.cons y).trans (List.Perm.swap x y ys))

theorem jsSortBy_perm (le : α → α → Bool) (l : List α) : (jsSortBy le l).Perm l := by
  induction l with
  | nil => simp [jsSortBy]
  | cons x xs ih =>
      rw [jsSortBy]
      exact (jsInsert_perm le x (jsSortBy le xs)).trans (ih.cons x)

theorem mem_jsInsert {le : α → α → Bool} {x z : α} {l : List α} :
    z ∈ jsInsert le x l ↔ z = x ∨ z ∈ l := by
  have h := (jsInsert_perm le x l).mem_iff (a := z)
  simpa using h

theorem sortProducts_perm (l : List Product) (k : String) :
    (FiltersManager.sortProducts l k).Perm l := by
  rw [FiltersManager.sortProducts]
  split_ifs <;> first | exact jsSortBy_perm _ _ | exact List.Perm.refl _

/-- C5: the pagination window is exactly the slice
`[(page-1)*pageSize, page*pageSize)` of the filtered list, and more pages
remain exactly when `page*pageSize` is below the list length. -/
theorem c5_pagination_window {α : Type} (l : List α) (page size : Nat)
    (hpage : 1 ≤ page) (hsize : 1 ≤ size) :
    (ProductRenderer.renderProductsWithPagination l page size).1 =
      (l.drop ((page - 1) * size)).take size ∧
    ((ProductRenderer.renderProductsWithPagination l page size).2 = true ↔
      page * size < l.length) := by
  rw [ProductRenderer.renderProductsWithPagination]
  by_cases h : ((l.drop ((page - 1) * size)).take size).isEmpty
  · rw [if_pos h]
    refine ⟨rfl, ?_⟩
    have hnil : (l.drop ((page - 1) * size)).take size = [] := by
      simpa [List.isEmpty_iff] using h
    have hlen : l.length ≤ (page - 1) * size := by
      rcases (List.take_eq_nil_iff).mp hnil with h0 | h0
      · omega
      · simpa using (List.drop_eq_nil_iff).mp h0
    constructor
    · intro hfalse
      simp at hfalse
    · intro hlt
      have hps : page * size = (page - 1) * size + size := by
        have hp : page = (page - 1) + 1 := by omega
        calc page * size = ((page - 1) + 1) * size := by rw [← hp]
          _ = (page - 1) * size + size := by ring
      omega
  · rw [if_neg h]
    refine ⟨rfl, ?_⟩
    have : (page - 1) * size + size = page * size := by
      have hp : page = (page - 1) + 1 := by omega
      nth_rewrite 2 [hp]
      ring
    rw [this]
    simp

/-- C5 witness: 25 filtered items, page size 12, page 3 — exactly the last
item, and no more pages remain. -/
theorem c5_pagination_window_witness :
    (ProductRenderer.renderProductsWithPagination (List.range 25) 3 12).1 = [24] ∧
    (ProductRenderer.renderProductsWithPagination (List.range 25) 3 12).2 = false := by
  have h := c5_pagination_window (List.range 25) 3 12 (by decide) (by decide)
  refine ⟨?_, ?_⟩
  · rw [h.1]
    rfl
  · have h2 := h.2
    by_cases hb : (ProductRenderer.renderProductsWithPagination (List.range 25) 3 12).2 = true
    · exact absurd (h2.mp hb) (by decide)
    · simpa using hb

/-- C8: the CSV loader never propagates a fetch failure: a network error or
a non-ok HTTP status both yield the built-in sample dataset, which holds
exactly six products. -/
theorem c8_load_fallback :
    (∀ t : String, CSVParser.loadProducts (.response false t) = CSVParser.getSampleData) ∧
    CSVParser.loadProducts .networkError = CSVParser.getSampleData ∧
    CSVParser.getSampleData.length = 6 := by
  exact ⟨fun _ => rfl, rfl, rfl⟩

/-- C9: `applyFilters` never changes the stored full collection — the state
it returns carries `allProducts` unchanged (element-wise and in order) — and
`sortProducts` returns a fresh list that is a permutation of its input,
which it leaves untouched. -/
theorem c9_no_mutation :
    (∀ s : FiltersState, (FiltersManager.applyFilters s).allProducts = s.allProducts) ∧
    (∀ (l : List Product) (k : String), (FiltersManager.sortProducts l k).Perm l) := by
  exact ⟨fun _ => rfl, sortProducts_perm⟩

/-- C2: the CSV normalizer returns `none` exactly when `id`, `titulo` or
`link_afiliado` is empty/absent or the parsed `preco_promocional` is `<= 0`;
and the `parseCSV` row loop keeps precisely the normalized products of the
non-blank, column-count-matching rows. -/
theorem c2_csv_row_rejection :
    (∀ raw : RawProduct,
      CSVParser.processProductData raw = none ↔
        (raw.id = "" ∨ raw.titulo = "" ∨ raw.link_afiliado = "" ∨
          JNum.le (CSVParser.parseFloat raw.preco_promocional) (.fin 0) = true)) ∧
    (∀ (headers : List String) (lines : List String),
      CSVParser.parseCSVRows headers lines = lines.filterMap (fun l =>
        if jsTrim l = "" then none
        else if (CSVParser.parseCSVLine (jsTrim l)).length ≠ headers.length then none
        else CSVParser.processProductData
          (CSVParser.buildRaw headers (CSVParser.parseCSVLine (jsTrim l))))) := by
  constructor
  · intro raw
    rw [CSVParser.processProductData]
    by_cases hid : raw.id = ""
    · simp [hid]
    · by_cases htit : raw.titulo = ""
      · simp [hid, htit]
      · by_cases hlink : raw.link_afiliado = ""
        · simp [hid, htit, hlink]
        · by_cases hle : JNum.le (CSVParser.parseFloat raw.preco_promocional) (.fin 0) = true
          · simp [hid, htit, hlink, hle]
          · simp [hid, htit, hlink, hle]
  · intro headers lines
    induction lines with
    | nil => rfl
    | cons l ls ih =>
        rw [CSVParser.parseCSVRows, List.filterMap_cons]
        by_cases h0 : jsTrim l = ""
        · simpa [h0] using ih
        · by_cases h1 : (CSVParser.parseCSVLine (jsTrim l)).length = headers.length
          · cases hp : CSVParser.processProductData
                (CSVParser.buildRaw headers (CSVParser.parseCSVLine (jsTrim l))) with
            | none => simpa [h0, h1, hp] using ih
            | some p => simpa [h0, h1, hp] using ih
          · simpa [h0, h1] using ih

/-- C4: membership in the filtered collection holds exactly for products of
the full collection that pass the search predicate (case-insensitive
substring of title, description, category or platform), the exact platform
match and the exact category match, an empty filter dimension imposing no
constraint. -/
theorem c4_filter_membership (s : FiltersState) (p : Product) :
    p ∈ (FiltersManager.applyFilters s).filteredProducts ↔
      p ∈ s.allProducts ∧
      (s.currentFilters.search ≠ "" →
        ((jsToLower s.currentFilters.search).toList <:+: (jsToLower p.titulo).toList ∨
         (jsToLower s.currentFilters.search).toList <:+: (jsToLower p.descricao).toList ∨
         (jsToLower s.currentFilters.search).toList <:+: (jsToLower p.categoria_principal).toList ∨
         (jsToLower s.currentFilters.search).toList <:+: (jsToLower p.plataforma).toList)) ∧
      (s.currentFilters.platform ≠ "" → p.plataforma = s.currentFilters.platform) ∧
      (s.currentFilters.category ≠ "" → p.categoria_principal = s.currentFilters.category) := by
  rw [FiltersManager.applyFilters]
  simp only
  rw [(sortProducts_perm _ s.currentFilters.sort).mem_iff]
  by_cases hs : s.currentFilters.search = "" <;>
    by_cases hp : s.currentFilters.platform = "" <;>
      by_cases hc : s.currentFilters.category = "" <;>
        simp [hs, hp, hc, List.mem_filter, FiltersManager.matchesSearch, jsIncludes,
          and_assoc] <;> tauto

/-- Unfolding of `processProductData`: explicit rejection condition and
explicit normalized product. -/
theorem processProductData_eq (raw : RawProduct) :
    CSVParser.processProductData raw =
      if raw.id = "" ∨ raw.titulo = "" ∨ raw.link_afiliado = "" ∨
          JNum.le (CSVParser.parseFloat raw.preco_promocional) (.fin 0) = true then none
      else some
        { id := raw.id
          titulo := jsOrDefault raw.titulo ""
          descricao := jsOrDefault raw.descricao ""
          preco_original := CSVParser.parseFloat raw.preco_original
          preco_promocional := CSVParser.parseFloat raw.preco_promocional
          desconto_percentual :=
            if jnumFalsy (CSVParser.parseInt raw.desconto_percentual) &&
                JNum.lt (.fin 0) (CSVParser.parseFloat raw.preco_original) then
              JNum.round (JNum.mul (JNum.div
                (JNum.sub (CSVParser.parseFloat raw.preco_original)
                  (CSVParser.parseFloat raw.preco_promocional))
                (CSVParser.parseFloat raw.preco_original)) (.fin 100))
            else CSVParser.parseInt raw.desconto_percentual
          link_afiliado := jsOrDefault raw.link_afiliado ""
          imagens_base64 := CSVParser.parseImageArray raw.imagens_base64
          categoria_principal := jsOrDefault raw.categoria_principal "Outros"
          nichos := CSVParser.parseStringArray raw.nichos
          plataforma := jsOrDefault raw.plataforma "Desconhecida"
          avaliacao := CSVParser.parseFloat raw.avaliacao
          vendas := CSVParser.parseInt raw.vendas
          data_inicio_promocao := CSVParser.parseDate raw.data_inicio_promocao
          data_fim_promocao := CSVParser.parseDate raw.data_fim_promocao
          data_publicacao := CSVParser.parseDate raw.data_publicacao
          status := jsOrDefault raw.status "published" } := by
  rw [CSVParser.processProductData]
  by_cases hid : raw.id = ""
  · simp [hid]
  · by_cases htit : raw.titulo = ""
    · simp [hid, htit]
    · by_cases hlink : raw.link_afiliado = ""
      · simp [hid, htit, hlink]
      · by_cases hle : JNum.le (CSVParser.parseFloat raw.preco_promocional) (.fin 0) = true
        · simp [hid, htit, hlink, hle]
        · simp [hid, htit, hlink, hle]

/-- `CSVParser.parseFloat` never yields `NaN` (the fallback replaces it). -/
theorem parseFloat_ne_nan (v : String) : CSVParser.parseFloat v ≠ .nan := by
  rw [CSVParser.parseFloat]
  cases h : jsParseFloat v <;> simp

/-- `CSVParser.parseInt` never yields `NaN` (the fallback replaces it). -/
theorem parseInt_ne_nan (v : String) : CSVParser.parseInt v ≠ .nan := by
  rw [CSVParser.parseInt]
  cases h : jsParseInt v <;> simp

/-- The back-filled discount is not `NaN` when the original price is a
nonzero finite number and the promotional price is not `NaN`. -/
theorem discount_round_ne_nan (q : ℚ) (p : JNum) (hp : p ≠ .nan) (hq : q ≠ 0) :
    JNum.round (JNum.mul (JNum.div (JNum.sub (.fin q) p) (.fin q)) (.fin 100)) ≠ .nan := by
  have h100 : (100 : ℚ) ≠ 0 := by norm_num
  cases p with
  | nan => exact absurd rfl hp
  | inf s => simp [JNum.sub, JNum.div, JNum.mul, JNum.round, h100]
  | fin b => simp [JNum.sub, JNum.div, JNum.mul, JNum.round, hq, h100]

/-- C1 (amended): the discount back-fill `round((orig - promo)/orig * 100)`
holds on the CSV backend whenever the raw discount parses to `0` and the
parsed original price is `> 0`; the database backend performs no back-fill —
an absent or `NULL` discount column normalizes to `0` and stays `0`. -/
theorem c1_discount_backfill :
    (∀ (raw : RawProduct) (p : Product),
      CSVParser.processProductData raw = some p →
      CSVParser.parseInt raw.desconto_percentual = .fin 0 →
      JNum.lt (.fin 0) (CSVParser.parseFloat raw.preco_original) = true →
      p.desconto_percentual =
        JNum.round (JNum.mul (JNum.div (JNum.sub p.preco_original p.preco_promocional)
          p.preco_original) (.fin 100))) ∧
    (∀ row : DbRow, row.desconto_percentual = none ∨ row.desconto_percentual = some .vnull →
      (PromotionsApp.normalizeDbRow row).desconto_percentual = .fin 0) := by
  constructor
  · intro raw p h hdesc hlt
    rw [processProductData_eq] at h
    by_cases hg : raw.id = "" ∨ raw.titulo = "" ∨ raw.link_afiliado = "" ∨
        JNum.le (CSVParser.parseFloat raw.preco_promocional) (.fin 0) = true
    · rw [if_pos hg] at h
      exact absurd h (by simp)
    · rw [if_neg hg] at h
      have hp := (Option.some_injective _ h).symm
      subst hp
      simp only [hdesc]
      have hfalsy : jnumFalsy (JNum.fin 0) = true := by decide
      simp [hdesc, hfalsy, hlt]
  · intro row h
    rcases h with h | h <;> simp [PromotionsApp.normalizeDbRow, dbNumber, h]

/-- C1 counterexample: a database row with an absent discount column,
original price 100 and promotional price 50 satisfies the claim's premise,
yet its normalized discount is `0`, not the back-filled
`round((100-50)/100*100) = 50`. -/
theorem c1_counterexample :
    (PromotionsApp.normalizeDbRow
      { preco_original := some (.vnum 100), preco_promocional := some (.vnum 50) }
        : Product).desconto_percentual = .fin 0 ∧
    JNum.lt (.fin 0) (PromotionsApp.normalizeDbRow
      { preco_original := some (.vnum 100), preco_promocional := some (.vnum 50) }
        : Product).preco_original = true ∧
    JNum.round (JNum.mul (JNum.div (JNum.sub (JNum.fin 100) (JNum.fin 50)) (JNum.fin 100))
      (.fin 100)) = .fin 50 ∧
    JNum.fin 0 ≠ JNum.fin 50 := by
  refine ⟨rfl, rfl, rfl, by decide⟩

/-- C1 witness: a concrete CSV row with discount field empty, original price
100 and promotional price 50 back-fills discount 50; a database row with the
column absent keeps 0. -/
theorem c1_discount_backfill_witness :
    (CSVParser.processProductData
      { id := "1", titulo := "Fone", link_afiliado := "http://x",
        preco_original := "100", preco_promocional := "50" }).map
          Product.desconto_percentual = some (.fin 50) ∧
    (PromotionsApp.normalizeDbRow { desconto_percentual := none } : Product).desconto_percentual
      = .fin 0 := by
  constructor
  · have hproc : CSVParser.processProductData
        { id := "1", titulo := "Fone", link_afiliado := "http://x",
          preco_original := "100", preco_promocional := "50" } = some
        { id := "1", titulo := "Fone", descricao := "",
          preco_original := .fin 100, preco_promocional := .fin 50,
          desconto_percentual := .fin 50, link_afiliado := "http://x",
          imagens_base64 := [], categoria_principal := "Outros", nichos := [],
          plataforma := "Desconhecida", avaliacao := .fin 0, vendas := .fin 0,
          data_inicio_promocao := .null, data_fim_promocao := .null,
          data_publicacao := .null, status := "published" } := by rfl
    have h := c1_discount_backfill.1 _ _ hproc (by rfl) (by rfl)
    rw [hproc, Option.map_some', h]
    rfl
  · exact c1_discount_backfill.2 _ (Or.inl rfl)

/-- C3 (amended): on the CSV backend the parsed numeric fields are never
`NaN`, and the derived discount is not `NaN` whenever the parsed original
price is finite; on the database backend a missing or `NULL` numeric cell
normalizes to `0` (a non-numeric string, however, yields `NaN` — see the
counterexample). -/
theorem c3_no_nan :
    (∀ (raw : RawProduct) (p : Product), CSVParser.processProductData raw = some p →
      p.preco_original ≠ .nan ∧ p.preco_promocional ≠ .nan ∧ p.avaliacao ≠ .nan ∧
      p.vendas ≠ .nan ∧
      ((∃ q : ℚ, p.preco_original = .fin q) → p.desconto_percentual ≠ .nan)) ∧
    (∀ row : DbRow,
      ((row.preco_original = none ∨ row.preco_original = some .vnull) →
        (PromotionsApp.normalizeDbRow row).preco_original = .fin 0) ∧
      ((row.preco_promocional = none ∨ row.preco_promocional = some .vnull) →
        (PromotionsApp.normalizeDbRow row).preco_promocional = .fin 0) ∧
      ((row.desconto_percentual = none ∨ row.desconto_percentual = some .vnull) →
        (PromotionsApp.normalizeDbRow row).desconto_percentual = .fin 0) ∧
      ((row.avaliacao = none ∨ row.avaliacao = some .vnull) →
        (PromotionsApp.normalizeDbRow row).avaliacao = .fin 0) ∧
      ((row.vendas = none ∨ row.vendas = some .vnull) →
        (PromotionsApp.normalizeDbRow row).vendas = .fin 0)) := by
  constructor
  · intro raw p h
    rw [processProductData_eq] at h
    by_cases hg : raw.id = "" ∨ raw.titulo = "" ∨ raw.link_afiliado = "" ∨
        JNum.le (CSVParser.parseFloat raw.preco_promocional) (.fin 0) = true
    · rw [if_pos hg] at h
      exact absurd h (by simp)
    · rw [if_neg hg] at h
      have hp := (Option.some_injective _ h).symm
      subst hp
      refine ⟨parseFloat_ne_nan _, parseFloat_ne_nan _, parseFloat_ne_nan _,
        parseInt_ne_nan _, ?_⟩
      rintro ⟨q, hq⟩
      dsimp only at hq ⊢
      by_cases hcond : (jnumFalsy (CSVParser.parseInt raw.desconto_percentual) &&
          JNum.lt (.fin 0) (CSVParser.parseFloat raw.preco_original)) = true
      · rw [if_pos hcond]
        rw [hq]
        have hlt : JNum.lt (.fin 0) (CSVParser.parseFloat raw.preco_original) = true :=
          ((Bool.and_eq_true _ _).mp hcond).2
        rw [hq] at hlt
        have hqpos : 0 < q := by
          have := hlt
          rw [JNum.lt] at this
          exact of_decide_eq_true this
        exact discount_round_ne_nan q _ (parseFloat_ne_nan _) (ne_of_gt hqpos)
      · rw [if_neg hcond]
        exact parseInt_ne_nan _
  · intro row
    refine ⟨?_, ?_, ?_, ?_, ?_⟩ <;>
      (intro h; rcases h with h | h <;> simp [PromotionsApp.normalizeDbRow, dbNumber, h])

/-- C3 counterexample: a database row whose `preco_original` cell holds the
non-numeric string `"abc"` normalizes to `NaN`, not `0`. -/
theorem c3_counterexample :
    (PromotionsApp.normalizeDbRow { preco_original := some (.vstr "abc") }
      : Product).preco_original = JNum.nan := by
  rfl

/-- C3 witness: concrete instances of both conjuncts. -/
theorem c3_no_nan_witness :
    ((CSVParser.processProductData
      { id := "2", titulo := "Mouse", link_afiliado := "http://y",
        preco_promocional := "7" }).map
        (fun p => decide (p.preco_promocional ≠ JNum.nan)) = some true) ∧
    (PromotionsApp.normalizeDbRow { avaliacao := some .vnull } : Product).avaliacao = .fin 0 := by
  constructor
  · have hproc : CSVParser.processProductData
        { id := "2", titulo := "Mouse", link_afiliado := "http://y",
          preco_promocional := "7" } = some
        { id := "2", titulo := "Mouse", descricao := "",
          preco_original := .fin 0, preco_promocional := .fin 7,
          desconto_percentual := .fin 0, link_afiliado := "http://y",
          imagens_base64 := [], categoria_principal := "Outros", nichos := [],
          plataforma := "Desconhecida", avaliacao := .fin 0, vendas := .fin 0,
          data_inicio_promocao := .null, data_fim_promocao := .null,
          data_publicacao := .null, status := "published" } := by rfl
    have h := (c3_no_nan.1 _ _ hproc).2.1
    rw [hproc, Option.map_some']
    simp [h]
  · exact ((c3_no_nan.2 _).2.2.2.1) (Or.inr rfl)

theorem parseCSVLineAux_ne_nil (b : Bool) (cur cs : List Char) :
    CSVParser.parseCSVLineAux b cur cs ≠ [] := by
  induction b, cur, cs using CSVParser.parseCSVLineAux.induct <;>
    simp_all [CSVParser.parseCSVLineAux]

theorem splitOnCharAux_ne_nil (sep : Char) (cs : List Char) : splitOnCharAux sep cs ≠ [] := by
  induction cs with
  | nil => simp [splitOnCharAux]
  | cons c cs ih =>
      rw [splitOnCharAux]
      by_cases h : c = sep
      · simp [h]
      · rw [if_neg h]
        rcases hs : splitOnCharAux sep cs with _ | ⟨f, fs⟩
        · exact absurd hs ih
        · simp

theorem parseCSVLineAux_other (b : Bool) (cur : List Char) (c : Char) (rest : List Char)
    (h1 : c ≠ '"') (h2 : c ≠ ',') :
    CSVParser.parseCSVLineAux b cur (c :: rest) =
      CSVParser.parseCSVLineAux b (cur ++ [c]) rest := by
  rw [CSVParser.parseCSVLineAux.eq_def]
  cases b <;> simp_all

theorem parseCSVLineAux_no_quote (cs : List Char) : ∀ cur : List Char, '"' ∉ cs →
    CSVParser.parseCSVLineAux false cur cs =
      match splitOnCharAux ',' cs with
      | f :: fs => jsTrim (String.mk (cur ++ f)) :: fs.map (fun g => jsTrim (String.mk g))
      | [] => [] := by
  induction cs with
  | nil => intro cur _; simp [CSVParser.parseCSVLineAux, splitOnCharAux]
  | cons c cs ih =>
      intro cur h
      have hc : c ≠ '"' := by
        intro hh
        exact h (hh ▸ List.mem_cons_self c cs)
      have hcs : '"' ∉ cs := fun hh => h (List.mem_cons_of_mem c hh)
      rcases hs : splitOnCharAux ',' cs with _ | ⟨f₀, fs₀⟩
      · exact absurd hs (splitOnCharAux_ne_nil ',' cs)
      · by_cases hcomma : c = ','
        · subst hcomma
          have step : CSVParser.parseCSVLineAux false cur (',' :: cs) =
              jsTrim (String.mk cur) :: CSVParser.parseCSVLineAux false [] cs := rfl
          rw [step, ih [] hcs, hs]
          simp [splitOnCharAux, hs]
        · rw [parseCSVLineAux_other false cur c cs hc hcomma, ih (cur ++ [c]) hcs, hs]
          have hsplit : splitOnCharAux ',' (c :: cs) = (c :: f₀) :: fs₀ := by
            rw [splitOnCharAux, if_neg hcomma, hs]
          rw [hsplit]
          simp

theorem parseCSVLineAux_quoted (s : List Char) : ∀ (cur cs : List Char), '"' ∉ s →
    CSVParser.parseCSVLineAux true cur (s ++ cs) =
      CSVParser.parseCSVLineAux true (cur ++ s) cs := by
  induction s with
  | nil => intro cur cs _; simp
  | cons c s ih =>
      intro cur cs h
      have hc : c ≠ '"' := by
        intro hh
        exact h (hh ▸ List.mem_cons_self c s)
      have hcs : '"' ∉ s := fun hh => h (List.mem_cons_of_mem c hh)
      by_cases hcomma : c = ','
      · subst hcomma
        have step : CSVParser.parseCSVLineAux true cur ((',' :: s) ++ cs) =
            CSVParser.parseCSVLineAux true (cur ++ [',']) (s ++ cs) := rfl
        rw [step, ih (cur ++ [',']) cs hcs]
        simp
      · rw [List.cons_append, parseCSVLineAux_other true cur c (s ++ cs) hc hcomma,
          ih (cur ++ [c]) cs hcs]
        simp

/-- C10: `parseCSVLine` is total and never returns an empty field list (the
trailing field after the last separator is always emitted); on quote-free
input it agrees with plain comma-splitting plus trimming; and a doubled
double-quote inside a quoted field yields one literal double-quote in the
field. -/
theorem c10_parse_csv_line :
    (∀ line : String, 1 ≤ (CSVParser.parseCSVLine line).length) ∧
    (∀ cs : List Char, '"' ∉ cs →
      CSVParser.parseCSVLine (String.mk cs) =
        (splitOnCharAux ',' cs).map (fun f => jsTrim (String.mk f))) ∧
    (∀ s₁ s₂ : List Char, '"' ∉ s₁ → '"' ∉ s₂ →
      CSVParser.parseCSVLine (String.mk ('"' :: s₁ ++ '"' :: '"' :: s₂ ++ ['"'])) =
        [jsTrim (String.mk (s₁ ++ '"' :: s₂))]) := by
  refine ⟨?_, ?_, ?_⟩
  · intro line
    rcases h : CSVParser.parseCSVLine line with _ | ⟨x, xs⟩
    · exact absurd h (parseCSVLineAux_ne_nil false [] line.toList)
    · simp
  · intro cs h
    rw [CSVParser.parseCSVLine]
    have : (String.mk cs).toList = cs := rfl
    rw [this, parseCSVLineAux_no_quote cs [] h]
    rcases hs : splitOnCharAux ',' cs with _ | ⟨f₀, fs₀⟩
    · exact absurd hs (splitOnCharAux_ne_nil ',' cs)
    · simp
  · intro s₁ s₂ h1 h2
    have hEq : CSVParser.parseCSVLine (String.mk ('"' :: s₁ ++ '"' :: '"' :: s₂ ++ ['"'])) =
        CSVParser.parseCSVLineAux false [] ('"' :: (s₁ ++ ('"' :: ('"' :: (s₂ ++ ['"']))))) := by
      rw [CSVParser.parseCSVLine]
      congr 1
      simp
    rw [hEq]
    have step1 : CSVParser.parseCSVLineAux false []
        ('"' :: (s₁ ++ ('"' :: ('"' :: (s₂ ++ ['"']))))) =
        CSVParser.parseCSVLineAux true [] (s₁ ++ ('"' :: ('"' :: (s₂ ++ ['"'])))) := rfl
    rw [step1, parseCSVLineAux_quoted s₁ [] ('"' :: ('"' :: (s₂ ++ ['"']))) h1]
    have step2 : CSVParser.parseCSVLineAux true ([] ++ s₁) ('"' :: ('"' :: (s₂ ++ ['"']))) =
        CSVParser.parseCSVLineAux true (([] ++ s₁) ++ ['"']) (s₂ ++ ['"']) := rfl
    rw [step2, parseCSVLineAux_quoted s₂ (([] ++ s₁) ++ ['"']) ['"'] h2]
    have step3 : CSVParser.parseCSVLineAux true ((([] ++ s₁) ++ ['"']) ++ s₂) ['"'] =
        [jsTrim (String.mk ((([] ++ s₁) ++ ['"']) ++ s₂))] := rfl
    rw [step3]
    have hl : (([] ++ s₁) ++ ['"']) ++ s₂ = s₁ ++ '"' :: s₂ := by simp
    rw [hl]

/-- C10 witness: concrete instances — an unterminated-quote line still
yields a field, a quote-free line splits on commas with trimming, and a
`""` escape produces a literal quote. -/
theorem c10_parse_csv_line_witness :
    1 ≤ (CSVParser.parseCSVLine "a,\"x").length ∧
    CSVParser.parseCSVLine (String.mk ['a', ',', ' ', 'b']) = ["a", "b"] ∧
    CSVParser.parseCSVLine (String.mk ('"' :: ['a'] ++ '"' :: '"' :: ['b'] ++ ['"'])) =
      [String.mk ['a', '"', 'b']] := by
  refine ⟨c10_parse_csv_line.1 _, ?_, ?_⟩
  · rw [c10_parse_csv_line.2.1 ['a', ',', ' ', 'b'] (by decide)]
    rfl
  · rw [c10_parse_csv_line.2.2 ['a'] ['b'] (by decide) (by decide)]
    rfl

theorem pairwise_jsInsert (le : α → α → Bool) (x : α) (l : List α)
    (htot : ∀ y ∈ l, le x y = true ∨ le y x = true)
    (htrans : ∀ y ∈ l, ∀ z ∈ l, le x y = true → le y z = true → le x z = true)
    (hl : l.Pairwise (fun a b => le a b = true)) :
    (jsInsert le x l).Pairwise (fun a b => le a b = true) := by
  induction l with
  | nil => simp [jsInsert]
  | cons y ys ih =>
      rw [jsInsert]
      rcases List.pairwise_cons.mp hl with ⟨hy, hys⟩
      by_cases hxy : le x y = true
      · rw [if_pos hxy]
        refine List.pairwise_cons.mpr ⟨?_, hl⟩
        intro z hz
        rcases List.mem_cons.mp hz with rfl | hz
        · exact hxy
        · exact htrans y (List.mem_cons_self y ys) z (List.mem_cons_of_mem y hz) hxy (hy z hz)
      · rw [if_neg hxy]
        have hyx : le y x = true := (htot y (List.mem_cons_self y ys)).resolve_left hxy
        refine List.pairwise_cons.mpr ⟨?_, ?_⟩
        · intro z hz
          rcases mem_jsInsert.mp hz with rfl | hz
          · exact hyx
          · exact hy z hz
        · exact ih (fun z hz => htot z (List.mem_cons_of_mem y hz))
            (fun a ha b hb => htrans a (List.mem_cons_of_mem y ha) b (List.mem_cons_of_mem y hb))
            hys

theorem pairwise_jsSortBy (le : α → α → Bool) (l : List α)
    (htot : ∀ a ∈ l, ∀ b ∈ l, le a b = true ∨ le b a = true)
    (htrans : ∀ a ∈ l, ∀ b ∈ l, ∀ c ∈ l,
      le a b = true → le b c = true → le a c = true) :
    (jsSortBy le l).Pairwise (fun a b => le a b = true) := by
  induction l with
  | nil => simp [jsSortBy]
  | cons x xs ih =>
      rw [jsSortBy]
      have hmem : ∀ z ∈ jsSortBy le xs, z ∈ x :: xs :=
        fun z hz => List.mem_cons_of_mem x ((jsSortBy_perm le xs).mem_iff.mp hz)
      refine pairwise_jsInsert le x (jsSortBy le xs) ?_ ?_ ?_
      · intro y hy
        exact htot x (List.mem_cons_self x xs) y (hmem y hy)
      · intro y hy z hz
        exact htrans x (List.mem_cons_self x xs) y (hmem y hy) z (hmem z hz)
      · exact ih
          (fun a ha b hb =>
            htot a (List.mem_cons_of_mem x ha) b (List.mem_cons_of_mem x hb))
          (fun a ha b hb c hc =>
            htrans a (List.mem_cons_of_mem x ha) b (List.mem_cons_of_mem x hb) c
              (List.mem_cons_of_mem x hc))

theorem jnum_lt_asymm (a b : JNum) (h1 : JNum.lt a b = true) (h2 : JNum.lt b a = true) :
    False := by
  cases a <;> cases b <;> simp_all [JNum.lt]
  exact absurd h2 (not_lt.mpr (le_of_lt h1))

theorem lt_zero_sub_fin (qx qy : ℚ) :
    JNum.lt (.fin 0) (JNum.sub (.fin qx) (.fin qy)) = true ↔ qy < qx := by
  simp [JNum.sub, JNum.lt, qSub_eq, sub_pos]

theorem jnum_lt_fin (qx qy : ℚ) : JNum.lt (.fin qx) (.fin qy) = true ↔ qx < qy := by
  simp [JNum.lt]

/-- C6: on a list whose promotional prices are (finite and) pairwise
distinct, sorting by `price-low` gives exactly the reverse of sorting by
`price-high`. -/
theorem c6_price_sort_reversal (l : List Product)
    (hfin : ∀ p ∈ l, ∃ q : ℚ, p.preco_promocional = JNum.fin q)
    (hdist : l.Pairwise (fun a b => a.preco_promocional ≠ b.preco_promocional)) :
    FiltersManager.sortProducts l "price-low" =
      (FiltersManager.sortProducts l "price-high").reverse := by
  have hlow : FiltersManager.sortProducts l "price-low" =
      jsSortBy (jsCompLe fun a b => JNum.sub a.preco_promocional b.preco_promocional) l := rfl
  have hhigh : FiltersManager.sortProducts l "price-high" =
      jsSortBy (jsCompLe fun a b => JNum.sub b.preco_promocional a.preco_promocional) l := rfl
  rw [hlow, hhigh]
  set leL : Product → Product → Bool :=
    jsCompLe fun a b => JNum.sub a.preco_promocional b.preco_promocional with hleL
  set leH : Product → Product → Bool :=
    jsCompLe fun a b => JNum.sub b.preco_promocional a.preco_promocional with hleH
  have hL_iff : ∀ a b : Product, ∀ qa qb : ℚ, a.preco_promocional = .fin qa →
      b.preco_promocional = .fin qb → (leL a b = true ↔ qa ≤ qb) := by
    intro a b qa qb ha hb
    rw [hleL]
    simp only [jsCompLe, ha, hb, Bool.not_eq_true']
    rw [Bool.eq_false_iff]
    constructor
    · intro h
      exact not_lt.mp (fun hc => h ((lt_zero_sub_fin qa qb).mpr hc))
    · intro h hc
      exact absurd ((lt_zero_sub_fin qa qb).mp hc) (not_lt.mpr h)
  have hH_iff : ∀ a b : Product, ∀ qa qb : ℚ, a.preco_promocional = .fin qa →
      b.preco_promocional = .fin qb → (leH a b = true ↔ qb ≤ qa) := by
    intro a b qa qb ha hb
    rw [hleH]
    simp only [jsCompLe, ha, hb, Bool.not_eq_true']
    rw [Bool.eq_false_iff]
    constructor
    · intro h
      exact not_lt.mp (fun hc => h ((lt_zero_sub_fin qb qa).mpr hc))
    · intro h hc
      exact absurd ((lt_zero_sub_fin qb qa).mp hc) (not_lt.mpr h)
  have hsortL := pairwise_jsSortBy leL l
    (by
      intro a ha b hb
      obtain ⟨qa, hqa⟩ := hfin a ha
      obtain ⟨qb, hqb⟩ := hfin b hb
      rcases le_total qa qb with h | h
      · exact Or.inl ((hL_iff a b qa qb hqa hqb).mpr h)
      · exact Or.inr ((hL_iff b a qb qa hqb hqa).mpr h))
    (by
      intro a ha b hb c hc hab hbc
      obtain ⟨qa, hqa⟩ := hfin a ha
      obtain ⟨qb, hqb⟩ := hfin b hb
      obtain ⟨qc, hqc⟩ := hfin c hc
      exact (hL_iff a c qa qc hqa hqc).mpr
        (le_trans ((hL_iff a b qa qb hqa hqb).mp hab) ((hL_iff b c qb qc hqb hqc).mp hbc)))
  have hsortH := pairwise_jsSortBy leH l
    (by
      intro a ha b hb
      obtain ⟨qa, hqa⟩ := hfin a ha
      obtain ⟨qb, hqb⟩ := hfin b hb
      rcases le_total qb qa with h | h
      · exact Or.inl ((hH_iff a b qa qb hqa hqb).mpr h)
      · exact Or.inr ((hH_iff b a qb qa hqb hqa).mpr h))
    (by
      intro a ha b hb c hc hab hbc
      obtain ⟨qa, hqa⟩ := hfin a ha
      obtain ⟨qb, hqb⟩ := hfin b hb
      obtain ⟨qc, hqc⟩ := hfin c hc
      exact (hH_iff a c qa qc hqa hqc).mpr
        (le_trans ((hH_iff b c qb qc hqb hqc).mp hbc) ((hH_iff a b qa qb hqa hqb).mp hab)))
  have hpermL := jsSortBy_perm leL l
  have hpermH := jsSortBy_perm leH l
  have hdistL : (jsSortBy leL l).Pairwise
      (fun a b => a.preco_promocional ≠ b.preco_promocional) :=
    (hpermL.pairwise_iff (fun h => Ne.symm h)).mpr hdist
  have hdistH : (jsSortBy leH l).Pairwise
      (fun a b => a.preco_promocional ≠ b.preco_promocional) :=
    (hpermH.pairwise_iff (fun h => Ne.symm h)).mpr hdist
  have hmemL : ∀ p ∈ jsSortBy leL l, ∃ q : ℚ, p.preco_promocional = JNum.fin q :=
    fun p hp => hfin p (hpermL.mem_iff.mp hp)
  have hmemH : ∀ p ∈ jsSortBy leH l, ∃ q : ℚ, p.preco_promocional = JNum.fin q :=
    fun p hp => hfin p (hpermH.mem_iff.mp hp)
  have hstrictL : (jsSortBy leL l).Pairwise
      (fun a b => JNum.lt a.preco_promocional b.preco_promocional = true) := by
    refine List.Pairwise.imp_of_mem ?_ (hsortL.and hdistL)
    intro a b ha hb hab
    obtain ⟨qa, hqa⟩ := hmemL a ha
    obtain ⟨qb, hqb⟩ := hmemL b hb
    rw [hqa, hqb, jnum_lt_fin]
    have hle := (hL_iff a b qa qb hqa hqb).mp hab.1
    have hne : qa ≠ qb := by
      intro hcon
      exact hab.2 (by rw [hqa, hqb, hcon])
    exact lt_of_le_of_ne hle hne
  have hstrictH : ((jsSortBy leH l).reverse).Pairwise
      (fun a b => JNum.lt a.preco_promocional b.preco_promocional = true) := by
    rw [List.pairwise_reverse]
    refine List.Pairwise.imp_of_mem ?_ (hsortH.and hdistH)
    intro a b ha hb hab
    obtain ⟨qa, hqa⟩ := hmemH a ha
    obtain ⟨qb, hqb⟩ := hmemH b hb
    rw [hqb, hqa, jnum_lt_fin]
    have hle := (hH_iff a b qa qb hqa hqb).mp hab.1
    have hne : qb ≠ qa := by
      intro hcon
      exact hab.2 (by rw [hqa, hqb, hcon])
    exact lt_of_le_of_ne hle hne
  haveI : IsAntisymm Product
      (fun a b => JNum.lt a.preco_promocional b.preco_promocional = true) :=
    ⟨fun a b h1 h2 => (jnum_lt_asymm _ _ h1 h2).elim⟩
  exact List.eq_of_perm_of_sorted
    (hpermL.trans (hpermH.symm.trans ((jsSortBy leH l).reverse_perm).symm))
    hstrictL hstrictH

/-- C6 witness: three products with distinct finite prices. -/
theorem c6_price_sort_reversal_witness :
    FiltersManager.sortProducts
      [(⟨"a", "", "", .fin 0, .fin 3, .fin 0, "", [], "", [], "", .fin 0, .fin 0, .null, .null, .null, ""⟩ : Product),
       (⟨"b", "", "", .fin 0, .fin 1, .fin 0, "", [], "", [], "", .fin 0, .fin 0, .null, .null, .null, ""⟩ : Product),
       (⟨"c", "", "", .fin 0, .fin 2, .fin 0, "", [], "", [], "", .fin 0, .fin 0, .null, .null, .null, ""⟩ : Product)] "price-low" =
    (FiltersManager.sortProducts
      [(⟨"a", "", "", .fin 0, .fin 3, .fin 0, "", [], "", [], "", .fin 0, .fin 0, .null, .null, .null, ""⟩ : Product),
       (⟨"b", "", "", .fin 0, .fin 1, .fin 0, "", [], "", [], "", .fin 0, .fin 0, .null, .null, .null, ""⟩ : Product),
       (⟨"c", "", "", .fin 0, .fin 2, .fin 0, "", [], "", [], "", .fin 0, .fin 0, .null, .null, .null, ""⟩ : Product)] "price-high").reverse := by
  apply c6_price_sort_reversal
  · intro p hp
    rcases List.mem_cons.mp hp with rfl | hp
    · exact ⟨3, rfl⟩
    rcases List.mem_cons.mp hp with rfl | hp
    · exact ⟨1, rfl⟩
    rcases List.mem_cons.mp hp with rfl | hp
    · exact ⟨2, rfl⟩
    · cases hp
  · decide

/-- A rational whose reduced denominator divides a power of ten — the values
JavaScript prints in plain positional decimal notation. -/
def decimalDen (q : ℚ) : Prop := ∃ a b : ℕ, q.den = 2 ^ a * 5 ^ b

theorem digitsToNat_from (ds : List Char) : ∀ a : ℕ,
    ds.foldl (fun x c => 10 * x + digitVal c) a = a * 10 ^ ds.length + digitsToNat ds := by
  induction ds with
  | nil => intro a; simp [digitsToNat]
  | cons c ds ih =>
      intro a
      have h0 : digitsToNat (c :: ds) = digitVal c * 10 ^ ds.length + digitsToNat ds := by
        rw [digitsToNat, List.foldl_cons, ih]
        simp
      rw [List.foldl_cons, ih, h0, List.length_cons, pow_succ]
      ring

theorem digitsToNat_append (ds es : List Char) :
    digitsToNat (ds ++ es) = digitsToNat ds * 10 ^ es.length + digitsToNat es := by
  rw [digitsToNat, List.foldl_append, ← digitsToNat, digitsToNat_from]

theorem digitVal_digitChar (d : ℕ) (h : d < 10) : digitVal (digitChar d) = d := by
  interval_cases d <;> rfl

theorem isDigitChar_digitChar (d : ℕ) (h : d < 10) : isDigitChar (digitChar d) = true := by
  interval_cases d <;> rfl

theorem digitChar_ne_zero (d : ℕ) (h1 : 1 ≤ d) (h2 : d < 10) : digitChar d ≠ '0' := by
  interval_cases d <;> decide

theorem nddAux_spec : ∀ n : ℕ, ∀ fuel : ℕ, n < fuel →
    digitsToNat (natDecDigitsAux fuel n) = n ∧
    (∀ c ∈ natDecDigitsAux fuel n, isDigitChar c = true) ∧
    natDecDigitsAux fuel n ≠ [] := by
  intro n
  induction n using Nat.strong_induction_on with
  | _ n ih =>
      intro fuel hf
      cases fuel with
      | zero => omega
      | succ f =>
          rw [natDecDigitsAux]
          by_cases h10 : n < 10
          · rw [if_pos h10]
            refine ⟨?_, ?_, by simp⟩
            · show digitsToNat [digitChar n] = n
              rw [digitsToNat]
              simp [digitVal_digitChar n h10]
            · intro c hc
              rcases List.mem_singleton.mp hc with rfl
              exact isDigitChar_digitChar n h10
          · rw [if_neg h10]
            have hdivlt : n / 10 < n := Nat.div_lt_self (by omega) (by omega)
            have hdivf : n / 10 < f := by omega
            obtain ⟨hval, hdig, hne⟩ := ih (n / 10) hdivlt f hdivf
            refine ⟨?_, ?_, by simp⟩
            · rw [digitsToNat_append, hval]
              have : digitsToNat [digitChar (n % 10)] = n % 10 := by
                rw [digitsToNat]
                simp [digitVal_digitChar (n % 10) (Nat.mod_lt n (by omega))]
              rw [this]
              simp
              omega
            · intro c hc
              rcases List.mem_append.mp hc with hc | hc
              · exact hdig c hc
              · rcases List.mem_singleton.mp hc with rfl
                exact isDigitChar_digitChar _ (Nat.mod_lt n (by omega))

theorem nddAux_head_ne_zero : ∀ n : ℕ, ∀ fuel : ℕ, n < fuel → 1 ≤ n →
    ∀ c, (natDecDigitsAux fuel n).head? = some c → c ≠ '0' := by
  intro n
  induction n using Nat.strong_induction_on with
  | _ n ih =>
      intro fuel hf h1 c hc
      cases fuel with
      | zero => omega
      | succ f =>
          rw [natDecDigitsAux] at hc
          by_cases h10 : n < 10
          · rw [if_pos h10] at hc
            simp at hc
            subst hc
            exact digitChar_ne_zero n h1 h10
          · rw [if_neg h10] at hc
            have hdivlt : n / 10 < n := Nat.div_lt_self (by omega) (by omega)
            have hdivf : n / 10 < f := by omega
            obtain ⟨-, -, hne⟩ := nddAux_spec (n / 10) f hdivf
            rcases hx : natDecDigitsAux f (n / 10) with _ | ⟨d, ds⟩
            · exact absurd hx hne
            · rw [hx] at hc
              simp at hc
              subst hc
              exact ih (n / 10) hdivlt f hdivf (by omega) _ (by rw [hx]; rfl)

theorem nddAux_length_le : ∀ n : ℕ, ∀ fuel L : ℕ, n < fuel → n < 10 ^ L → 1 ≤ L →
    (natDecDigitsAux fuel n).length ≤ L := by
  intro n
  induction n using Nat.strong_induction_on with
  | _ n ih =>
      intro fuel L hf hL h1
      cases fuel with
      | zero => omega
      | succ f =>
          rw [natDecDigitsAux]
          by_cases h10 : n < 10
          · rw [if_pos h10]
            simpa using h1
          · rw [if_neg h10]
            have hdivlt : n / 10 < n := Nat.div_lt_self (by omega) (by omega)
            have hdivf : n / 10 < f := by omega
            obtain ⟨M, rfl⟩ : ∃ M, L = M + 1 := ⟨L - 1, by omega⟩
            have hM1 : 1 ≤ M := by
              by_contra hcon
              have : M = 0 := by omega
              subst this
              norm_num at hL
              omega
            have hdivL : n / 10 < 10 ^ M := by
              have hsplit : (10 : ℕ) ^ (M + 1) = 10 * 10 ^ M := by
                rw [pow_succ]
                ring
              omega
            have := ih (n / 10) hdivlt f M hdivf hdivL hM1
            simp only [List.length_append, List.length_singleton]
            omega

theorem takeDigits_exact (ds : List Char) : ∀ rest : List Char,
    (∀ c ∈ ds, isDigitChar c = true) →
    (∀ c, rest.head? = some c → isDigitChar c = false) →
    takeDigits (ds ++ rest) = (ds, rest) := by
  induction ds with
  | nil =>
      intro rest _ hrest
      cases rest with
      | nil => rfl
      | cons c r =>
          rw [List.nil_append, takeDigits]
          rw [hrest c rfl]
          simp
  | cons c ds ih =>
      intro rest hds hrest
      rw [List.cons_append, takeDigits, hds c (List.mem_cons_self c ds)]
      simp only [if_true]
      rw [ih rest (fun x hx => hds x (List.mem_cons_of_mem c hx)) hrest]

theorem digitsToNat_pad_zeros (j : ℕ) (ds : List Char) :
    digitsToNat (List.replicate j '0' ++ ds) = digitsToNat ds := by
  induction j with
  | zero => simp
  | succ j ih =>
      rw [List.replicate_succ, List.cons_append]
      have : digitsToNat ('0' :: (List.replicate j '0' ++ ds)) =
          digitsToNat (List.replicate j '0' ++ ds) := by
        rw [digitsToNat, digitsToNat, List.foldl_cons]
        rfl
      rw [this, ih]

theorem le_countFactorAux (p : ℕ) (hp : 2 ≤ p) : ∀ a : ℕ, ∀ n fuel : ℕ,
    1 ≤ n → n ≤ fuel → p ^ a ∣ n → a ≤ countFactorAux fuel p n := by
  intro a
  induction a with
  | zero => intro n fuel _ _ _; omega
  | succ a ih =>
      intro n fuel h1 hfuel hdvd
      have hpn : p ∣ n := dvd_trans (dvd_pow_self p (Nat.succ_ne_zero a)) hdvd
      cases fuel with
      | zero => omega
      | succ f =>
          have hmod : n % p = 0 := Nat.mod_eq_zero_of_dvd hpn
          rw [countFactorAux, if_pos ⟨hp, h1, hmod⟩]
          have hdivp : p ^ a ∣ n / p := by
            obtain ⟨t, ht⟩ := hdvd
            refine ⟨t, ?_⟩
            rw [ht, pow_succ]
            rw [show p ^ a * p * t = p * (p ^ a * t) from by ring]
            exact Nat.mul_div_cancel_left _ (by omega)
          have hge : p ≤ n := Nat.le_of_dvd (by omega) hpn
          have hnp1 : 1 ≤ n / p := Nat.one_le_div_iff (by omega) |>.mpr hge
          have hnpf : n / p ≤ f := by
            have : n / p < n := Nat.div_lt_self (by omega) (by omega)
            omega
          have := ih (n / p) f hnp1 hnpf hdivp
          omega

theorem decValue_zero_exp (I F : List Char) :
    decValue I F 0 = (digitsToNat I : ℚ) + (digitsToNat F : ℚ) / (10 : ℚ) ^ F.length := by
  rw [decValue]
  simp only [le_refl, if_pos, Int.toNat_zero, pow_zero]
  rw [qMul_eq, qAdd_eq, Rat.mkRat_one, Rat.mkRat_one, Rat.mkRat_eq_div]
  push_cast
  ring

theorem isDigitChar_ne_neg {c : Char} (h : isDigitChar c = true) : c ≠ '-' := by
  intro hh
  subst hh
  exact absurd h (by decide)

theorem pFrac_no_dot (cs : List Char) (h : ∀ c, cs.head? = some c → c ≠ '.') :
    pFrac cs = some ([], cs) := by
  rcases cs with _ | ⟨c, r⟩
  · rfl
  · rw [pFrac.eq_def]
    split
    · next r2 heq =>
        exfalso
        simp at heq
        exact h c rfl heq.1
    · rfl

theorem pExp_triv (cs : List Char) (h : ∀ c, cs.head? = some c → c ≠ 'e' ∧ c ≠ 'E') :
    pExp cs = some (0, cs) := by
  rcases cs with _ | ⟨c, r⟩
  · rfl
  · rw [pExp.eq_def]
    obtain ⟨h1, h2⟩ := h c rfl
    simp [h1, h2]

theorem pNumberPos_digits (I rest : List Char)
    (hI : ∀ c ∈ I, isDigitChar c = true) (hne : I ≠ [])
    (hlead : ¬(I.head? = some '0' ∧ I.length ≠ 1))
    (hrest : ∀ c, rest.head? = some c →
      isDigitChar c = false ∧ c ≠ '.' ∧ c ≠ 'e' ∧ c ≠ 'E') :
    pNumberPos (I ++ rest) = some (decValue I [] 0, rest) := by
  rcases I with _ | ⟨c, I2⟩
  · exact absurd rfl hne
  have htd : takeDigits ((c :: I2) ++ rest) = (c :: I2, rest) :=
    takeDigits_exact (c :: I2) rest hI (fun x hx => (hrest x hx).1)
  simp only [pNumberPos, htd]
  rw [if_neg (by simp), if_neg hlead]
  simp only [pFrac_no_dot rest (fun x hx => (hrest x hx).2.1),
    pExp_triv rest (fun x hx => ⟨(hrest x hx).2.2.1, (hrest x hx).2.2.2⟩)]

theorem pNumberPos_digits_frac (I F rest : List Char)
    (hI : ∀ c ∈ I, isDigitChar c = true) (hne : I ≠ [])
    (hlead : ¬(I.head? = some '0' ∧ I.length ≠ 1))
    (hF : ∀ c ∈ F, isDigitChar c = true) (hFne : F ≠ [])
    (hrest : ∀ c, rest.head? = some c →
      isDigitChar c = false ∧ c ≠ 'e' ∧ c ≠ 'E') :
    pNumberPos (I ++ '.' :: (F ++ rest)) = some (decValue I F 0, rest) := by
  rcases I with _ | ⟨c, I2⟩
  · exact absurd rfl hne
  have htd : takeDigits ((c :: I2) ++ '.' :: (F ++ rest)) = (c :: I2, '.' :: (F ++ rest)) :=
    takeDigits_exact (c :: I2) ('.' :: (F ++ rest)) hI
      (by intro x hx; injection hx with h1; subst h1; rfl)
  have htdF : takeDigits (F ++ rest) = (F, rest) :=
    takeDigits_exact F rest hF (fun x hx => (hrest x hx).1)
  have hfrac : pFrac ('.' :: (F ++ rest)) = some (F, rest) := by
    rw [pFrac]
    simp only [htdF]
    rw [if_neg hFne]
  simp only [pNumberPos, htd]
  rw [if_neg (by simp), if_neg hlead]
  simp only [List.cons_append, hfrac,
    pExp_triv rest (fun x hx => ⟨(hrest x hx).2.1, (hrest x hx).2.2⟩)]

theorem pNumber_not_dash (cs : List Char) (h : ∀ r, cs ≠ '-' :: r) :
    pNumber cs = pNumberPos cs := by
  rw [pNumber.eq_def]
  split
  · rename_i r
    exact absurd rfl (h r)
  · rfl

theorem pNumber_dash (r : List Char) :
    pNumber ('-' :: r) = (pNumberPos r).map (fun p => (qNeg p.1, p.2)) := rfl

theorem toList_append_str (s t : String) : (s ++ t).toList = s.toList ++ t.toList := by
  show (s ++ t).data = s.data ++ t.data
  exact String.data_append s t

theorem natDecDigits_spec (n : ℕ) :
    digitsToNat (natDecDigits n) = n ∧
    (∀ c ∈ natDecDigits n, isDigitChar c = true) ∧ natDecDigits n ≠ [] :=
  nddAux_spec n (n + 1) (Nat.lt_succ_self n)

theorem natDecDigits_no_leading_zero (n : ℕ) :
    ¬((natDecDigits n).head? = some '0' ∧ (natDecDigits n).length ≠ 1) := by
  rintro ⟨hhead, hlen⟩
  by_cases h0 : n = 0
  · subst h0
    exact hlen rfl
  · exact nddAux_head_ne_zero n (n + 1) (Nat.lt_succ_self n) (by omega) '0' hhead rfl

theorem den_dvd_pow10 (q : ℚ) (hq : decimalDen q) :
    q.den ∣ 10 ^ max (countFactor 2 q.den) (countFactor 5 q.den) := by
  obtain ⟨a, b, hab⟩ := hq
  have hpos : 0 < q.den := q.pos
  have h2 : a ≤ countFactor 2 q.den := by
    rw [countFactor]
    exact le_countFactorAux 2 (by norm_num) a q.den q.den (by omega) (le_refl _)
      (by rw [hab]; exact ⟨5 ^ b, rfl⟩)
  have h5 : b ≤ countFactor 5 q.den := by
    rw [countFactor]
    exact le_countFactorAux 5 (by norm_num) b q.den q.den (by omega) (le_refl _)
      (by rw [hab]; exact ⟨2 ^ a, by ring⟩)
  have hden2 : q.den ∣ 2 ^ max (countFactor 2 q.den) (countFactor 5 q.den) *
      5 ^ max (countFactor 2 q.den) (countFactor 5 q.den) := by
    conv_lhs => rw [hab]
    exact mul_dvd_mul (pow_dvd_pow 2 (le_trans h2 (le_max_left _ _)))
      (pow_dvd_pow 5 (le_trans h5 (le_max_right _ _)))
  have h10 : (10 : ℕ) ^ max (countFactor 2 q.den) (countFactor 5 q.den) =
      2 ^ max (countFactor 2 q.den) (countFactor 5 q.den) *
      5 ^ max (countFactor 2 q.den) (countFactor 5 q.den) := by
    rw [← Nat.mul_pow]
  rwa [h10]

theorem pNumberPos_natDec_int (ip : ℕ) (rest : List Char)
    (hrest : ∀ c, rest.head? = some c →
      isDigitChar c = false ∧ c ≠ '.' ∧ c ≠ 'e' ∧ c ≠ 'E') :
    pNumberPos (natDecDigits ip ++ rest) = some ((ip : ℚ), rest) := by
  obtain ⟨hval, hdig, hne⟩ := natDecDigits_spec ip
  rw [pNumberPos_digits _ rest hdig hne (natDecDigits_no_leading_zero ip) hrest]
  have : decValue (natDecDigits ip) [] 0 = (ip : ℚ) := by
    rw [decValue_zero_exp, hval]
    simp [digitsToNat]
  rw [this]

theorem pNumberPos_natDec_frac (ip fp k : ℕ) (rest : List Char) (hk : 1 ≤ k)
    (hfp : fp < 10 ^ k)
    (hrest : ∀ c, rest.head? = some c →
      isDigitChar c = false ∧ c ≠ 'e' ∧ c ≠ 'E') :
    pNumberPos (natDecDigits ip ++ '.' :: (padLeftZeros k (natDecDigits fp) ++ rest)) =
      some ((ip : ℚ) + (fp : ℚ) / (10 : ℚ) ^ k, rest) := by
  obtain ⟨hvalI, hdigI, hneI⟩ := natDecDigits_spec ip
  obtain ⟨hvalF, hdigF, hneF⟩ := natDecDigits_spec fp
  have hlenF : (natDecDigits fp).length ≤ k :=
    nddAux_length_le fp (fp + 1) k (Nat.lt_succ_self fp) hfp hk
  have hFdig : ∀ c ∈ padLeftZeros k (natDecDigits fp), isDigitChar c = true := by
    intro c hc
    rw [padLeftZeros] at hc
    rcases List.mem_append.mp hc with hc | hc
    · rw [List.eq_of_mem_replicate hc]
      decide
    · exact hdigF c hc
  have hFlen : (padLeftZeros k (natDecDigits fp)).length = k := by
    rw [padLeftZeros]
    simp
    omega
  have hFne : padLeftZeros k (natDecDigits fp) ≠ [] := by
    intro hcon
    rw [hcon] at hFlen
    simp at hFlen
    omega
  have hFval : digitsToNat (padLeftZeros k (natDecDigits fp)) = fp := by
    rw [padLeftZeros, digitsToNat_pad_zeros, hvalF]
  rw [pNumberPos_digits_frac _ _ rest hdigI hneI (natDecDigits_no_leading_zero ip)
    hFdig hFne hrest]
  have : decValue (natDecDigits ip) (padLeftZeros k (natDecDigits fp)) 0 =
      (ip : ℚ) + (fp : ℚ) / (10 : ℚ) ^ k := by
    rw [decValue_zero_exp, hvalI, hFval, hFlen]
  rw [this]

theorem natDecDigits_not_dash (n : ℕ) (tail : List Char) :
    ∀ r, natDecDigits n ++ tail ≠ '-' :: r := by
  intro r hcon
  rcases hx : natDecDigits n with _ | ⟨d, ds⟩
  · exact (natDecDigits_spec n).2.2 hx
  · rw [hx, List.cons_append] at hcon
    injection hcon with h1 _
    exact isDigitChar_ne_neg
      ((natDecDigits_spec n).2.1 d (by rw [hx]; exact List.mem_cons_self _ _)) h1

theorem pNumber_numToString (q : ℚ) (hq : decimalDen q) (rest : List Char)
    (hrest : ∀ c, rest.head? = some c →
      isDigitChar c = false ∧ c ≠ '.' ∧ c ≠ 'e' ∧ c ≠ 'E') :
    pNumber ((numToString q).toList ++ rest) = some (q, rest) := by
  have hdvd := den_dvd_pow10 q hq
  set K := max (countFactor 2 q.den) (countFactor 5 q.den) with hK
  set m : ℕ := q.num.natAbs * (10 ^ K / q.den) with hm
  have hdenpos : 0 < q.den := q.pos
  have hppos : 0 < (10 : ℕ) ^ K := pow_pos (by norm_num) K
  have hmden : m * q.den = q.num.natAbs * 10 ^ K := by
    rw [hm, mul_assoc, Nat.div_mul_cancel hdvd]
  have hsplit : m / 10 ^ K * 10 ^ K + m % 10 ^ K = m := by
    rw [mul_comm]
    exact Nat.div_add_mod m (10 ^ K)
  have hnum : numToString q =
      (if q.num < 0 then "-" else "") ++ natDecString (m / 10 ^ K) ++
        (if K = 0 then "" else
          "." ++ String.mk (padLeftZeros K (natDecDigits (m % 10 ^ K)))) := rfl
  have habspos : ¬q.num < 0 → (q.num.natAbs : ℚ) / (q.den : ℚ) = q := by
    intro hs
    have habs : ((q.num.natAbs : ℚ)) = (q.num : ℚ) := by
      rw [Int.cast_natAbs]
      push_cast
      exact abs_of_nonneg (by exact_mod_cast not_lt.mp hs)
    rw [habs, Rat.num_div_den]
  have habsneg : q.num < 0 → (q.num.natAbs : ℚ) / (q.den : ℚ) = -q := by
    intro hs
    have habs : ((q.num.natAbs : ℚ)) = -(q.num : ℚ) := by
      rw [Int.cast_natAbs]
      push_cast
      exact abs_of_neg (by exact_mod_cast hs)
    rw [habs, neg_div, Rat.num_div_den]
  have hvalabs : ((m / 10 ^ K : ℕ) : ℚ) + ((m % 10 ^ K : ℕ) : ℚ) / (10 : ℚ) ^ K =
      (q.num.natAbs : ℚ) / (q.den : ℚ) := by
    have h10 : ((10 : ℚ) ^ K) ≠ 0 := by positivity
    have hdQ : ((q.den : ℚ)) ≠ 0 := Nat.cast_ne_zero.mpr (by omega)
    have h1 : ((m / 10 ^ K : ℕ) : ℚ) + ((m % 10 ^ K : ℕ) : ℚ) / (10 : ℚ) ^ K =
        (m : ℚ) / (10 : ℚ) ^ K := by
      rw [eq_div_iff h10, add_mul, div_mul_cancel₀ _ h10]
      exact_mod_cast hsplit
    rw [h1, div_eq_div_iff h10 hdQ]
    exact_mod_cast hmden
  by_cases hK0 : K = 0
  · have hstr : (numToString q).toList =
        (if q.num < 0 then ['-'] else []) ++ natDecDigits (m / 10 ^ K) := by
      rw [hnum, if_pos hK0, toList_append_str, toList_append_str]
      rw [show ("" : String).toList = [] from rfl,
        show (natDecString (m / 10 ^ K)).toList = natDecDigits (m / 10 ^ K) from rfl,
        List.append_nil]
      by_cases hs : q.num < 0
      · rw [if_pos hs, if_pos hs]
        rfl
      · rw [if_neg hs, if_neg hs]
        rfl
    have hden1 : q.den = 1 := by
      rw [hK0, pow_zero] at hdvd
      exact Nat.dvd_one.mp hdvd
    have hmNat : m = q.num.natAbs := by
      have h := hmden
      rw [hden1, mul_one, hK0, pow_zero, mul_one] at h
      exact h
    have hip : m / 10 ^ K = m := by
      rw [hK0, pow_zero, Nat.div_one]
    rw [hstr]
    by_cases hs : q.num < 0
    · rw [if_pos hs]
      have hsh : (['-'] ++ natDecDigits (m / 10 ^ K)) ++ rest =
          '-' :: (natDecDigits (m / 10 ^ K) ++ rest) := by simp
      rw [hsh, pNumber_dash, pNumberPos_natDec_int _ rest hrest]
      have hval : qNeg ((m / 10 ^ K : ℕ) : ℚ) = q := by
        rw [qNeg_eq, hip, hmNat]
        have := habsneg hs
        rw [hden1] at this
        simp at this
        rw [this]
        ring
      rw [Option.map_some', hval]
    · rw [if_neg hs, List.nil_append]
      rw [pNumber_not_dash _ (natDecDigits_not_dash _ rest),
        pNumberPos_natDec_int _ rest hrest]
      have hval : ((m / 10 ^ K : ℕ) : ℚ) = q := by
        rw [hip, hmNat]
        have := habspos hs
        rw [hden1] at this
        simp at this
        rw [this]
      rw [hval]
  · have hk1 : 1 ≤ K := by omega
    have hfp : m % 10 ^ K < 10 ^ K := Nat.mod_lt _ hppos
    have hrest2 : ∀ c, rest.head? = some c →
        isDigitChar c = false ∧ c ≠ 'e' ∧ c ≠ 'E' :=
      fun c hc => ⟨(hrest c hc).1, (hrest c hc).2.2.1, (hrest c hc).2.2.2⟩
    have hstr : (numToString q).toList =
        (if q.num < 0 then ['-'] else []) ++
          (natDecDigits (m / 10 ^ K) ++
            '.' :: padLeftZeros K (natDecDigits (m % 10 ^ K))) := by
      rw [hnum, if_neg hK0, toList_append_str, toList_append_str, toList_append_str]
      rw [show (natDecString (m / 10 ^ K)).toList = natDecDigits (m / 10 ^ K) from rfl,
        show ("." : String).toList = ['.'] from rfl,
        show (String.mk (padLeftZeros K (natDecDigits (m % 10 ^ K)))).toList =
          padLeftZeros K (natDecDigits (m % 10 ^ K)) from rfl]
      by_cases hs : q.num < 0
      · rw [if_pos hs, if_pos hs]
        simp
      · rw [if_neg hs, if_neg hs]
        simp
    rw [hstr]
    by_cases hs : q.num < 0
    · rw [if_pos hs]
      have hsh : ((['-'] ++ (natDecDigits (m / 10 ^ K) ++
          '.' :: padLeftZeros K (natDecDigits (m % 10 ^ K))))) ++ rest =
          '-' :: (natDecDigits (m / 10 ^ K) ++
            '.' :: (padLeftZeros K (natDecDigits (m % 10 ^ K)) ++ rest)) := by
        simp
      rw [hsh, pNumber_dash, pNumberPos_natDec_frac _ _ K rest hk1 hfp hrest2]
      have hval : qNeg (((m / 10 ^ K : ℕ) : ℚ) + ((m % 10 ^ K : ℕ) : ℚ) / (10 : ℚ) ^ K) = q := by
        rw [qNeg_eq, hvalabs, habsneg hs, neg_neg]
      rw [Option.map_some', hval]
    · rw [if_neg hs, List.nil_append]
      have hsh : (natDecDigits (m / 10 ^ K) ++
          '.' :: padLeftZeros K (natDecDigits (m % 10 ^ K))) ++ rest =
          natDecDigits (m / 10 ^ K) ++
            '.' :: (padLeftZeros K (natDecDigits (m % 10 ^ K)) ++ rest) := by
        simp
      rw [hsh, pNumber_not_dash _ (natDecDigits_not_dash _ _),
        pNumberPos_natDec_frac _ _ K rest hk1 hfp hrest2]
      have hval : ((m / 10 ^ K : ℕ) : ℚ) + ((m % 10 ^ K : ℕ) : ℚ) / (10 : ℚ) ^ K = q := by
        rw [hvalabs, habspos hs]
      rw [hval]

theorem isHexDigitChar_hexDigitChar (x : ℕ) (h : x < 16) :
    isHexDigitChar (hexDigitChar x) = true := by
  interval_cases x <;> decide

theorem hexVal_hexDigitChar (x : ℕ) (h : x < 16) : hexVal (hexDigitChar x) = x := by
  interval_cases x <;> decide

theorem skipJWs_append_ws (ws : List Char) : ∀ cs : List Char,
    (∀ c ∈ ws, isJsonWs c = true) → skipJWs (ws ++ cs) = skipJWs cs := by
  induction ws with
  | nil => intro cs _; rfl
  | cons w ws ih =>
      intro cs h
      rw [List.cons_append, skipJWs, List.dropWhile_cons,
        if_pos (h w (List.mem_cons_self w ws))]
      exact ih cs (fun x hx => h x (List.mem_cons_of_mem _ hx))

theorem skipJWs_not_ws (cs : List Char) (h : ∀ c, cs.head? = some c → isJsonWs c = false) :
    skipJWs cs = cs := by
  rcases cs with _ | ⟨c, r⟩
  · rfl
  · rw [skipJWs, List.dropWhile_cons, if_neg (by simp [h c rfl])]

theorem pStringBody_escape : ∀ s rest : List Char,
    pStringBody ((s.map escapeJChar).flatten ++ '"' :: rest) = some (s, rest) := by
  intro s
  induction s with
  | nil => intro rest; rfl
  | cons c cs ih =>
      intro rest
      rw [List.map_cons, List.flatten_cons, List.append_assoc]
      set REST := (cs.map escapeJChar).flatten ++ '"' :: rest with hREST
      rw [escapeJChar]
      by_cases h1 : c = '"'
      · subst h1
        rw [if_pos rfl]
        rw [show (['\\', '"'] : List Char) ++ REST = '\\' :: '"' :: REST from rfl]
        rw [show pStringBody ('\\' :: '"' :: REST) =
          (pStringBody REST).map (fun p => ('"' :: p.1, p.2)) from by rfl]
        rw [hREST, ih rest, Option.map_some']
      rw [if_neg h1]
      by_cases h2 : c = '\\'
      · subst h2
        rw [if_pos rfl]
        rw [show (['\\', '\\'] : List Char) ++ REST = '\\' :: '\\' :: REST from rfl]
        rw [show pStringBody ('\\' :: '\\' :: REST) =
          (pStringBody REST).map (fun p => ('\\' :: p.1, p.2)) from by rfl]
        rw [hREST, ih rest, Option.map_some']
      rw [if_neg h2]
      by_cases h3 : c = Char.ofNat 8
      · subst h3
        rw [if_pos rfl]
        rw [show (['\\', 'b'] : List Char) ++ REST = '\\' :: 'b' :: REST from rfl]
        rw [show pStringBody ('\\' :: 'b' :: REST) =
          (pStringBody REST).map (fun p => (Char.ofNat 8 :: p.1, p.2)) from by rfl]
        rw [hREST, ih rest, Option.map_some']
      rw [if_neg h3]
      by_cases h4 : c = Char.ofNat 12
      · subst h4
        rw [if_pos rfl]
        rw [show (['\\', 'f'] : List Char) ++ REST = '\\' :: 'f' :: REST from rfl]
        rw [show pStringBody ('\\' :: 'f' :: REST) =
          (pStringBody REST).map (fun p => (Char.ofNat 12 :: p.1, p.2)) from by rfl]
        rw [hREST, ih rest, Option.map_some']
      rw [if_neg h4]
      by_cases h5 : c = '\n'
      · subst h5
        rw [if_pos rfl]
        rw [show (['\\', 'n'] : List Char) ++ REST = '\\' :: 'n' :: REST from rfl]
        rw [show pStringBody ('\\' :: 'n' :: REST) =
          (pStringBody REST).map (fun p => ('\n' :: p.1, p.2)) from by rfl]
        rw [hREST, ih rest, Option.map_some']
      rw [if_neg h5]
      by_cases h6 : c = '\r'
      · subst h6
        rw [if_pos rfl]
        rw [show (['\\', 'r'] : List Char) ++ REST = '\\' :: 'r' :: REST from rfl]
        rw [show pStringBody ('\\' :: 'r' :: REST) =
          (pStringBody REST).map (fun p => ('\r' :: p.1, p.2)) from by rfl]
        rw [hREST, ih rest, Option.map_some']
      rw [if_neg h6]
      by_cases h7 : c = '\t'
      · subst h7
        rw [if_pos rfl]
        rw [show (['\\', 't'] : List Char) ++ REST = '\\' :: 't' :: REST from rfl]
        rw [show pStringBody ('\\' :: 't' :: REST) =
          (pStringBody REST).map (fun p => ('\t' :: p.1, p.2)) from by rfl]
        rw [hREST, ih rest, Option.map_some']
      rw [if_neg h7]
      by_cases h8 : c.toNat < 32
      · rw [if_pos h8]
        have hdiv : c.toNat / 16 < 16 := by omega
        have hmod : c.toNat % 16 < 16 := Nat.mod_lt _ (by norm_num)
        rw [show (['\\', 'u', '0', '0', hexDigitChar (c.toNat / 16),
            hexDigitChar (c.toNat % 16)] : List Char) ++ REST =
          '\\' :: 'u' :: '0' :: '0' :: hexDigitChar (c.toNat / 16) ::
            hexDigitChar (c.toNat % 16) :: REST from rfl]
        rw [show pStringBody ('\\' :: 'u' :: '0' :: '0' :: hexDigitChar (c.toNat / 16) ::
            hexDigitChar (c.toNat % 16) :: REST) =
          (if ['0', '0', hexDigitChar (c.toNat / 16),
              hexDigitChar (c.toNat % 16)].all isHexDigitChar then
            (pStringBody REST).map (fun p =>
              (Char.ofNat (hexDigitsToNat ['0', '0', hexDigitChar (c.toNat / 16),
                hexDigitChar (c.toNat % 16)]) :: p.1, p.2))
          else none) from by rfl]
        rw [if_pos (by
          simp [isHexDigitChar_hexDigitChar _ hdiv, isHexDigitChar_hexDigitChar _ hmod,
            show isHexDigitChar '0' = true from by decide])]
        have hval : hexDigitsToNat ['0', '0', hexDigitChar (c.toNat / 16),
            hexDigitChar (c.toNat % 16)] = c.toNat := by
          simp only [hexDigitsToNat, List.foldl]
          rw [show hexVal '0' = 0 from rfl, hexVal_hexDigitChar _ hdiv,
            hexVal_hexDigitChar _ hmod]
          omega
        rw [hval, Char.ofNat_toNat, hREST, ih rest, Option.map_some']
      rw [if_neg h8]
      rw [show ([c] : List Char) ++ REST = c :: REST from rfl]
      rw [pStringBody.eq_def]
      split
      · rename_i heq
        exact absurd heq (by simp)
      · rename_i r2 heq
        exfalso
        simp at heq
        exact h1 heq.1
      · rename_i a b d e r2 heq
        exfalso
        simp at heq
        exact h2 heq.1
      · rename_i e r2 heq
        exfalso
        simp at heq
        exact h2 heq.1
      · rename_i heq
        have h9 := heq
        simp at h9
        obtain ⟨h9a, h9b⟩ := h9
        subst h9a
        subst h9b
        rw [if_neg h8, hREST, ih rest, Option.map_some']

theorem pVal_ws (fuel : ℕ) (ws cs : List Char) (h : ∀ c ∈ ws, isJsonWs c = true) :
    pVal fuel (ws ++ cs) = pVal fuel cs := by
  cases fuel with
  | zero => rfl
  | succ f =>
      show pVal (f + 1) (ws ++ cs) = pVal (f + 1) cs
      rw [pVal, pVal, skipJWs_append_ws ws cs h]

theorem pItemsAux_ws (pv : List Char → Option (Json × List Char))
    (Hws : ∀ ws cs, (∀ c ∈ ws, isJsonWs c = true) → pv (ws ++ cs) = pv cs)
    (steps : ℕ) (ws cs : List Char) (h : ∀ c ∈ ws, isJsonWs c = true) :
    pItemsAux pv steps (ws ++ cs) = pItemsAux pv steps cs := by
  cases steps with
  | zero => rfl
  | succ s => rw [pItemsAux, pItemsAux, Hws ws cs h]

theorem pFieldsAux_ws (pv : List Char → Option (Json × List Char))
    (steps : ℕ) (ws cs : List Char) (h : ∀ c ∈ ws, isJsonWs c = true) :
    pFieldsAux pv steps (ws ++ cs) = pFieldsAux pv steps cs := by
  cases steps with
  | zero => rfl
  | succ s => rw [pFieldsAux, pFieldsAux, skipJWs_append_ws ws cs h]

theorem digit_not_special (c : Char) (h : isDigitChar c = true) :
    isJsonWs c = false ∧ c ≠ 'n' ∧ c ≠ 't' ∧ c ≠ 'f' ∧ c ≠ '"' ∧ c ≠ '[' ∧
      c ≠ lbraceChar ∧ c ≠ ']' ∧ c ≠ rbraceChar := by
  refine ⟨?_, ?_, ?_, ?_, ?_, ?_, ?_, ?_, ?_⟩
  · rcases hb : isJsonWs c
    · rfl
    · exfalso
      simp [isJsonWs] at hb
      rcases hb with ((rfl | rfl) | rfl) | rfl <;> exact absurd h (by decide)
  all_goals intro hcon
  all_goals subst hcon
  all_goals exact absurd h (by decide)

theorem dash_not_special :
    isJsonWs '-' = false ∧ '-' ≠ 'n' ∧ '-' ≠ 't' ∧ '-' ≠ 'f' ∧ '-' ≠ '"' ∧ '-' ≠ '[' ∧
      '-' ≠ lbraceChar ∧ '-' ≠ ']' ∧ '-' ≠ rbraceChar := by
  refine ⟨rfl, ?_, ?_, ?_, ?_, ?_, ?_, ?_, ?_⟩ <;> decide

theorem numToString_head (q : ℚ) :
    ∃ c cs, (numToString q).toList = c :: cs ∧ (c = '-' ∨ isDigitChar c = true) := by
  set K := max (countFactor 2 q.den) (countFactor 5 q.den) with hK
  set m : ℕ := q.num.natAbs * (10 ^ K / q.den) with hm
  have hnum : numToString q =
      (if q.num < 0 then "-" else "") ++ natDecString (m / 10 ^ K) ++
        (if K = 0 then "" else
          "." ++ String.mk (padLeftZeros K (natDecDigits (m % 10 ^ K)))) := rfl
  rw [hnum, toList_append_str, toList_append_str]
  by_cases hs : q.num < 0
  · rw [if_pos hs]
    refine ⟨'-', (natDecString (m / 10 ^ K)).toList ++
      (if K = 0 then ("" : String) else
        "." ++ String.mk (padLeftZeros K (natDecDigits (m % 10 ^ K)))).toList, ?_, Or.inl rfl⟩
    rw [show ("-" : String).toList = ['-'] from rfl]
    simp
  · rw [if_neg hs]
    obtain ⟨-, hdig, hne⟩ := natDecDigits_spec (m / 10 ^ K)
    rcases hx : natDecDigits (m / 10 ^ K) with _ | ⟨d, ds⟩
    · exact absurd hx hne
    · refine ⟨d, ds ++ (if K = 0 then ("" : String) else
        "." ++ String.mk (padLeftZeros K (natDecDigits (m % 10 ^ K)))).toList,
        ?_, Or.inr (hdig d (by rw [hx]; exact List.mem_cons_self _ _))⟩
      rw [show ("" : String).toList = [] from rfl,
        show (natDecString (m / 10 ^ K)).toList = natDecDigits (m / 10 ^ K) from rfl, hx]
      simp

/-- Bound on a JSON value for the fuel-driven parser: the index bounds both
the nesting depth and the length of every array and object, and numeric
leaves are exact decimals (the values `JSON.stringify` prints in positional
notation). -/
inductive JsonOK : ℕ → Json → Prop where
  | null (n : ℕ) : JsonOK (n + 1) .null
  | bool (n : ℕ) (b : Bool) : JsonOK (n + 1) (.bool b)
  | num (n : ℕ) (q : ℚ) (h : decimalDen q) : JsonOK (n + 1) (.num q)
  | str (n : ℕ) (s : String) : JsonOK (n + 1) (.str s)
  | arr (n : ℕ) (items : List Json) (hlen : items.length ≤ n)
      (h : ∀ v ∈ items, JsonOK n v) : JsonOK (n + 1) (.arr items)
  | obj (n : ℕ) (fields : List (String × Json)) (hlen : fields.length ≤ n)
      (h : ∀ p ∈ fields, JsonOK n p.2) : JsonOK (n + 1) (.obj fields)

/-- Depth bound on a JSON value for the fuel-driven serializer, again with
exact-decimal numeric leaves. -/
inductive JsonDepthOK : ℕ → Json → Prop where
  | null (n : ℕ) : JsonDepthOK (n + 1) .null
  | bool (n : ℕ) (b : Bool) : JsonDepthOK (n + 1) (.bool b)
  | num (n : ℕ) (q : ℚ) (h : decimalDen q) : JsonDepthOK (n + 1) (.num q)
  | str (n : ℕ) (s : String) : JsonDepthOK (n + 1) (.str s)
  | arr (n : ℕ) (items : List Json) (h : ∀ v ∈ items, JsonDepthOK n v) :
      JsonDepthOK (n + 1) (.arr items)
  | obj (n : ℕ) (fields : List (String × Json)) (h : ∀ p ∈ fields, JsonDepthOK n p.2) :
      JsonDepthOK (n + 1) (.obj fields)

theorem jsonOK_mono : ∀ n v, JsonOK n v → ∀ m, n ≤ m → JsonOK m v := by
  intro n v h
  induction h with
  | null n => intro m hm; obtain ⟨m2, rfl⟩ : ∃ m2, m = m2 + 1 := ⟨m - 1, by omega⟩; exact .null m2
  | bool n b => intro m hm; obtain ⟨m2, rfl⟩ : ∃ m2, m = m2 + 1 := ⟨m - 1, by omega⟩; exact .bool m2 b
  | num n q hq => intro m hm; obtain ⟨m2, rfl⟩ : ∃ m2, m = m2 + 1 := ⟨m - 1, by omega⟩; exact .num m2 q hq
  | str n s => intro m hm; obtain ⟨m2, rfl⟩ : ∃ m2, m = m2 + 1 := ⟨m - 1, by omega⟩; exact .str m2 s
  | arr n items hlen h ih =>
      intro m hm
      obtain ⟨m2, rfl⟩ : ∃ m2, m = m2 + 1 := ⟨m - 1, by omega⟩
      exact .arr m2 items (by omega) (fun v hv => ih v hv m2 (by omega))
  | obj n fields hlen h ih =>
      intro m hm
      obtain ⟨m2, rfl⟩ : ∃ m2, m = m2 + 1 := ⟨m - 1, by omega⟩
      exact .obj m2 fields (by omega) (fun p hp => ih p hp m2 (by omega))

theorem jsonDepthOK_mono : ∀ n v, JsonDepthOK n v → ∀ m, n ≤ m → JsonDepthOK m v := by
  intro n v h
  induction h with
  | null n => intro m hm; obtain ⟨m2, rfl⟩ : ∃ m2, m = m2 + 1 := ⟨m - 1, by omega⟩; exact .null m2
  | bool n b => intro m hm; obtain ⟨m2, rfl⟩ : ∃ m2, m = m2 + 1 := ⟨m - 1, by omega⟩; exact .bool m2 b
  | num n q hq => intro m hm; obtain ⟨m2, rfl⟩ : ∃ m2, m = m2 + 1 := ⟨m - 1, by omega⟩; exact .num m2 q hq
  | str n s => intro m hm; obtain ⟨m2, rfl⟩ : ∃ m2, m = m2 + 1 := ⟨m - 1, by omega⟩; exact .str m2 s
  | arr n items h ih =>
      intro m hm
      obtain ⟨m2, rfl⟩ : ∃ m2, m = m2 + 1 := ⟨m - 1, by omega⟩
      exact .arr m2 items (fun v hv => ih v hv m2 (by omega))
  | obj n fields h ih =>
      intro m hm
      obtain ⟨m2, rfl⟩ : ∃ m2, m = m2 + 1 := ⟨m - 1, by omega⟩
      exact .obj m2 fields (fun p hp => ih p hp m2 (by omega))

theorem strF_skip_ne (fuel : ℕ) (ind : String) (v : Json) (R : List Char) :
    skipJWs ((jsonStringifyF (fuel + 1) ind v).toList ++ R) =
      (jsonStringifyF (fuel + 1) ind v).toList ++ R ∧
    ∃ c cs, (jsonStringifyF (fuel + 1) ind v).toList ++ R = c :: cs ∧ c ≠ ']' := by
  have hmain : ∃ c cs, (jsonStringifyF (fuel + 1) ind v).toList ++ R = c :: cs ∧
      isJsonWs c = false ∧ c ≠ ']' := by
    cases v with
    | null => exact ⟨'n', _, rfl, by decide, by decide⟩
    | bool b =>
        cases b
        · exact ⟨'f', _, rfl, by decide, by decide⟩
        · exact ⟨'t', _, rfl, by decide, by decide⟩
    | str s => exact ⟨'"', _, rfl, by decide, by decide⟩
    | num q =>
        obtain ⟨c, cs, hcs, hc⟩ := numToString_head q
        refine ⟨c, cs ++ R, ?_, ?_, ?_⟩
        · rw [show (jsonStringifyF (fuel + 1) ind (.num q)).toList =
            (numToString q).toList from rfl, hcs, List.cons_append]
        · rcases hc with rfl | hd
          · exact dash_not_special.1
          · exact (digit_not_special c hd).1
        · rcases hc with rfl | hd
          · exact dash_not_special.2.2.2.2.2.2.2.1
          · exact (digit_not_special c hd).2.2.2.2.2.2.2.1
    | arr items =>
        cases items with
        | nil => exact ⟨'[', _, rfl, by decide, by decide⟩
        | cons x xs =>
            refine ⟨'[', '\n' :: ((ind ++ "  ").toList ++
              ((joinStringifyItems (jsonStringifyF fuel (ind ++ "  "))
                (",\n" ++ (ind ++ "  ")) x xs).toList ++
                ('\n' :: (ind.toList ++ (']' :: R))))), ?_, by decide, by decide⟩
            rw [show (jsonStringifyF (fuel + 1) ind (.arr (x :: xs))) =
              "[\n" ++ (ind ++ "  ") ++ joinStringifyItems (jsonStringifyF fuel (ind ++ "  "))
                (",\n" ++ (ind ++ "  ")) x xs ++ "\n" ++ ind ++ "]" from rfl]
            rw [toList_append_str, toList_append_str, toList_append_str, toList_append_str,
              toList_append_str]
            rw [show ("[\n" : String).toList = ['[', '\n'] from rfl,
              show ("\n" : String).toList = ['\n'] from rfl,
              show ("]" : String).toList = [']'] from rfl]
            simp
    | obj fields =>
        cases fields with
        | nil => exact ⟨lbraceChar, _, rfl, by decide, by decide⟩
        | cons p ps =>
            refine ⟨lbraceChar, '\n' :: ((ind ++ "  ").toList ++
              ((joinStringifyFields (jsonStringifyF fuel (ind ++ "  "))
                (",\n" ++ (ind ++ "  ")) p ps).toList ++
                ('\n' :: (ind.toList ++ (rbraceChar :: R))))), ?_, by decide, by decide⟩
            rw [show (jsonStringifyF (fuel + 1) ind (.obj (p :: ps))) =
              "\x7b\n" ++ (ind ++ "  ") ++ joinStringifyFields (jsonStringifyF fuel (ind ++ "  "))
                (",\n" ++ (ind ++ "  ")) p ps ++ "\n" ++ ind ++ "\x7d" from rfl]
            rw [toList_append_str, toList_append_str, toList_append_str, toList_append_str,
              toList_append_str]
            rw [show ("\x7b\n" : String).toList = [lbraceChar, '\n'] from by decide,
              show ("\n" : String).toList = ['\n'] from rfl,
              show ("\x7d" : String).toList = [rbraceChar] from by decide]
            simp
  obtain ⟨c, cs, hcs, hws, hne⟩ := hmain
  refine ⟨?_, c, cs, hcs, hne⟩
  rw [hcs]
  exact skipJWs_not_ws _ (fun x hx => by injection hx with h1; subst h1; exact hws)

theorem pVal_catchall (fuel : ℕ) (cs : List Char) (c : Char) (cs2 : List Char)
    (hskip : skipJWs cs = c :: cs2)
    (hn : c ≠ 'n') (ht : c ≠ 't') (hf : c ≠ 'f') (hq : c ≠ '"') (hb : c ≠ '[')
    (hl : c ≠ lbraceChar) :
    pVal (fuel + 1) cs = (pNumber (c :: cs2)).map (fun p => (.num p.1, p.2)) := by
  rw [pVal, hskip]
  split
  · rename_i r heq
    exfalso
    simp at heq
    exact hn heq.1
  · rename_i r heq
    exfalso
    simp at heq
    exact ht heq.1
  · rename_i r heq
    exfalso
    simp at heq
    exact hf heq.1
  · rename_i r heq
    exfalso
    simp at heq
    exact hq heq.1
  · rename_i r heq
    exfalso
    simp at heq
    exact hb heq.1
  · rw [if_neg (by simp [hl])]

theorem pVal_arr_go (fuel : ℕ) (cs r : List Char) (hskip : skipJWs cs = '[' :: r)
    (c : Char) (cs3 : List Char) (hskip2 : skipJWs r = c :: cs3) (hc : c ≠ ']') :
    pVal (fuel + 1) cs = (match pItemsAux (pVal fuel) (fuel + 1) r with
      | some (vs, r2) => some (.arr vs, r2)
      | none => none) := by
  simp only [pVal, hskip]
  rw [hskip2]
  split
  · rename_i r2 heq
    exfalso
    simp at heq
    exact hc heq.1
  · rfl

theorem pVal_obj_go (fuel : ℕ) (cs r : List Char) (hskip : skipJWs cs = lbraceChar :: r)
    (c : Char) (cs3 : List Char) (hskip2 : skipJWs r = c :: cs3) (hc : c ≠ rbraceChar) :
    pVal (fuel + 1) cs = (match pFieldsAux (pVal fuel) (fuel + 1) r with
      | some (fs, r3) => some (.obj fs, r3)
      | none => none) := by
  rw [pVal, hskip]
  split
  · rename_i r2 heq
    exfalso
    simp at heq
    exact absurd heq.1 (by decide)
  · rename_i r2 heq
    exfalso
    simp at heq
    exact absurd heq.1 (by decide)
  · rename_i r2 heq
    exfalso
    simp at heq
    exact absurd heq.1 (by decide)
  · rename_i r2 heq
    exfalso
    simp at heq
    exact absurd heq.1 (by decide)
  · rename_i r2 heq
    exfalso
    simp at heq
    exact absurd heq.1 (by decide)
  · rw [if_pos (show (lbraceChar :: r).head? = some lbraceChar from rfl)]
    simp only [List.tail_cons, hskip2]
    rw [if_neg hc]

theorem pItemsAux_round
    (pv : List Char → Option (Json × List Char)) (fuelS : ℕ) (ind ind2 : String)
    (hind : ∀ c ∈ ind.toList, isJsonWs c = true)
    (hind2 : ∀ c ∈ ind2.toList, isJsonWs c = true)
    (Hws : ∀ ws cs, (∀ c ∈ ws, isJsonWs c = true) → pv (ws ++ cs) = pv cs) :
    ∀ (xs : List Json) (x : Json) (steps : ℕ) (rest : List Char),
    xs.length < steps →
    (∀ v ∈ x :: xs, ∀ rest2 : List Char,
      (∀ c, rest2.head? = some c → isDigitChar c = false ∧ c ≠ '.' ∧ c ≠ 'e' ∧ c ≠ 'E') →
      pv ((jsonStringifyF fuelS ind2 v).toList ++ rest2) = some (v, rest2)) →
    pItemsAux pv steps
      ((joinStringifyItems (jsonStringifyF fuelS ind2) (",\n" ++ ind2) x xs).toList ++
        ('\n' :: (ind.toList ++ ']' :: rest))) = some (x :: xs, rest) := by
  intro xs
  induction xs with
  | nil =>
      intro x steps rest hsteps H
      obtain ⟨s, rfl⟩ : ∃ s, steps = s + 1 := ⟨steps - 1, by omega⟩
      rw [joinStringifyItems, pItemsAux]
      have hnl : ∀ c, ('\n' :: (ind.toList ++ ']' :: rest)).head? = some c →
          isDigitChar c = false ∧ c ≠ '.' ∧ c ≠ 'e' ∧ c ≠ 'E' := by
        intro c hc
        injection hc with h1
        subst h1
        exact ⟨by decide, by decide, by decide, by decide⟩
      have hsk : skipJWs ('\n' :: (ind.toList ++ ']' :: rest)) = ']' :: rest := by
        rw [show ('\n' :: (ind.toList ++ ']' :: rest)) =
          ('\n' :: ind.toList) ++ (']' :: rest) from by simp]
        rw [skipJWs_append_ws _ _ (by
          intro c hc
          rcases List.mem_cons.mp hc with rfl | hc2
          · rfl
          · exact hind c hc2)]
        exact skipJWs_not_ws _ (by intro c hc; injection hc with h1; subst h1; rfl)
      simp only [H x (List.mem_cons_self _ _) _ hnl, hsk]
  | cons y ys ih =>
      intro x steps rest hsteps H
      obtain ⟨s, rfl⟩ : ∃ s, steps = s + 1 := ⟨steps - 1, by omega⟩
      have hin : (joinStringifyItems (jsonStringifyF fuelS ind2) (",\n" ++ ind2)
            x (y :: ys)).toList ++ ('\n' :: (ind.toList ++ ']' :: rest)) =
          (jsonStringifyF fuelS ind2 x).toList ++
            (',' :: '\n' :: (ind2.toList ++
              ((joinStringifyItems (jsonStringifyF fuelS ind2) (",\n" ++ ind2) y ys).toList ++
                ('\n' :: (ind.toList ++ ']' :: rest))))) := by
        rw [joinStringifyItems, toList_append_str, toList_append_str, toList_append_str]
        rw [show (",\n" : String).toList = [',', '\n'] from rfl]
        simp
      rw [hin, pItemsAux]
      have hrest2 : ∀ c, (',' :: '\n' :: (ind2.toList ++
            ((joinStringifyItems (jsonStringifyF fuelS ind2) (",\n" ++ ind2) y ys).toList ++
              ('\n' :: (ind.toList ++ ']' :: rest))))).head? = some c →
          isDigitChar c = false ∧ c ≠ '.' ∧ c ≠ 'e' ∧ c ≠ 'E' := by
        intro c hc
        injection hc with h1
        subst h1
        exact ⟨by decide, by decide, by decide, by decide⟩
      have hsk2 : skipJWs (',' :: '\n' :: (ind2.toList ++
            ((joinStringifyItems (jsonStringifyF fuelS ind2) (",\n" ++ ind2) y ys).toList ++
              ('\n' :: (ind.toList ++ ']' :: rest))))) =
          ',' :: '\n' :: (ind2.toList ++
            ((joinStringifyItems (jsonStringifyF fuelS ind2) (",\n" ++ ind2) y ys).toList ++
              ('\n' :: (ind.toList ++ ']' :: rest)))) :=
        skipJWs_not_ws _ (by intro c hc; injection hc with h1; subst h1; rfl)
      simp only [H x (List.mem_cons_self _ _) _ hrest2, hsk2]
      have hstrip : pItemsAux pv s ('\n' :: (ind2.toList ++
            ((joinStringifyItems (jsonStringifyF fuelS ind2) (",\n" ++ ind2) y ys).toList ++
              ('\n' :: (ind.toList ++ ']' :: rest))))) =
          pItemsAux pv s
            ((joinStringifyItems (jsonStringifyF fuelS ind2) (",\n" ++ ind2) y ys).toList ++
              ('\n' :: (ind.toList ++ ']' :: rest))) := by
        rw [show ('\n' :: (ind2.toList ++
            ((joinStringifyItems (jsonStringifyF fuelS ind2) (",\n" ++ ind2) y ys).toList ++
              ('\n' :: (ind.toList ++ ']' :: rest))))) =
          ('\n' :: ind2.toList) ++
            ((joinStringifyItems (jsonStringifyF fuelS ind2) (",\n" ++ ind2) y ys).toList ++
              ('\n' :: (ind.toList ++ ']' :: rest))) from by simp]
        exact pItemsAux_ws pv Hws s _ _ (by
          intro c hc
          rcases List.mem_cons.mp hc with rfl | hc2
          · rfl
          · exact hind2 c hc2)
      rw [hstrip]
      simp only [ih y s rest (by simp only [List.length_cons] at hsteps; omega)
        (fun v hv rest2 h2 => H v (List.mem_cons_of_mem _ hv) rest2 h2)]

theorem pFieldsAux_round
    (pv : List Char → Option (Json × List Char)) (fuelS : ℕ) (ind ind2 : String)
    (hind : ∀ c ∈ ind.toList, isJsonWs c = true)
    (hind2 : ∀ c ∈ ind2.toList, isJsonWs c = true)
    (Hws : ∀ ws cs, (∀ c ∈ ws, isJsonWs c = true) → pv (ws ++ cs) = pv cs) :
    ∀ (ps : List (String × Json)) (p : String × Json) (steps : ℕ) (rest : List Char),
    ps.length < steps →
    (∀ kv ∈ p :: ps, ∀ rest2 : List Char,
      (∀ c, rest2.head? = some c → isDigitChar c = false ∧ c ≠ '.' ∧ c ≠ 'e' ∧ c ≠ 'E') →
      pv ((jsonStringifyF fuelS ind2 kv.2).toList ++ rest2) = some (kv.2, rest2)) →
    pFieldsAux pv steps
      ((joinStringifyFields (jsonStringifyF fuelS ind2) (",\n" ++ ind2) p ps).toList ++
        ('\n' :: (ind.toList ++ rbraceChar :: rest))) = some (p :: ps, rest) := by
  intro ps
  induction ps with
  | nil =>
      intro p steps rest hsteps H
      obtain ⟨s, rfl⟩ : ∃ s, steps = s + 1 := ⟨steps - 1, by omega⟩
      have hin : (joinStringifyFields (jsonStringifyF fuelS ind2) (",\n" ++ ind2)
            p []).toList ++ ('\n' :: (ind.toList ++ rbraceChar :: rest)) =
          '"' :: ((p.1.toList.map escapeJChar).flatten ++
            ('"' :: (':' :: (' ' :: ((jsonStringifyF fuelS ind2 p.2).toList ++
              ('\n' :: (ind.toList ++ rbraceChar :: rest))))))) := by
        rw [joinStringifyFields, toList_append_str, toList_append_str]
        rw [show (quoteJString p.1).toList =
          '"' :: ((p.1.toList.map escapeJChar).flatten ++ ['"']) from rfl]
        rw [show (": " : String).toList = [':', ' '] from rfl]
        simp
      rw [hin, pFieldsAux]
      have hsk1 : skipJWs ('"' :: ((p.1.toList.map escapeJChar).flatten ++
            ('"' :: (':' :: (' ' :: ((jsonStringifyF fuelS ind2 p.2).toList ++
              ('\n' :: (ind.toList ++ rbraceChar :: rest)))))))) =
          '"' :: ((p.1.toList.map escapeJChar).flatten ++
            ('"' :: (':' :: (' ' :: ((jsonStringifyF fuelS ind2 p.2).toList ++
              ('\n' :: (ind.toList ++ rbraceChar :: rest))))))) :=
        skipJWs_not_ws _ (by intro c hc; injection hc with h1; subst h1; rfl)
      have hsk3 : skipJWs (':' :: (' ' :: ((jsonStringifyF fuelS ind2 p.2).toList ++
            ('\n' :: (ind.toList ++ rbraceChar :: rest))))) =
          ':' :: (' ' :: ((jsonStringifyF fuelS ind2 p.2).toList ++
            ('\n' :: (ind.toList ++ rbraceChar :: rest)))) :=
        skipJWs_not_ws _ (by intro c hc; injection hc with h1; subst h1; rfl)
      have hpv : pv (' ' :: ((jsonStringifyF fuelS ind2 p.2).toList ++
            ('\n' :: (ind.toList ++ rbraceChar :: rest)))) =
          some (p.2, '\n' :: (ind.toList ++ rbraceChar :: rest)) := by
        rw [show (' ' :: ((jsonStringifyF fuelS ind2 p.2).toList ++
            ('\n' :: (ind.toList ++ rbraceChar :: rest)))) =
          ([' '] : List Char) ++ ((jsonStringifyF fuelS ind2 p.2).toList ++
            ('\n' :: (ind.toList ++ rbraceChar :: rest))) from rfl]
        rw [Hws [' '] _ (by intro c hc; simp at hc; subst hc; rfl)]
        exact H p (List.mem_cons_self _ _) _ (by
          intro c hc
          injection hc with h1
          subst h1
          exact ⟨by decide, by decide, by decide, by decide⟩)
      have hskEND : skipJWs ('\n' :: (ind.toList ++ rbraceChar :: rest)) =
          rbraceChar :: rest := by
        rw [show ('\n' :: (ind.toList ++ rbraceChar :: rest)) =
          ('\n' :: ind.toList) ++ (rbraceChar :: rest) from by simp]
        rw [skipJWs_append_ws _ _ (by
          intro c hc
          rcases List.mem_cons.mp hc with rfl | hc2
          · rfl
          · exact hind c hc2)]
        exact skipJWs_not_ws _ (by
          intro c hc
          injection hc with h1
          subst h1
          decide)
      simp only [hsk1, pStringBody_escape, hsk3, hpv, hskEND]
      rw [if_pos trivial]
      rfl
  | cons q qs ih =>
      intro p steps rest hsteps H
      obtain ⟨s, rfl⟩ : ∃ s, steps = s + 1 := ⟨steps - 1, by omega⟩
      have hin : (joinStringifyFields (jsonStringifyF fuelS ind2) (",\n" ++ ind2)
            p (q :: qs)).toList ++ ('\n' :: (ind.toList ++ rbraceChar :: rest)) =
          '"' :: ((p.1.toList.map escapeJChar).flatten ++
            ('"' :: (':' :: (' ' :: ((jsonStringifyF fuelS ind2 p.2).toList ++
              (',' :: '\n' :: (ind2.toList ++
                ((joinStringifyFields (jsonStringifyF fuelS ind2) (",\n" ++ ind2)
                  q qs).toList ++ ('\n' :: (ind.toList ++ rbraceChar :: rest)))))))))) := by
        rw [joinStringifyFields, toList_append_str, toList_append_str, toList_append_str,
          toList_append_str, toList_append_str]
        rw [show (quoteJString p.1).toList =
          '"' :: ((p.1.toList.map escapeJChar).flatten ++ ['"']) from rfl]
        rw [show (": " : String).toList = [':', ' '] from rfl]
        rw [show (",\n" : String).toList = [',', '\n'] from rfl]
        simp
      rw [hin, pFieldsAux]
      have hsk1 : skipJWs ('"' :: ((p.1.toList.map escapeJChar).flatten ++
            ('"' :: (':' :: (' ' :: ((jsonStringifyF fuelS ind2 p.2).toList ++
              (',' :: '\n' :: (ind2.toList ++
                ((joinStringifyFields (jsonStringifyF fuelS ind2) (",\n" ++ ind2)
                  q qs).toList ++ ('\n' :: (ind.toList ++ rbraceChar :: rest))))))))))) =
          '"' :: ((p.1.toList.map escapeJChar).flatten ++
            ('"' :: (':' :: (' ' :: ((jsonStringifyF fuelS ind2 p.2).toList ++
              (',' :: '\n' :: (ind2.toList ++
                ((joinStringifyFields (jsonStringifyF fuelS ind2) (",\n" ++ ind2)
                  q qs).toList ++ ('\n' :: (ind.toList ++ rbraceChar :: rest)))))))))) :=
        skipJWs_not_ws _ (by intro c hc; injection hc with h1; subst h1; rfl)
      have hsk3 : skipJWs (':' :: (' ' :: ((jsonStringifyF fuelS ind2 p.2).toList ++
            (',' :: '\n' :: (ind2.toList ++
              ((joinStringifyFields (jsonStringifyF fuelS ind2) (",\n" ++ ind2)
                q qs).toList ++ ('\n' :: (ind.toList ++ rbraceChar :: rest)))))))) =
          ':' :: (' ' :: ((jsonStringifyF fuelS ind2 p.2).toList ++
            (',' :: '\n' :: (ind2.toList ++
              ((joinStringifyFields (jsonStringifyF fuelS ind2) (",\n" ++ ind2)
                q qs).toList ++ ('\n' :: (ind.toList ++ rbraceChar :: rest))))))) :=
        skipJWs_not_ws _ (by intro c hc; injection hc with h1; subst h1; rfl)
      have hpv : pv (' ' :: ((jsonStringifyF fuelS ind2 p.2).toList ++
            (',' :: '\n' :: (ind2.toList ++
              ((joinStringifyFields (jsonStringifyF fuelS ind2) (",\n" ++ ind2)
                q qs).toList ++ ('\n' :: (ind.toList ++ rbraceChar :: rest))))))) =
          some (p.2, ',' :: '\n' :: (ind2.toList ++
            ((joinStringifyFields (jsonStringifyF fuelS ind2) (",\n" ++ ind2)
              q qs).toList ++ ('\n' :: (ind.toList ++ rbraceChar :: rest))))) := by
        rw [show (' ' :: ((jsonStringifyF fuelS ind2 p.2).toList ++
            (',' :: '\n' :: (ind2.toList ++
              ((joinStringifyFields (jsonStringifyF fuelS ind2) (",\n" ++ ind2)
                q qs).toList ++ ('\n' :: (ind.toList ++ rbraceChar :: rest))))))) =
          ([' '] : List Char) ++ ((jsonStringifyF fuelS ind2 p.2).toList ++
            (',' :: '\n' :: (ind2.toList ++
              ((joinStringifyFields (jsonStringifyF fuelS ind2) (",\n" ++ ind2)
                q qs).toList ++ ('\n' :: (ind.toList ++ rbraceChar :: rest)))))) from rfl]
        rw [Hws [' '] _ (by intro c hc; simp at hc; subst hc; rfl)]
        exact H p (List.mem_cons_self _ _) _ (by
          intro c hc
          injection hc with h1
          subst h1
          exact ⟨by decide, by decide, by decide, by decide⟩)
      have hskc : skipJWs (',' :: '\n' :: (ind2.toList ++
            ((joinStringifyFields (jsonStringifyF fuelS ind2) (",\n" ++ ind2)
              q qs).toList ++ ('\n' :: (ind.toList ++ rbraceChar :: rest))))) =
          ',' :: '\n' :: (ind2.toList ++
            ((joinStringifyFields (jsonStringifyF fuelS ind2) (",\n" ++ ind2)
              q qs).toList ++ ('\n' :: (ind.toList ++ rbraceChar :: rest)))) :=
        skipJWs_not_ws _ (by intro c hc; injection hc with h1; subst h1; rfl)
      simp only [hsk1, pStringBody_escape, hsk3, hpv, hskc]
      rw [if_pos trivial]
      have hstrip : pFieldsAux pv s ('\n' :: (ind2.toList ++
            ((joinStringifyFields (jsonStringifyF fuelS ind2) (",\n" ++ ind2)
              q qs).toList ++ ('\n' :: (ind.toList ++ rbraceChar :: rest))))) =
          pFieldsAux pv s
            ((joinStringifyFields (jsonStringifyF fuelS ind2) (",\n" ++ ind2)
              q qs).toList ++ ('\n' :: (ind.toList ++ rbraceChar :: rest))) := by
        rw [show ('\n' :: (ind2.toList ++
            ((joinStringifyFields (jsonStringifyF fuelS ind2) (",\n" ++ ind2)
              q qs).toList ++ ('\n' :: (ind.toList ++ rbraceChar :: rest))))) =
          ('\n' :: ind2.toList) ++
            ((joinStringifyFields (jsonStringifyF fuelS ind2) (",\n" ++ ind2)
              q qs).toList ++ ('\n' :: (ind.toList ++ rbraceChar :: rest))) from by simp]
        exact pFieldsAux_ws pv s _ _ (by
          intro c hc
          rcases List.mem_cons.mp hc with rfl | hc2
          · rfl
          · exact hind2 c hc2)
      rw [hstrip]
      simp only [ih q s rest (by simp only [List.length_cons] at hsteps; omega)
        (fun kv hkv rest2 h2 => H kv (List.mem_cons_of_mem _ hkv) rest2 h2)]
      rfl

theorem jsonOK_pos {n : ℕ} {v : Json} (h : JsonOK n v) : 1 ≤ n := by
  cases h <;> omega

theorem jsonDepthOK_pos {n : ℕ} {v : Json} (h : JsonDepthOK n v) : 1 ≤ n := by
  cases h <;> omega

theorem ind2_ws (ind : String) (hind : ∀ c ∈ ind.toList, isJsonWs c = true) :
    ∀ c ∈ (ind ++ "  ").toList, isJsonWs c = true := by
  intro c hc
  rw [toList_append_str] at hc
  rcases List.mem_append.mp hc with hc2 | hc2
  · exact hind c hc2
  · rcases List.mem_cons.mp hc2 with rfl | hc3
    · rfl
    · rcases List.mem_cons.mp hc3 with rfl | hc4
      · rfl
      · simp at hc4

theorem pVal_round : ∀ (fuelP : ℕ) (n : ℕ) (v : Json) (d fuelS : ℕ) (ind : String)
    (rest : List Char),
    JsonOK n v → n ≤ fuelP → JsonDepthOK d v → d ≤ fuelS →
    (∀ c ∈ ind.toList, isJsonWs c = true) →
    (∀ c, rest.head? = some c → isDigitChar c = false ∧ c ≠ '.' ∧ c ≠ 'e' ∧ c ≠ 'E') →
    pVal fuelP ((jsonStringifyF fuelS ind v).toList ++ rest) = some (v, rest) := by
  intro fuelP
  induction fuelP using Nat.strong_induction_on with
  | _ fuelP IH =>
      intro n v d fuelS ind rest hOK hnP hD hdS hind hrest
      obtain ⟨fP, rfl⟩ : ∃ fP, fuelP = fP + 1 := ⟨fuelP - 1, by have := jsonOK_pos hOK; omega⟩
      obtain ⟨fS, rfl⟩ : ∃ fS, fuelS = fS + 1 := ⟨fuelS - 1, by have := jsonDepthOK_pos hD; omega⟩
      cases hOK with
      | null n2 =>
          rw [show (jsonStringifyF (fS + 1) ind .null).toList ++ rest =
            'n' :: 'u' :: 'l' :: 'l' :: rest from rfl]
          rfl
      | bool n2 b =>
          cases b
          · rw [show (jsonStringifyF (fS + 1) ind (.bool false)).toList ++ rest =
              'f' :: 'a' :: 'l' :: 's' :: 'e' :: rest from rfl]
            rfl
          · rw [show (jsonStringifyF (fS + 1) ind (.bool true)).toList ++ rest =
              't' :: 'r' :: 'u' :: 'e' :: rest from rfl]
            rfl
      | str n2 s =>
          have hin : (jsonStringifyF (fS + 1) ind (.str s)).toList ++ rest =
              '"' :: ((s.toList.map escapeJChar).flatten ++ ('"' :: rest)) := by
            rw [show (jsonStringifyF (fS + 1) ind (.str s)).toList =
              '"' :: ((s.toList.map escapeJChar).flatten ++ ['"']) from rfl]
            simp
          rw [hin, pVal, skipJWs_not_ws _ (by
            intro c hc
            injection hc with h1
            subst h1
            rfl)]
          simp only [pStringBody_escape]
          rfl
      | num n2 q hq =>
          obtain ⟨c, cs0, hcs, hc⟩ := numToString_head q
          have hfacts : isJsonWs c = false ∧ c ≠ 'n' ∧ c ≠ 't' ∧ c ≠ 'f' ∧ c ≠ '"' ∧
              c ≠ '[' ∧ c ≠ lbraceChar ∧ c ≠ ']' ∧ c ≠ rbraceChar := by
            rcases hc with rfl | hdig
            · exact dash_not_special
            · exact digit_not_special c hdig
          obtain ⟨hws0, hn2, ht2, hf2, hq2, hb2, hl2, -, -⟩ := hfacts
          have hin : (jsonStringifyF (fS + 1) ind (.num q)).toList ++ rest =
              c :: (cs0 ++ rest) := by
            rw [show (jsonStringifyF (fS + 1) ind (.num q)).toList =
              (numToString q).toList from rfl, hcs]
            simp
          have hskip : skipJWs ((jsonStringifyF (fS + 1) ind (.num q)).toList ++ rest) =
              c :: (cs0 ++ rest) := by
            rw [hin]
            exact skipJWs_not_ws _ (by
              intro x hx
              injection hx with h1
              subst h1
              exact hws0)
          rw [pVal_catchall fP _ c (cs0 ++ rest) hskip hn2 ht2 hf2 hq2 hb2 hl2]
          rw [show c :: (cs0 ++ rest) = (numToString q).toList ++ rest from by rw [hcs]; simp]
          rw [pNumber_numToString q hq rest hrest, Option.map_some']
      | arr n2 items hlen hitems =>
          cases hD with
          | arr d2 _ hditems =>
              cases items with
              | nil =>
                  rw [show (jsonStringifyF (fS + 1) ind (.arr [])).toList ++ rest =
                    '[' :: ']' :: rest from rfl]
                  rfl
              | cons x xs =>
                  have hn3 : 1 ≤ n2 := jsonOK_pos (hitems x (List.mem_cons_self _ _))
                  have hd3 : 1 ≤ d2 := jsonDepthOK_pos (hditems x (List.mem_cons_self _ _))
                  obtain ⟨fS2, rfl⟩ : ∃ fS2, fS = fS2 + 1 := ⟨fS - 1, by omega⟩
                  have hind2 := ind2_ws ind hind
                  have hin : (jsonStringifyF (fS2 + 1 + 1) ind (.arr (x :: xs))).toList ++ rest =
                      '[' :: ('\n' :: ((ind ++ "  ").toList ++
                        ((joinStringifyItems (jsonStringifyF (fS2 + 1) (ind ++ "  "))
                          (",\n" ++ (ind ++ "  ")) x xs).toList ++
                          ('\n' :: (ind.toList ++ ']' :: rest))))) := by
                    rw [show (jsonStringifyF (fS2 + 1 + 1) ind (.arr (x :: xs))) =
                      "[\n" ++ (ind ++ "  ") ++ joinStringifyItems
                        (jsonStringifyF (fS2 + 1) (ind ++ "  "))
                        (",\n" ++ (ind ++ "  ")) x xs ++ "\n" ++ ind ++ "]" from rfl]
                    rw [toList_append_str, toList_append_str, toList_append_str,
                      toList_append_str, toList_append_str]
                    rw [show ("[\n" : String).toList = ['[', '\n'] from rfl,
                      show ("\n" : String).toList = ['\n'] from rfl,
                      show ("]" : String).toList = [']'] from rfl]
                    simp
                  have hjoin : ∃ T, (joinStringifyItems (jsonStringifyF (fS2 + 1) (ind ++ "  "))
                      (",\n" ++ (ind ++ "  ")) x xs).toList ++
                        ('\n' :: (ind.toList ++ ']' :: rest)) =
                      (jsonStringifyF (fS2 + 1) (ind ++ "  ") x).toList ++ T := by
                    cases xs with
                    | nil => exact ⟨'\n' :: (ind.toList ++ ']' :: rest), by rw [joinStringifyItems]⟩
                    | cons y ys =>
                        refine ⟨(",\n" ++ (ind ++ "  ")).toList ++
                          ((joinStringifyItems (jsonStringifyF (fS2 + 1) (ind ++ "  "))
                            (",\n" ++ (ind ++ "  ")) y ys).toList ++
                            ('\n' :: (ind.toList ++ ']' :: rest))), ?_⟩
                        rw [joinStringifyItems, toList_append_str, toList_append_str]
                        simp
                  obtain ⟨T, hT⟩ := hjoin
                  obtain ⟨hskipT, c, cs4, hcT, hcne⟩ := strF_skip_ne fS2 (ind ++ "  ") x T
                  have hskip2 : skipJWs ('\n' :: ((ind ++ "  ").toList ++
                      ((joinStringifyItems (jsonStringifyF (fS2 + 1) (ind ++ "  "))
                        (",\n" ++ (ind ++ "  ")) x xs).toList ++
                        ('\n' :: (ind.toList ++ ']' :: rest))))) = c :: cs4 := by
                    rw [show ('\n' :: ((ind ++ "  ").toList ++
                        ((joinStringifyItems (jsonStringifyF (fS2 + 1) (ind ++ "  "))
                          (",\n" ++ (ind ++ "  ")) x xs).toList ++
                          ('\n' :: (ind.toList ++ ']' :: rest))))) =
                      ('\n' :: (ind ++ "  ").toList) ++
                        ((joinStringifyItems (jsonStringifyF (fS2 + 1) (ind ++ "  "))
                          (",\n" ++ (ind ++ "  ")) x xs).toList ++
                          ('\n' :: (ind.toList ++ ']' :: rest))) from by simp]
                    rw [skipJWs_append_ws _ _ (by
                      intro w hw
                      rcases List.mem_cons.mp hw with rfl | hw2
                      · rfl
                      · exact hind2 w hw2)]
                    rw [hT, hskipT, hcT]
                  have hskip : skipJWs ((jsonStringifyF (fS2 + 1 + 1) ind
                      (.arr (x :: xs))).toList ++ rest) =
                      '[' :: ('\n' :: ((ind ++ "  ").toList ++
                        ((joinStringifyItems (jsonStringifyF (fS2 + 1) (ind ++ "  "))
                          (",\n" ++ (ind ++ "  ")) x xs).toList ++
                          ('\n' :: (ind.toList ++ ']' :: rest))))) := by
                    rw [hin]
                    exact skipJWs_not_ws _ (by
                      intro w hw
                      injection hw with h1
                      subst h1
                      rfl)
                  rw [pVal_arr_go fP _ _ hskip c cs4 hskip2 hcne]
                  have hstrip : pItemsAux (pVal fP) (fP + 1)
                      ('\n' :: ((ind ++ "  ").toList ++
                        ((joinStringifyItems (jsonStringifyF (fS2 + 1) (ind ++ "  "))
                          (",\n" ++ (ind ++ "  ")) x xs).toList ++
                          ('\n' :: (ind.toList ++ ']' :: rest))))) =
                      pItemsAux (pVal fP) (fP + 1)
                        ((joinStringifyItems (jsonStringifyF (fS2 + 1) (ind ++ "  "))
                          (",\n" ++ (ind ++ "  ")) x xs).toList ++
                          ('\n' :: (ind.toList ++ ']' :: rest))) := by
                    rw [show ('\n' :: ((ind ++ "  ").toList ++
                        ((joinStringifyItems (jsonStringifyF (fS2 + 1) (ind ++ "  "))
                          (",\n" ++ (ind ++ "  ")) x xs).toList ++
                          ('\n' :: (ind.toList ++ ']' :: rest))))) =
                      ('\n' :: (ind ++ "  ").toList) ++
                        ((joinStringifyItems (jsonStringifyF (fS2 + 1) (ind ++ "  "))
                          (",\n" ++ (ind ++ "  ")) x xs).toList ++
                          ('\n' :: (ind.toList ++ ']' :: rest))) from by simp]
                    exact pItemsAux_ws _ (fun ws cs h => pVal_ws fP ws cs h) _ _ _ (by
                      intro w hw
                      rcases List.mem_cons.mp hw with rfl | hw2
                      · rfl
                      · exact hind2 w hw2)
                  rw [hstrip]
                  rw [pItemsAux_round (pVal fP) (fS2 + 1) ind (ind ++ "  ") hind hind2
                    (fun ws cs h => pVal_ws fP ws cs h) xs x (fP + 1) rest
                    (by simp only [List.length_cons] at hlen; omega)
                    (fun v hv rest2 h2 => IH fP (Nat.lt_succ_self fP) n2 v d2 (fS2 + 1)
                      (ind ++ "  ") rest2 (hitems v hv) (by omega) (hditems v hv) (by omega)
                      hind2 h2)]
      | obj n2 fields hlen hfields =>
          cases hD with
          | obj d2 _ hdfields =>
              cases fields with
              | nil =>
                  have hin : (jsonStringifyF (fS + 1) ind (.obj [])).toList ++ rest =
                      lbraceChar :: rbraceChar :: rest := by
                    rw [show (jsonStringifyF (fS + 1) ind (.obj [])) = "\x7b\x7d" from rfl]
                    rw [show ("\x7b\x7d" : String).toList = [lbraceChar, rbraceChar] from by decide]
                    simp
                  rw [hin]
                  rfl
              | cons p ps =>
                  have hn3 : 1 ≤ n2 := jsonOK_pos (hfields p (List.mem_cons_self _ _))
                  have hd3 : 1 ≤ d2 := jsonDepthOK_pos (hdfields p (List.mem_cons_self _ _))
                  obtain ⟨fS2, rfl⟩ : ∃ fS2, fS = fS2 + 1 := ⟨fS - 1, by omega⟩
                  have hind2 := ind2_ws ind hind
                  have hin : (jsonStringifyF (fS2 + 1 + 1) ind (.obj (p :: ps))).toList ++ rest =
                      lbraceChar :: ('\n' :: ((ind ++ "  ").toList ++
                        ((joinStringifyFields (jsonStringifyF (fS2 + 1) (ind ++ "  "))
                          (",\n" ++ (ind ++ "  ")) p ps).toList ++
                          ('\n' :: (ind.toList ++ rbraceChar :: rest))))) := by
                    rw [show (jsonStringifyF (fS2 + 1 + 1) ind (.obj (p :: ps))) =
                      "\x7b\n" ++ (ind ++ "  ") ++ joinStringifyFields
                        (jsonStringifyF (fS2 + 1) (ind ++ "  "))
                        (",\n" ++ (ind ++ "  ")) p ps ++ "\n" ++ ind ++ "\x7d" from rfl]
                    rw [toList_append_str, toList_append_str, toList_append_str,
                      toList_append_str, toList_append_str]
                    rw [show ("\x7b\n" : String).toList = [lbraceChar, '\n'] from by decide,
                      show ("\n" : String).toList = ['\n'] from rfl,
                      show ("\x7d" : String).toList = [rbraceChar] from by decide]
                    simp
                  have hjoinF : ∃ T, (joinStringifyFields (jsonStringifyF (fS2 + 1) (ind ++ "  "))
                      (",\n" ++ (ind ++ "  ")) p ps).toList ++
                        ('\n' :: (ind.toList ++ rbraceChar :: rest)) =
                      '"' :: T := by
                    cases ps with
                    | nil =>
                        refine ⟨((p.1.toList.map escapeJChar).flatten ++ ['"']) ++
                          ([':', ' '] ++ ((jsonStringifyF (fS2 + 1) (ind ++ "  ") p.2).toList ++
                            ('\n' :: (ind.toList ++ rbraceChar :: rest)))), ?_⟩
                        rw [joinStringifyFields, toList_append_str, toList_append_str]
                        rw [show (quoteJString p.1).toList =
                          '"' :: ((p.1.toList.map escapeJChar).flatten ++ ['"']) from rfl]
                        rw [show (": " : String).toList = [':', ' '] from rfl]
                        simp
                    | cons q qs =>
                        refine ⟨((p.1.toList.map escapeJChar).flatten ++ ['"']) ++
                          ([':', ' '] ++ ((jsonStringifyF (fS2 + 1) (ind ++ "  ") p.2).toList ++
                            ((",\n" ++ (ind ++ "  ")).toList ++
                              ((joinStringifyFields (jsonStringifyF (fS2 + 1) (ind ++ "  "))
                                (",\n" ++ (ind ++ "  ")) q qs).toList ++
                                ('\n' :: (ind.toList ++ rbraceChar :: rest)))))), ?_⟩
                        rw [joinStringifyFields, toList_append_str, toList_append_str,
                          toList_append_str, toList_append_str]
                        rw [show (quoteJString p.1).toList =
                          '"' :: ((p.1.toList.map escapeJChar).flatten ++ ['"']) from rfl]
                        rw [show (": " : String).toList = [':', ' '] from rfl]
                        simp
                  obtain ⟨T, hT⟩ := hjoinF
                  have hskip2 : skipJWs ('\n' :: ((ind ++ "  ").toList ++
                      ((joinStringifyFields (jsonStringifyF (fS2 + 1) (ind ++ "  "))
                        (",\n" ++ (ind ++ "  ")) p ps).toList ++
                        ('\n' :: (ind.toList ++ rbraceChar :: rest))))) = '"' :: T := by
                    rw [show ('\n' :: ((ind ++ "  ").toList ++
                        ((joinStringifyFields (jsonStringifyF (fS2 + 1) (ind ++ "  "))
                          (",\n" ++ (ind ++ "  ")) p ps).toList ++
                          ('\n' :: (ind.toList ++ rbraceChar :: rest))))) =
                      ('\n' :: (ind ++ "  ").toList) ++
                        ((joinStringifyFields (jsonStringifyF (fS2 + 1) (ind ++ "  "))
                          (",\n" ++ (ind ++ "  ")) p ps).toList ++
                          ('\n' :: (ind.toList ++ rbraceChar :: rest))) from by simp]
                    rw [skipJWs_append_ws _ _ (by
                      intro w hw
                      rcases List.mem_cons.mp hw with rfl | hw2
                      · rfl
                      · exact hind2 w hw2)]
                    rw [hT]
                    exact skipJWs_not_ws _ (by
                      intro w hw
                      injection hw with h1
                      subst h1
                      rfl)
                  have hskip : skipJWs ((jsonStringifyF (fS2 + 1 + 1) ind
                      (.obj (p :: ps))).toList ++ rest) =
                      lbraceChar :: ('\n' :: ((ind ++ "  ").toList ++
                        ((joinStringifyFields (jsonStringifyF (fS2 + 1) (ind ++ "  "))
                          (",\n" ++ (ind ++ "  ")) p ps).toList ++
                          ('\n' :: (ind.toList ++ rbraceChar :: rest))))) := by
                    rw [hin]
                    exact skipJWs_not_ws _ (by
                      intro w hw
                      injection hw with h1
                      subst h1
                      decide)
                  rw [pVal_obj_go fP _ _ hskip '"' T hskip2 (by decide)]
                  have hstrip : pFieldsAux (pVal fP) (fP + 1)
                      ('\n' :: ((ind ++ "  ").toList ++
                        ((joinStringifyFields (jsonStringifyF (fS2 + 1) (ind ++ "  "))
                          (",\n" ++ (ind ++ "  ")) p ps).toList ++
                          ('\n' :: (ind.toList ++ rbraceChar :: rest))))) =
                      pFieldsAux (pVal fP) (fP + 1)
                        ((joinStringifyFields (jsonStringifyF (fS2 + 1) (ind ++ "  "))
                          (",\n" ++ (ind ++ "  ")) p ps).toList ++
                          ('\n' :: (ind.toList ++ rbraceChar :: rest))) := by
                    rw [show ('\n' :: ((ind ++ "  ").toList ++
                        ((joinStringifyFields (jsonStringifyF (fS2 + 1) (ind ++ "  "))
                          (",\n" ++ (ind ++ "  ")) p ps).toList ++
                          ('\n' :: (ind.toList ++ rbraceChar :: rest))))) =
                      ('\n' :: (ind ++ "  ").toList) ++
                        ((joinStringifyFields (jsonStringifyF (fS2 + 1) (ind ++ "  "))
                          (",\n" ++ (ind ++ "  ")) p ps).toList ++
                          ('\n' :: (ind.toList ++ rbraceChar :: rest))) from by simp]
                    exact pFieldsAux_ws _ _ _ _ (by
                      intro w hw
                      rcases List.mem_cons.mp hw with rfl | hw2
                      · rfl
                      · exact hind2 w hw2)
                  rw [hstrip]
                  rw [pFieldsAux_round (pVal fP) (fS2 + 1) ind (ind ++ "  ") hind hind2
                    (fun ws cs h => pVal_ws fP ws cs h) ps p (fP + 1) rest
                    (by simp only [List.length_cons] at hlen; omega)
                    (fun kv hkv rest2 h2 => IH fP (Nat.lt_succ_self fP) n2 kv.2 d2 (fS2 + 1)
                      (ind ++ "  ") rest2 (hfields kv hkv) (by omega) (hdfields kv hkv)
                      (by omega) hind2 h2)]

theorem strF_len_pos : ∀ (fuel : ℕ) (ind : String) (v : Json),
    1 ≤ (jsonStringifyF (fuel + 1) ind v).length := by
  intro fuel ind v
  cases v with
  | null => exact (by decide : 1 ≤ ("null" : String).length)
  | bool b =>
      cases b
      · exact (by decide : 1 ≤ ("false" : String).length)
      · exact (by decide : 1 ≤ ("true" : String).length)
  | num q =>
      show 1 ≤ (numToString q).length
      obtain ⟨c, cs, hcs, -⟩ := numToString_head q
      rw [show (numToString q).length = (numToString q).toList.length from rfl, hcs]
      simp
  | str s =>
      show 1 ≤ (quoteJString s).length
      rw [show (quoteJString s).length =
        ('"' :: ((s.toList.map escapeJChar).flatten ++ ['"'])).length from rfl]
      simp
  | arr items =>
      cases items with
      | nil => exact (by decide : 1 ≤ ("[]" : String).length)
      | cons x xs =>
          rw [show (jsonStringifyF (fuel + 1) ind (.arr (x :: xs))) =
            "[\n" ++ (ind ++ "  ") ++ joinStringifyItems (jsonStringifyF fuel (ind ++ "  "))
              (",\n" ++ (ind ++ "  ")) x xs ++ "\n" ++ ind ++ "]" from rfl]
          simp [String.length_append]
          have h2 : ("[\n" : String).length = 2 := rfl
          omega
  | obj fields =>
      cases fields with
      | nil => exact (by decide : 1 ≤ ("\x7b\x7d" : String).length)
      | cons p ps =>
          rw [show (jsonStringifyF (fuel + 1) ind (.obj (p :: ps))) =
            "\x7b\n" ++ (ind ++ "  ") ++ joinStringifyFields (jsonStringifyF fuel (ind ++ "  "))
              (",\n" ++ (ind ++ "  ")) p ps ++ "\n" ++ ind ++ "\x7d" from rfl]
          simp [String.length_append]
          have h2 : ("\x7b\n" : String).length = 2 := rfl
          omega

theorem joinItems_len (f : Json → String) (sep : String) :
    ∀ (xs : List Json) (x : Json), (∀ v ∈ x :: xs, 1 ≤ (f v).length) →
    (∀ v ∈ x :: xs, (f v).length ≤ (joinStringifyItems f sep x xs).length) ∧
    (x :: xs).length ≤ (joinStringifyItems f sep x xs).length := by
  intro xs
  induction xs with
  | nil =>
      intro x h
      constructor
      · intro v hv
        rcases List.mem_cons.mp hv with rfl | hv2
        · rw [joinStringifyItems]
        · simp at hv2
      · rw [joinStringifyItems]
        simpa using h x (List.mem_cons_self _ _)
  | cons y ys ih =>
      intro x h
      have ih2 := ih y (fun v hv => h v (List.mem_cons_of_mem _ hv))
      have hlen : (joinStringifyItems f sep x (y :: ys)).length =
          (f x).length + sep.length + (joinStringifyItems f sep y ys).length := by
        rw [joinStringifyItems, String.length_append, String.length_append]
      constructor
      · intro v hv
        rcases List.mem_cons.mp hv with rfl | hv2
        · rw [hlen]
          omega
        · have h3 := ih2.1 v hv2
          rw [hlen]
          omega
      · have h4 := ih2.2
        have h5 := h x (List.mem_cons_self _ _)
        rw [hlen]
        simp only [List.length_cons] at h4 ⊢
        omega

theorem joinFields_len (f : Json → String) (sep : String) :
    ∀ (ps : List (String × Json)) (p : String × Json),
    (∀ kv ∈ p :: ps, 1 ≤ (f kv.2).length) →
    (∀ kv ∈ p :: ps, (f kv.2).length ≤ (joinStringifyFields f sep p ps).length) ∧
    (p :: ps).length ≤ (joinStringifyFields f sep p ps).length := by
  intro ps
  induction ps with
  | nil =>
      intro p h
      have hlen : (joinStringifyFields f sep p []).length =
          (quoteJString p.1).length + (": " : String).length + (f p.2).length := by
        rw [joinStringifyFields, String.length_append, String.length_append]
      constructor
      · intro kv hkv
        rcases List.mem_cons.mp hkv with rfl | hv2
        · rw [hlen]
          omega
        · simp at hv2
      · rw [hlen]
        have h5 := h p (List.mem_cons_self _ _)
        simp only [List.length_cons, List.length_nil]
        omega
  | cons q qs ih =>
      intro p h
      have ih2 := ih q (fun kv hkv => h kv (List.mem_cons_of_mem _ hkv))
      have hlen : (joinStringifyFields f sep p (q :: qs)).length =
          (quoteJString p.1).length + (": " : String).length + (f p.2).length +
            sep.length + (joinStringifyFields f sep q qs).length := by
        rw [joinStringifyFields, String.length_append, String.length_append,
          String.length_append, String.length_append]
      constructor
      · intro kv hkv
        rcases List.mem_cons.mp hkv with rfl | hv2
        · rw [hlen]
          omega
        · have h3 := ih2.1 kv hv2
          rw [hlen]
          omega
      · have h4 := ih2.2
        have h5 := h p (List.mem_cons_self _ _)
        rw [hlen]
        simp only [List.length_cons] at h4 ⊢
        omega

theorem jsonOK_of_len : ∀ (d : ℕ) (v : Json), JsonDepthOK d v → ∀ (fuelS : ℕ) (ind : String),
    d ≤ fuelS → JsonOK ((jsonStringifyF fuelS ind v).length + 1) v := by
  intro d v h
  induction h with
  | null n => intro fuelS ind hd; exact .null _
  | bool n b => intro fuelS ind hd; exact .bool _ b
  | num n q hq => intro fuelS ind hd; exact .num _ q hq
  | str n s => intro fuelS ind hd; exact .str _ s
  | arr n items hitems ih =>
      intro fuelS ind hd
      obtain ⟨fS, rfl⟩ : ∃ fS, fuelS = fS + 1 := ⟨fuelS - 1, by omega⟩
      cases items with
      | nil =>
          exact .arr _ [] (by simp) (fun v hv => absurd hv (List.not_mem_nil v))
      | cons x xs =>
          have hfmem : ∀ v ∈ x :: xs, 1 ≤ (jsonStringifyF fS (ind ++ "  ") v).length := by
            intro v hv
            have hdv := hitems v hv
            have h1 : 1 ≤ n := jsonDepthOK_pos hdv
            obtain ⟨fS2, rfl⟩ : ∃ fS2, fS = fS2 + 1 := ⟨fS - 1, by omega⟩
            exact strF_len_pos fS2 _ v
          obtain ⟨hJ1, hJ2⟩ := joinItems_len (jsonStringifyF fS (ind ++ "  "))
            (",\n" ++ (ind ++ "  ")) xs x hfmem
          have hLlen : (jsonStringifyF (fS + 1) ind (.arr (x :: xs))).length =
              2 + (ind ++ "  ").length +
                (joinStringifyItems (jsonStringifyF fS (ind ++ "  "))
                  (",\n" ++ (ind ++ "  ")) x xs).length + 1 + ind.length + 1 := by
            rw [show (jsonStringifyF (fS + 1) ind (.arr (x :: xs))) =
              "[\n" ++ (ind ++ "  ") ++ joinStringifyItems (jsonStringifyF fS (ind ++ "  "))
                (",\n" ++ (ind ++ "  ")) x xs ++ "\n" ++ ind ++ "]" from rfl]
            simp [String.length_append]
            have e1 : ("[\n" : String).length = 2 := rfl
            have e2 : ("\n" : String).length = 1 := rfl
            have e3 : ("]" : String).length = 1 := rfl
            have e4 : ("  " : String).length = 2 := rfl
            omega
          refine .arr _ _ ?_ ?_
          · rw [hLlen]
            omega
          · intro v hv
            have hOKv := ih v hv fS (ind ++ "  ") (by omega)
            refine jsonOK_mono _ v hOKv _ ?_
            have := hJ1 v hv
            rw [hLlen]
            omega
  | obj n fields hfields ih =>
      intro fuelS ind hd
      obtain ⟨fS, rfl⟩ : ∃ fS, fuelS = fS + 1 := ⟨fuelS - 1, by omega⟩
      cases fields with
      | nil =>
          exact .obj _ [] (by simp) (fun p hp => absurd hp (List.not_mem_nil p))
      | cons p ps =>
          have hfmem : ∀ kv ∈ p :: ps, 1 ≤ (jsonStringifyF fS (ind ++ "  ") kv.2).length := by
            intro kv hkv
            have hdv := hfields kv hkv
            have h1 : 1 ≤ n := jsonDepthOK_pos hdv
            obtain ⟨fS2, rfl⟩ : ∃ fS2, fS = fS2 + 1 := ⟨fS - 1, by omega⟩
            exact strF_len_pos fS2 _ kv.2
          obtain ⟨hJ1, hJ2⟩ := joinFields_len (jsonStringifyF fS (ind ++ "  "))
            (",\n" ++ (ind ++ "  ")) ps p hfmem
          have hLlen : (jsonStringifyF (fS + 1) ind (.obj (p :: ps))).length =
              2 + (ind ++ "  ").length +
                (joinStringifyFields (jsonStringifyF fS (ind ++ "  "))
                  (",\n" ++ (ind ++ "  ")) p ps).length + 1 + ind.length + 1 := by
            rw [show (jsonStringifyF (fS + 1) ind (.obj (p :: ps))) =
              "\x7b\n" ++ (ind ++ "  ") ++ joinStringifyFields (jsonStringifyF fS (ind ++ "  "))
                (",\n" ++ (ind ++ "  ")) p ps ++ "\n" ++ ind ++ "\x7d" from rfl]
            simp [String.length_append]
            have e1 : ("\x7b\n" : String).length = 2 := rfl
            have e2 : ("\n" : String).length = 1 := rfl
            have e3 : ("\x7d" : String).length = 1 := rfl
            have e4 : ("  " : String).length = 2 := rfl
            omega
          refine .obj _ _ ?_ ?_
          · rw [hLlen]
            omega
          · intro kv hkv
            have hOKv := ih kv hkv fS (ind ++ "  ") (by omega)
            refine jsonOK_mono _ kv.2 hOKv _ ?_
            have := hJ1 kv hkv
            rw [hLlen]
            omega

/-- A JavaScript number whose exact value is a decimal (finite binary
fractions are a subset); `NaN`/infinities are unconstrained since they
serialize to `null`. -/
def jnumDecimal : JNum → Prop
  | .fin q => decimalDen q
  | _ => True

/-- All numeric fields of a product are exact decimals — true of every
number a JavaScript double stores exactly in this app's data (prices with
two decimals, integral counts, ratings with one decimal). -/
def ProductJsonSafe (p : Product) : Prop :=
  jnumDecimal p.preco_original ∧ jnumDecimal p.preco_promocional ∧
  jnumDecimal p.desconto_percentual ∧ jnumDecimal p.avaliacao ∧ jnumDecimal p.vendas

theorem productToJson_depthOK (p : Product) (h : ProductJsonSafe p) :
    JsonDepthOK 3 (FiltersManager.productToJson p) := by
  obtain ⟨h1, h2, h3, h4, h5⟩ := h
  have hstr : ∀ s : String, JsonDepthOK 2 (.str s) := fun s => .str 1 s
  have hnum : ∀ j : JNum, jnumDecimal j →
      JsonDepthOK 2 (match j with | .fin q => Json.num q | _ => Json.null) := by
    intro j hj
    cases j with
    | fin q => exact .num 1 q hj
    | nan => exact .null 1
    | inf b => exact .null 1
  have hdate : ∀ dt : JDate,
      JsonDepthOK 2 (match dt with | .time t => Json.str (isoStringOfMs t) | _ => Json.null) := by
    intro dt
    cases dt with
    | time t => exact .str 1 _
    | null => exact .null 1
    | invalid => exact .null 1
  have harr : ∀ l : List String, JsonDepthOK 2 (.arr (l.map .str)) := by
    intro l
    refine .arr 1 _ ?_
    intro v hv
    obtain ⟨s, -, rfl⟩ := List.mem_map.mp hv
    exact .str 0 s
  refine .obj 2 _ ?_
  intro pr hpr
  simp only [FiltersManager.productToJson, List.mem_cons, List.not_mem_nil, or_false] at hpr
  rcases hpr with rfl | rfl | rfl | rfl | rfl | rfl | rfl | rfl | rfl | rfl | rfl | rfl |
    rfl | rfl | rfl | rfl | rfl
  · exact hstr _
  · exact hstr _
  · exact hstr _
  · exact hnum p.preco_original h1
  · exact hnum p.preco_promocional h2
  · exact hnum p.desconto_percentual h3
  · exact hstr _
  · exact harr _
  · exact hstr _
  · exact harr _
  · exact hstr _
  · exact hnum p.avaliacao h4
  · exact hnum p.vendas h5
  · exact hdate _
  · exact hdate _
  · exact hdate _
  · exact hstr _

theorem productsJson_depthOK (l : List Product) (h : ∀ p ∈ l, ProductJsonSafe p) :
    JsonDepthOK 4 (.arr (l.map FiltersManager.productToJson)) := by
  refine .arr 3 _ ?_
  intro v hv
  obtain ⟨p, hp, rfl⟩ := List.mem_map.mp hv
  exact productToJson_depthOK p (h p hp)

/-- C7: Exporting the filtered products in JSON format produces the
pretty-printed `JSON.stringify` of the product array, and `JSON.parse` of
that exported text succeeds and returns exactly the array of serialized
products — the export/parse round-trip loses nothing.  The hypothesis
states that every numeric field is an exact decimal fraction, which holds
of every number serialized by this application (JavaScript prints such
doubles in plain positional notation, which the embedding's `numToString`
models). -/
theorem c7_json_export_roundtrip (l : List Product) (h : ∀ p ∈ l, ProductJsonSafe p) :
    jsonParse (FiltersManager.exportFilteredProducts l "json") =
      some (.arr (l.map FiltersManager.productToJson)) := by
  have hfmt : FiltersManager.exportFilteredProducts l "json" =
      jsonStringify (.arr (l.map FiltersManager.productToJson)) := by
    rw [FiltersManager.exportFilteredProducts, if_neg (by decide)]
  rw [hfmt]
  have hdepth := productsJson_depthOK l h
  have hOK := jsonOK_of_len 4 _ hdepth 8 "" (by omega)
  have hpv : pVal ((jsonStringify (.arr (l.map FiltersManager.productToJson))).length + 1)
      (jsonStringify (.arr (l.map FiltersManager.productToJson))).toList =
      some (.arr (l.map FiltersManager.productToJson), []) := by
    have hr := pVal_round ((jsonStringifyF 8 "" (.arr (l.map FiltersManager.productToJson))).length + 1)
      ((jsonStringifyF 8 "" (.arr (l.map FiltersManager.productToJson))).length + 1)
      (.arr (l.map FiltersManager.productToJson)) 4 8 "" [] hOK (le_refl _) hdepth (by omega)
      (by intro c hc; simp at hc)
      (by intro c hc; simp at hc)
    rw [List.append_nil] at hr
    exact hr
  rw [jsonParse, hpv]
  rfl

theorem c7_json_export_roundtrip_witness :
    jsonParse (FiltersManager.exportFilteredProducts
      [(⟨"a", "", "", .fin 0, .fin (mkRat 3 2), .fin 0, "", [], "", [], "", .fin 0, .fin 0,
        .null, .null, .null, ""⟩ : Product)] "json") =
      some (.arr ([(⟨"a", "", "", .fin 0, .fin (mkRat 3 2), .fin 0, "", [], "", [], "",
        .fin 0, .fin 0, .null, .null, .null, ""⟩ : Product)].map
          FiltersManager.productToJson)) :=
  c7_json_export_roundtrip _ (by
    intro p hp
    simp at hp
    subst hp
    exact ⟨⟨0, 0, rfl⟩, ⟨1, 0, rfl⟩, ⟨0, 0, rfl⟩, ⟨0, 0, rfl⟩, ⟨0, 0, rfl⟩⟩)
